import Mathlib

/-!
Iso-surface extraction (`umesh/extractIsoSurface.cpp`) and the command line
of the ugrid64 importer (`apps/importUGrid64.cpp`)

A shallow embedding of the marching-cubes kernel, the element lifters, the
blocked dispatch and the sort-based vertex merge of `extractIsoSurface`, and
of the argument parsing of the importer's `main` up to the call of the loader.

Conventions of the embedding
* `float` values are exact rationals (`ℚ`): arithmetic neither rounds nor
  overflows, and negative zero, the infinities and NaN are not represented.
* container sizes and the vertex indices of elements are natural numbers;
  the merge narrows the size of the corner buffer to `int` as the source does
  (`toInt32`), and its `uint32_t` slots hold loop indices below `2^31`; array
  reads and writes are checked and return `none` where the C++ would leave
  the array.
* `memcmp` works on the little-endian bytes of the record; the 32-bit pattern
  of a `float` is given by a function `bits : ℚ → ℕ`, a parameter of the sort.
* the importer's `main` is a function of the arguments `av[1], ..., av[ac-1]`;
  `exit` inside `usage` and the read of `av[ac]` end it with an error value.
-/

namespace umesh

/-! ## Vectors and the raw triangle corner -/

/-- A 3D position, `vec3f`. -/
structure vec3f where
  x : ℚ
  y : ℚ
  z : ℚ
deriving DecidableEq

/-- Position plus scalar, `vec4f`; `w` holds the scalar. -/
structure vec4f where
  x : ℚ
  y : ℚ
  z : ℚ
  w : ℚ
deriving DecidableEq

/-- Three `int`s, `vec3i`: one output triangle. -/
structure vec3i where
  x : Int
  y : Int
  z : Int
deriving DecidableEq

/-- The constructor `vec4f(vec3f, float)`. -/
def vec4f.ofPos (p : vec3f) (s : ℚ) : vec4f := ⟨p.x, p.y, p.z, s⟩

/-- The conversion `vec3f(vec4f)`: the first three components. -/
def vec4f.pos (v : vec4f) : vec3f := ⟨v.x, v.y, v.z⟩

/-- The record `FatVertex`: an interpolated position and the slot `idx`. -/
structure FatVertex where
  pos : vec3f
  idx : Nat
deriving DecidableEq

/-- Array read with an `int` subscript; `none` outside the array. -/
def getInt? {α : Type} (l : List α) (i : Int) : Option α :=
  if i < 0 then none else l[i.toNat]?

/-! ## Case tables -/

/-- The table `vtkMarchingCubesTriangleCases[256][16]`. -/
def vtkMarchingCubesTriangleCases : List (List Int) :=
  [
   ([-1, -1, -1, -1, -1, -1, -1, -1, -1, -1, -1, -1, -1, -1, -1, -1] : List Int),
   ([0, 3, 8, -1, -1, -1, -1, -1, -1, -1, -1, -1, -1, -1, -1, -1] : List Int),
   ([0, 9, 1, -1, -1, -1, -1, -1, -1, -1, -1, -1, -1, -1, -1, -1] : List Int),
   ([1, 3, 8, 9, 1, 8, -1, -1, -1, -1, -1, -1, -1, -1, -1, -1] : List Int),
   ([1, 11, 2, -1, -1, -1, -1, -1, -1, -1, -1, -1, -1, -1, -1, -1] : List Int),
   ([0, 3, 8, 1, 11, 2, -1, -1, -1, -1, -1, -1, -1, -1, -1, -1] : List Int),
   ([9, 11, 2, 0, 9, 2, -1, -1, -1, -1, -1, -1, -1, -1, -1, -1] : List Int),
   ([2, 3, 8, 2, 8, 11, 11, 8, 9, -1, -1, -1, -1, -1, -1, -1] : List Int),
   ([3, 2, 10, -1, -1, -1, -1, -1, -1, -1, -1, -1, -1, -1, -1, -1] : List Int),
   ([0, 2, 10, 8, 0, 10, -1, -1, -1, -1, -1, -1, -1, -1, -1, -1] : List Int),
   ([1, 0, 9, 2, 10, 3, -1, -1, -1, -1, -1, -1, -1, -1, -1, -1] : List Int),
   ([1, 2, 10, 1, 10, 9, 9, 10, 8, -1, -1, -1, -1, -1, -1, -1] : List Int),
   ([3, 1, 11, 10, 3, 11, -1, -1, -1, -1, -1, -1, -1, -1, -1, -1] : List Int),
   ([0, 1, 11, 0, 11, 8, 8, 11, 10, -1, -1, -1, -1, -1, -1, -1] : List Int),
   ([3, 0, 9, 3, 9, 10, 10, 9, 11, -1, -1, -1, -1, -1, -1, -1] : List Int),
   ([9, 11, 8, 11, 10, 8, -1, -1, -1, -1, -1, -1, -1, -1, -1, -1] : List Int),
   ([4, 8, 7, -1, -1, -1, -1, -1, -1, -1, -1, -1, -1, -1, -1, -1] : List Int),
   ([4, 0, 3, 7, 4, 3, -1, -1, -1, -1, -1, -1, -1, -1, -1, -1] : List Int),
   ([0, 9, 1, 8, 7, 4, -1, -1, -1, -1, -1, -1, -1, -1, -1, -1] : List Int),
   ([4, 9, 1, 4, 1, 7, 7, 1, 3, -1, -1, -1, -1, -1, -1, -1] : List Int),
   ([1, 11, 2, 8, 7, 4, -1, -1, -1, -1, -1, -1, -1, -1, -1, -1] : List Int),
   ([3, 7, 4, 3, 4, 0, 1, 11, 2, -1, -1, -1, -1, -1, -1, -1] : List Int),
   ([9, 11, 2, 9, 2, 0, 8, 7, 4, -1, -1, -1, -1, -1, -1, -1] : List Int),
   ([2, 9, 11, 2, 7, 9, 2, 3, 7, 7, 4, 9, -1, -1, -1, -1] : List Int),
   ([8, 7, 4, 3, 2, 10, -1, -1, -1, -1, -1, -1, -1, -1, -1, -1] : List Int),
   ([10, 7, 4, 10, 4, 2, 2, 4, 0, -1, -1, -1, -1, -1, -1, -1] : List Int),
   ([9, 1, 0, 8, 7, 4, 2, 10, 3, -1, -1, -1, -1, -1, -1, -1] : List Int),
   ([4, 10, 7, 9, 10, 4, 9, 2, 10, 9, 1, 2, -1, -1, -1, -1] : List Int),
   ([3, 1, 11, 3, 11, 10, 7, 4, 8, -1, -1, -1, -1, -1, -1, -1] : List Int),
   ([1, 11, 10, 1, 10, 4, 1, 4, 0, 7, 4, 10, -1, -1, -1, -1] : List Int),
   ([4, 8, 7, 9, 10, 0, 9, 11, 10, 10, 3, 0, -1, -1, -1, -1] : List Int),
   ([4, 10, 7, 4, 9, 10, 9, 11, 10, -1, -1, -1, -1, -1, -1, -1] : List Int),
   ([9, 4, 5, -1, -1, -1, -1, -1, -1, -1, -1, -1, -1, -1, -1, -1] : List Int),
   ([9, 4, 5, 0, 3, 8, -1, -1, -1, -1, -1, -1, -1, -1, -1, -1] : List Int),
   ([0, 4, 5, 1, 0, 5, -1, -1, -1, -1, -1, -1, -1, -1, -1, -1] : List Int),
   ([8, 4, 5, 8, 5, 3, 3, 5, 1, -1, -1, -1, -1, -1, -1, -1] : List Int),
   ([1, 11, 2, 9, 4, 5, -1, -1, -1, -1, -1, -1, -1, -1, -1, -1] : List Int),
   ([3, 8, 0, 1, 11, 2, 4, 5, 9, -1, -1, -1, -1, -1, -1, -1] : List Int),
   ([5, 11, 2, 5, 2, 4, 4, 2, 0, -1, -1, -1, -1, -1, -1, -1] : List Int),
   ([2, 5, 11, 3, 5, 2, 3, 4, 5, 3, 8, 4, -1, -1, -1, -1] : List Int),
   ([9, 4, 5, 2, 10, 3, -1, -1, -1, -1, -1, -1, -1, -1, -1, -1] : List Int),
   ([0, 2, 10, 0, 10, 8, 4, 5, 9, -1, -1, -1, -1, -1, -1, -1] : List Int),
   ([0, 4, 5, 0, 5, 1, 2, 10, 3, -1, -1, -1, -1, -1, -1, -1] : List Int),
   ([2, 5, 1, 2, 8, 5, 2, 10, 8, 4, 5, 8, -1, -1, -1, -1] : List Int),
   ([11, 10, 3, 11, 3, 1, 9, 4, 5, -1, -1, -1, -1, -1, -1, -1] : List Int),
   ([4, 5, 9, 0, 1, 8, 8, 1, 11, 8, 11, 10, -1, -1, -1, -1] : List Int),
   ([5, 0, 4, 5, 10, 0, 5, 11, 10, 10, 3, 0, -1, -1, -1, -1] : List Int),
   ([5, 8, 4, 5, 11, 8, 11, 10, 8, -1, -1, -1, -1, -1, -1, -1] : List Int),
   ([9, 8, 7, 5, 9, 7, -1, -1, -1, -1, -1, -1, -1, -1, -1, -1] : List Int),
   ([9, 0, 3, 9, 3, 5, 5, 3, 7, -1, -1, -1, -1, -1, -1, -1] : List Int),
   ([0, 8, 7, 0, 7, 1, 1, 7, 5, -1, -1, -1, -1, -1, -1, -1] : List Int),
   ([1, 3, 5, 3, 7, 5, -1, -1, -1, -1, -1, -1, -1, -1, -1, -1] : List Int),
   ([9, 8, 7, 9, 7, 5, 11, 2, 1, -1, -1, -1, -1, -1, -1, -1] : List Int),
   ([11, 2, 1, 9, 0, 5, 5, 0, 3, 5, 3, 7, -1, -1, -1, -1] : List Int),
   ([8, 2, 0, 8, 5, 2, 8, 7, 5, 11, 2, 5, -1, -1, -1, -1] : List Int),
   ([2, 5, 11, 2, 3, 5, 3, 7, 5, -1, -1, -1, -1, -1, -1, -1] : List Int),
   ([7, 5, 9, 7, 9, 8, 3, 2, 10, -1, -1, -1, -1, -1, -1, -1] : List Int),
   ([9, 7, 5, 9, 2, 7, 9, 0, 2, 2, 10, 7, -1, -1, -1, -1] : List Int),
   ([2, 10, 3, 0, 8, 1, 1, 8, 7, 1, 7, 5, -1, -1, -1, -1] : List Int),
   ([10, 1, 2, 10, 7, 1, 7, 5, 1, -1, -1, -1, -1, -1, -1, -1] : List Int),
   ([9, 8, 5, 8, 7, 5, 11, 3, 1, 11, 10, 3, -1, -1, -1, -1] : List Int),
   ([5, 0, 7, 5, 9, 0, 7, 0, 10, 1, 11, 0, 10, 0, 11, -1] : List Int),
   ([10, 0, 11, 10, 3, 0, 11, 0, 5, 8, 7, 0, 5, 0, 7, -1] : List Int),
   ([10, 5, 11, 7, 5, 10, -1, -1, -1, -1, -1, -1, -1, -1, -1, -1] : List Int),
   ([11, 5, 6, -1, -1, -1, -1, -1, -1, -1, -1, -1, -1, -1, -1, -1] : List Int),
   ([0, 3, 8, 5, 6, 11, -1, -1, -1, -1, -1, -1, -1, -1, -1, -1] : List Int),
   ([9, 1, 0, 5, 6, 11, -1, -1, -1, -1, -1, -1, -1, -1, -1, -1] : List Int),
   ([1, 3, 8, 1, 8, 9, 5, 6, 11, -1, -1, -1, -1, -1, -1, -1] : List Int),
   ([1, 5, 6, 2, 1, 6, -1, -1, -1, -1, -1, -1, -1, -1, -1, -1] : List Int),
   ([1, 5, 6, 1, 6, 2, 3, 8, 0, -1, -1, -1, -1, -1, -1, -1] : List Int),
   ([9, 5, 6, 9, 6, 0, 0, 6, 2, -1, -1, -1, -1, -1, -1, -1] : List Int),
   ([5, 8, 9, 5, 2, 8, 5, 6, 2, 3, 8, 2, -1, -1, -1, -1] : List Int),
   ([2, 10, 3, 11, 5, 6, -1, -1, -1, -1, -1, -1, -1, -1, -1, -1] : List Int),
   ([10, 8, 0, 10, 0, 2, 11, 5, 6, -1, -1, -1, -1, -1, -1, -1] : List Int),
   ([0, 9, 1, 2, 10, 3, 5, 6, 11, -1, -1, -1, -1, -1, -1, -1] : List Int),
   ([5, 6, 11, 1, 2, 9, 9, 2, 10, 9, 10, 8, -1, -1, -1, -1] : List Int),
   ([6, 10, 3, 6, 3, 5, 5, 3, 1, -1, -1, -1, -1, -1, -1, -1] : List Int),
   ([0, 10, 8, 0, 5, 10, 0, 1, 5, 5, 6, 10, -1, -1, -1, -1] : List Int),
   ([3, 6, 10, 0, 6, 3, 0, 5, 6, 0, 9, 5, -1, -1, -1, -1] : List Int),
   ([6, 9, 5, 6, 10, 9, 10, 8, 9, -1, -1, -1, -1, -1, -1, -1] : List Int),
   ([5, 6, 11, 4, 8, 7, -1, -1, -1, -1, -1, -1, -1, -1, -1, -1] : List Int),
   ([4, 0, 3, 4, 3, 7, 6, 11, 5, -1, -1, -1, -1, -1, -1, -1] : List Int),
   ([1, 0, 9, 5, 6, 11, 8, 7, 4, -1, -1, -1, -1, -1, -1, -1] : List Int),
   ([11, 5, 6, 1, 7, 9, 1, 3, 7, 7, 4, 9, -1, -1, -1, -1] : List Int),
   ([6, 2, 1, 6, 1, 5, 4, 8, 7, -1, -1, -1, -1, -1, -1, -1] : List Int),
   ([1, 5, 2, 5, 6, 2, 3, 4, 0, 3, 7, 4, -1, -1, -1, -1] : List Int),
   ([8, 7, 4, 9, 5, 0, 0, 5, 6, 0, 6, 2, -1, -1, -1, -1] : List Int),
   ([7, 9, 3, 7, 4, 9, 3, 9, 2, 5, 6, 9, 2, 9, 6, -1] : List Int),
   ([3, 2, 10, 7, 4, 8, 11, 5, 6, -1, -1, -1, -1, -1, -1, -1] : List Int),
   ([5, 6, 11, 4, 2, 7, 4, 0, 2, 2, 10, 7, -1, -1, -1, -1] : List Int),
   ([0, 9, 1, 4, 8, 7, 2, 10, 3, 5, 6, 11, -1, -1, -1, -1] : List Int),
   ([9, 1, 2, 9, 2, 10, 9, 10, 4, 7, 4, 10, 5, 6, 11, -1] : List Int),
   ([8, 7, 4, 3, 5, 10, 3, 1, 5, 5, 6, 10, -1, -1, -1, -1] : List Int),
   ([5, 10, 1, 5, 6, 10, 1, 10, 0, 7, 4, 10, 0, 10, 4, -1] : List Int),
   ([0, 9, 5, 0, 5, 6, 0, 6, 3, 10, 3, 6, 8, 7, 4, -1] : List Int),
   ([6, 9, 5, 6, 10, 9, 4, 9, 7, 7, 9, 10, -1, -1, -1, -1] : List Int),
   ([11, 9, 4, 6, 11, 4, -1, -1, -1, -1, -1, -1, -1, -1, -1, -1] : List Int),
   ([4, 6, 11, 4, 11, 9, 0, 3, 8, -1, -1, -1, -1, -1, -1, -1] : List Int),
   ([11, 1, 0, 11, 0, 6, 6, 0, 4, -1, -1, -1, -1, -1, -1, -1] : List Int),
   ([8, 1, 3, 8, 6, 1, 8, 4, 6, 6, 11, 1, -1, -1, -1, -1] : List Int),
   ([1, 9, 4, 1, 4, 2, 2, 4, 6, -1, -1, -1, -1, -1, -1, -1] : List Int),
   ([3, 8, 0, 1, 9, 2, 2, 9, 4, 2, 4, 6, -1, -1, -1, -1] : List Int),
   ([0, 4, 2, 4, 6, 2, -1, -1, -1, -1, -1, -1, -1, -1, -1, -1] : List Int),
   ([8, 2, 3, 8, 4, 2, 4, 6, 2, -1, -1, -1, -1, -1, -1, -1] : List Int),
   ([11, 9, 4, 11, 4, 6, 10, 3, 2, -1, -1, -1, -1, -1, -1, -1] : List Int),
   ([0, 2, 8, 2, 10, 8, 4, 11, 9, 4, 6, 11, -1, -1, -1, -1] : List Int),
   ([3, 2, 10, 0, 6, 1, 0, 4, 6, 6, 11, 1, -1, -1, -1, -1] : List Int),
   ([6, 1, 4, 6, 11, 1, 4, 1, 8, 2, 10, 1, 8, 1, 10, -1] : List Int),
   ([9, 4, 6, 9, 6, 3, 9, 3, 1, 10, 3, 6, -1, -1, -1, -1] : List Int),
   ([8, 1, 10, 8, 0, 1, 10, 1, 6, 9, 4, 1, 6, 1, 4, -1] : List Int),
   ([3, 6, 10, 3, 0, 6, 0, 4, 6, -1, -1, -1, -1, -1, -1, -1] : List Int),
   ([6, 8, 4, 10, 8, 6, -1, -1, -1, -1, -1, -1, -1, -1, -1, -1] : List Int),
   ([7, 6, 11, 7, 11, 8, 8, 11, 9, -1, -1, -1, -1, -1, -1, -1] : List Int),
   ([0, 3, 7, 0, 7, 11, 0, 11, 9, 6, 11, 7, -1, -1, -1, -1] : List Int),
   ([11, 7, 6, 1, 7, 11, 1, 8, 7, 1, 0, 8, -1, -1, -1, -1] : List Int),
   ([11, 7, 6, 11, 1, 7, 1, 3, 7, -1, -1, -1, -1, -1, -1, -1] : List Int),
   ([1, 6, 2, 1, 8, 6, 1, 9, 8, 8, 7, 6, -1, -1, -1, -1] : List Int),
   ([2, 9, 6, 2, 1, 9, 6, 9, 7, 0, 3, 9, 7, 9, 3, -1] : List Int),
   ([7, 0, 8, 7, 6, 0, 6, 2, 0, -1, -1, -1, -1, -1, -1, -1] : List Int),
   ([7, 2, 3, 6, 2, 7, -1, -1, -1, -1, -1, -1, -1, -1, -1, -1] : List Int),
   ([2, 10, 3, 11, 8, 6, 11, 9, 8, 8, 7, 6, -1, -1, -1, -1] : List Int),
   ([2, 7, 0, 2, 10, 7, 0, 7, 9, 6, 11, 7, 9, 7, 11, -1] : List Int),
   ([1, 0, 8, 1, 8, 7, 1, 7, 11, 6, 11, 7, 2, 10, 3, -1] : List Int),
   ([10, 1, 2, 10, 7, 1, 11, 1, 6, 6, 1, 7, -1, -1, -1, -1] : List Int),
   ([8, 6, 9, 8, 7, 6, 9, 6, 1, 10, 3, 6, 1, 6, 3, -1] : List Int),
   ([0, 1, 9, 10, 7, 6, -1, -1, -1, -1, -1, -1, -1, -1, -1, -1] : List Int),
   ([7, 0, 8, 7, 6, 0, 3, 0, 10, 10, 0, 6, -1, -1, -1, -1] : List Int),
   ([7, 6, 10, -1, -1, -1, -1, -1, -1, -1, -1, -1, -1, -1, -1, -1] : List Int),
   ([7, 10, 6, -1, -1, -1, -1, -1, -1, -1, -1, -1, -1, -1, -1, -1] : List Int),
   ([3, 8, 0, 10, 6, 7, -1, -1, -1, -1, -1, -1, -1, -1, -1, -1] : List Int),
   ([0, 9, 1, 10, 6, 7, -1, -1, -1, -1, -1, -1, -1, -1, -1, -1] : List Int),
   ([8, 9, 1, 8, 1, 3, 10, 6, 7, -1, -1, -1, -1, -1, -1, -1] : List Int),
   ([11, 2, 1, 6, 7, 10, -1, -1, -1, -1, -1, -1, -1, -1, -1, -1] : List Int),
   ([1, 11, 2, 3, 8, 0, 6, 7, 10, -1, -1, -1, -1, -1, -1, -1] : List Int),
   ([2, 0, 9, 2, 9, 11, 6, 7, 10, -1, -1, -1, -1, -1, -1, -1] : List Int),
   ([6, 7, 10, 2, 3, 11, 11, 3, 8, 11, 8, 9, -1, -1, -1, -1] : List Int),
   ([7, 3, 2, 6, 7, 2, -1, -1, -1, -1, -1, -1, -1, -1, -1, -1] : List Int),
   ([7, 8, 0, 7, 0, 6, 6, 0, 2, -1, -1, -1, -1, -1, -1, -1] : List Int),
   ([2, 6, 7, 2, 7, 3, 0, 9, 1, -1, -1, -1, -1, -1, -1, -1] : List Int),
   ([1, 2, 6, 1, 6, 8, 1, 8, 9, 8, 6, 7, -1, -1, -1, -1] : List Int),
   ([11, 6, 7, 11, 7, 1, 1, 7, 3, -1, -1, -1, -1, -1, -1, -1] : List Int),
   ([11, 6, 7, 1, 11, 7, 1, 7, 8, 1, 8, 0, -1, -1, -1, -1] : List Int),
   ([0, 7, 3, 0, 11, 7, 0, 9, 11, 6, 7, 11, -1, -1, -1, -1] : List Int),
   ([7, 11, 6, 7, 8, 11, 8, 9, 11, -1, -1, -1, -1, -1, -1, -1] : List Int),
   ([6, 4, 8, 10, 6, 8, -1, -1, -1, -1, -1, -1, -1, -1, -1, -1] : List Int),
   ([3, 10, 6, 3, 6, 0, 0, 6, 4, -1, -1, -1, -1, -1, -1, -1] : List Int),
   ([8, 10, 6, 8, 6, 4, 9, 1, 0, -1, -1, -1, -1, -1, -1, -1] : List Int),
   ([9, 6, 4, 9, 3, 6, 9, 1, 3, 10, 6, 3, -1, -1, -1, -1] : List Int),
   ([6, 4, 8, 6, 8, 10, 2, 1, 11, -1, -1, -1, -1, -1, -1, -1] : List Int),
   ([1, 11, 2, 3, 10, 0, 0, 10, 6, 0, 6, 4, -1, -1, -1, -1] : List Int),
   ([4, 8, 10, 4, 10, 6, 0, 9, 2, 2, 9, 11, -1, -1, -1, -1] : List Int),
   ([11, 3, 9, 11, 2, 3, 9, 3, 4, 10, 6, 3, 4, 3, 6, -1] : List Int),
   ([8, 3, 2, 8, 2, 4, 4, 2, 6, -1, -1, -1, -1, -1, -1, -1] : List Int),
   ([0, 2, 4, 4, 2, 6, -1, -1, -1, -1, -1, -1, -1, -1, -1, -1] : List Int),
   ([1, 0, 9, 2, 4, 3, 2, 6, 4, 4, 8, 3, -1, -1, -1, -1] : List Int),
   ([1, 4, 9, 1, 2, 4, 2, 6, 4, -1, -1, -1, -1, -1, -1, -1] : List Int),
   ([8, 3, 1, 8, 1, 6, 8, 6, 4, 6, 1, 11, -1, -1, -1, -1] : List Int),
   ([11, 0, 1, 11, 6, 0, 6, 4, 0, -1, -1, -1, -1, -1, -1, -1] : List Int),
   ([4, 3, 6, 4, 8, 3, 6, 3, 11, 0, 9, 3, 11, 3, 9, -1] : List Int),
   ([11, 4, 9, 6, 4, 11, -1, -1, -1, -1, -1, -1, -1, -1, -1, -1] : List Int),
   ([4, 5, 9, 7, 10, 6, -1, -1, -1, -1, -1, -1, -1, -1, -1, -1] : List Int),
   ([0, 3, 8, 4, 5, 9, 10, 6, 7, -1, -1, -1, -1, -1, -1, -1] : List Int),
   ([5, 1, 0, 5, 0, 4, 7, 10, 6, -1, -1, -1, -1, -1, -1, -1] : List Int),
   ([10, 6, 7, 8, 4, 3, 3, 4, 5, 3, 5, 1, -1, -1, -1, -1] : List Int),
   ([9, 4, 5, 11, 2, 1, 7, 10, 6, -1, -1, -1, -1, -1, -1, -1] : List Int),
   ([6, 7, 10, 1, 11, 2, 0, 3, 8, 4, 5, 9, -1, -1, -1, -1] : List Int),
   ([7, 10, 6, 5, 11, 4, 4, 11, 2, 4, 2, 0, -1, -1, -1, -1] : List Int),
   ([3, 8, 4, 3, 4, 5, 3, 5, 2, 11, 2, 5, 10, 6, 7, -1] : List Int),
   ([7, 3, 2, 7, 2, 6, 5, 9, 4, -1, -1, -1, -1, -1, -1, -1] : List Int),
   ([9, 4, 5, 0, 6, 8, 0, 2, 6, 6, 7, 8, -1, -1, -1, -1] : List Int),
   ([3, 2, 6, 3, 6, 7, 1, 0, 5, 5, 0, 4, -1, -1, -1, -1] : List Int),
   ([6, 8, 2, 6, 7, 8, 2, 8, 1, 4, 5, 8, 1, 8, 5, -1] : List Int),
   ([9, 4, 5, 11, 6, 1, 1, 6, 7, 1, 7, 3, -1, -1, -1, -1] : List Int),
   ([1, 11, 6, 1, 6, 7, 1, 7, 0, 8, 0, 7, 9, 4, 5, -1] : List Int),
   ([4, 11, 0, 4, 5, 11, 0, 11, 3, 6, 7, 11, 3, 11, 7, -1] : List Int),
   ([7, 11, 6, 7, 8, 11, 5, 11, 4, 4, 11, 8, -1, -1, -1, -1] : List Int),
   ([6, 5, 9, 6, 9, 10, 10, 9, 8, -1, -1, -1, -1, -1, -1, -1] : List Int),
   ([3, 10, 6, 0, 3, 6, 0, 6, 5, 0, 5, 9, -1, -1, -1, -1] : List Int),
   ([0, 8, 10, 0, 10, 5, 0, 5, 1, 5, 10, 6, -1, -1, -1, -1] : List Int),
   ([6, 3, 10, 6, 5, 3, 5, 1, 3, -1, -1, -1, -1, -1, -1, -1] : List Int),
   ([1, 11, 2, 9, 10, 5, 9, 8, 10, 10, 6, 5, -1, -1, -1, -1] : List Int),
   ([0, 3, 10, 0, 10, 6, 0, 6, 9, 5, 9, 6, 1, 11, 2, -1] : List Int),
   ([10, 5, 8, 10, 6, 5, 8, 5, 0, 11, 2, 5, 0, 5, 2, -1] : List Int),
   ([6, 3, 10, 6, 5, 3, 2, 3, 11, 11, 3, 5, -1, -1, -1, -1] : List Int),
   ([5, 9, 8, 5, 8, 2, 5, 2, 6, 3, 2, 8, -1, -1, -1, -1] : List Int),
   ([9, 6, 5, 9, 0, 6, 0, 2, 6, -1, -1, -1, -1, -1, -1, -1] : List Int),
   ([1, 8, 5, 1, 0, 8, 5, 8, 6, 3, 2, 8, 6, 8, 2, -1] : List Int),
   ([1, 6, 5, 2, 6, 1, -1, -1, -1, -1, -1, -1, -1, -1, -1, -1] : List Int),
   ([1, 6, 3, 1, 11, 6, 3, 6, 8, 5, 9, 6, 8, 6, 9, -1] : List Int),
   ([11, 0, 1, 11, 6, 0, 9, 0, 5, 5, 0, 6, -1, -1, -1, -1] : List Int),
   ([0, 8, 3, 5, 11, 6, -1, -1, -1, -1, -1, -1, -1, -1, -1, -1] : List Int),
   ([11, 6, 5, -1, -1, -1, -1, -1, -1, -1, -1, -1, -1, -1, -1, -1] : List Int),
   ([10, 11, 5, 7, 10, 5, -1, -1, -1, -1, -1, -1, -1, -1, -1, -1] : List Int),
   ([10, 11, 5, 10, 5, 7, 8, 0, 3, -1, -1, -1, -1, -1, -1, -1] : List Int),
   ([5, 7, 10, 5, 10, 11, 1, 0, 9, -1, -1, -1, -1, -1, -1, -1] : List Int),
   ([11, 5, 7, 11, 7, 10, 9, 1, 8, 8, 1, 3, -1, -1, -1, -1] : List Int),
   ([10, 2, 1, 10, 1, 7, 7, 1, 5, -1, -1, -1, -1, -1, -1, -1] : List Int),
   ([0, 3, 8, 1, 7, 2, 1, 5, 7, 7, 10, 2, -1, -1, -1, -1] : List Int),
   ([9, 5, 7, 9, 7, 2, 9, 2, 0, 2, 7, 10, -1, -1, -1, -1] : List Int),
   ([7, 2, 5, 7, 10, 2, 5, 2, 9, 3, 8, 2, 9, 2, 8, -1] : List Int),
   ([2, 11, 5, 2, 5, 3, 3, 5, 7, -1, -1, -1, -1, -1, -1, -1] : List Int),
   ([8, 0, 2, 8, 2, 5, 8, 5, 7, 11, 5, 2, -1, -1, -1, -1] : List Int),
   ([9, 1, 0, 5, 3, 11, 5, 7, 3, 3, 2, 11, -1, -1, -1, -1] : List Int),
   ([9, 2, 8, 9, 1, 2, 8, 2, 7, 11, 5, 2, 7, 2, 5, -1] : List Int),
   ([1, 5, 3, 3, 5, 7, -1, -1, -1, -1, -1, -1, -1, -1, -1, -1] : List Int),
   ([0, 7, 8, 0, 1, 7, 1, 5, 7, -1, -1, -1, -1, -1, -1, -1] : List Int),
   ([9, 3, 0, 9, 5, 3, 5, 7, 3, -1, -1, -1, -1, -1, -1, -1] : List Int),
   ([9, 7, 8, 5, 7, 9, -1, -1, -1, -1, -1, -1, -1, -1, -1, -1] : List Int),
   ([5, 4, 8, 5, 8, 11, 11, 8, 10, -1, -1, -1, -1, -1, -1, -1] : List Int),
   ([5, 4, 0, 5, 0, 10, 5, 10, 11, 10, 0, 3, -1, -1, -1, -1] : List Int),
   ([0, 9, 1, 8, 11, 4, 8, 10, 11, 11, 5, 4, -1, -1, -1, -1] : List Int),
   ([11, 4, 10, 11, 5, 4, 10, 4, 3, 9, 1, 4, 3, 4, 1, -1] : List Int),
   ([2, 1, 5, 2, 5, 8, 2, 8, 10, 4, 8, 5, -1, -1, -1, -1] : List Int),
   ([0, 10, 4, 0, 3, 10, 4, 10, 5, 2, 1, 10, 5, 10, 1, -1] : List Int),
   ([0, 5, 2, 0, 9, 5, 2, 5, 10, 4, 8, 5, 10, 5, 8, -1] : List Int),
   ([9, 5, 4, 2, 3, 10, -1, -1, -1, -1, -1, -1, -1, -1, -1, -1] : List Int),
   ([2, 11, 5, 3, 2, 5, 3, 5, 4, 3, 4, 8, -1, -1, -1, -1] : List Int),
   ([5, 2, 11, 5, 4, 2, 4, 0, 2, -1, -1, -1, -1, -1, -1, -1] : List Int),
   ([3, 2, 11, 3, 11, 5, 3, 5, 8, 4, 8, 5, 0, 9, 1, -1] : List Int),
   ([5, 2, 11, 5, 4, 2, 1, 2, 9, 9, 2, 4, -1, -1, -1, -1] : List Int),
   ([8, 5, 4, 8, 3, 5, 3, 1, 5, -1, -1, -1, -1, -1, -1, -1] : List Int),
   ([0, 5, 4, 1, 5, 0, -1, -1, -1, -1, -1, -1, -1, -1, -1, -1] : List Int),
   ([8, 5, 4, 8, 3, 5, 9, 5, 0, 0, 5, 3, -1, -1, -1, -1] : List Int),
   ([9, 5, 4, -1, -1, -1, -1, -1, -1, -1, -1, -1, -1, -1, -1, -1] : List Int),
   ([4, 7, 10, 4, 10, 9, 9, 10, 11, -1, -1, -1, -1, -1, -1, -1] : List Int),
   ([0, 3, 8, 4, 7, 9, 9, 7, 10, 9, 10, 11, -1, -1, -1, -1] : List Int),
   ([1, 10, 11, 1, 4, 10, 1, 0, 4, 7, 10, 4, -1, -1, -1, -1] : List Int),
   ([3, 4, 1, 3, 8, 4, 1, 4, 11, 7, 10, 4, 11, 4, 10, -1] : List Int),
   ([4, 7, 10, 9, 4, 10, 9, 10, 2, 9, 2, 1, -1, -1, -1, -1] : List Int),
   ([9, 4, 7, 9, 7, 10, 9, 10, 1, 2, 1, 10, 0, 3, 8, -1] : List Int),
   ([10, 4, 7, 10, 2, 4, 2, 0, 4, -1, -1, -1, -1, -1, -1, -1] : List Int),
   ([10, 4, 7, 10, 2, 4, 8, 4, 3, 3, 4, 2, -1, -1, -1, -1] : List Int),
   ([2, 11, 9, 2, 9, 7, 2, 7, 3, 7, 9, 4, -1, -1, -1, -1] : List Int),
   ([9, 7, 11, 9, 4, 7, 11, 7, 2, 8, 0, 7, 2, 7, 0, -1] : List Int),
   ([3, 11, 7, 3, 2, 11, 7, 11, 4, 1, 0, 11, 4, 11, 0, -1] : List Int),
   ([1, 2, 11, 8, 4, 7, -1, -1, -1, -1, -1, -1, -1, -1, -1, -1] : List Int),
   ([4, 1, 9, 4, 7, 1, 7, 3, 1, -1, -1, -1, -1, -1, -1, -1] : List Int),
   ([4, 1, 9, 4, 7, 1, 0, 1, 8, 8, 1, 7, -1, -1, -1, -1] : List Int),
   ([4, 3, 0, 7, 3, 4, -1, -1, -1, -1, -1, -1, -1, -1, -1, -1] : List Int),
   ([4, 7, 8, -1, -1, -1, -1, -1, -1, -1, -1, -1, -1, -1, -1, -1] : List Int),
   ([9, 8, 11, 11, 8, 10, -1, -1, -1, -1, -1, -1, -1, -1, -1, -1] : List Int),
   ([3, 9, 0, 3, 10, 9, 10, 11, 9, -1, -1, -1, -1, -1, -1, -1] : List Int),
   ([0, 11, 1, 0, 8, 11, 8, 10, 11, -1, -1, -1, -1, -1, -1, -1] : List Int),
   ([3, 11, 1, 10, 11, 3, -1, -1, -1, -1, -1, -1, -1, -1, -1, -1] : List Int),
   ([1, 10, 2, 1, 9, 10, 9, 8, 10, -1, -1, -1, -1, -1, -1, -1] : List Int),
   ([3, 9, 0, 3, 10, 9, 1, 9, 2, 2, 9, 10, -1, -1, -1, -1] : List Int),
   ([0, 10, 2, 8, 10, 0, -1, -1, -1, -1, -1, -1, -1, -1, -1, -1] : List Int),
   ([3, 10, 2, -1, -1, -1, -1, -1, -1, -1, -1, -1, -1, -1, -1, -1] : List Int),
   ([2, 8, 3, 2, 11, 8, 11, 9, 8, -1, -1, -1, -1, -1, -1, -1] : List Int),
   ([9, 2, 11, 0, 2, 9, -1, -1, -1, -1, -1, -1, -1, -1, -1, -1] : List Int),
   ([2, 8, 3, 2, 11, 8, 0, 8, 1, 1, 8, 11, -1, -1, -1, -1] : List Int),
   ([1, 2, 11, -1, -1, -1, -1, -1, -1, -1, -1, -1, -1, -1, -1, -1] : List Int),
   ([1, 8, 3, 9, 8, 1, -1, -1, -1, -1, -1, -1, -1, -1, -1, -1] : List Int),
   ([0, 1, 9, -1, -1, -1, -1, -1, -1, -1, -1, -1, -1, -1, -1, -1] : List Int),
   ([0, 8, 3, -1, -1, -1, -1, -1, -1, -1, -1, -1, -1, -1, -1, -1] : List Int),
   ([-1, -1, -1, -1, -1, -1, -1, -1, -1, -1, -1, -1, -1, -1, -1, -1] : List Int)
  ]

/-- The table `vtkMarchingCubes_edges[12][2]`. -/
def vtkMarchingCubes_edges : List (List Int) :=
  [ [0,1], [1,2], [3,2], [0,3],
    [4,5], [5,6], [7,6], [4,7],
    [0,4], [1,5], [3,7], [2,6] ]

/-! ## Cell kernel: `process(out, vertex[8], isoValue)` -/

/-- The configuration code built by the first loop of `process`:
`index += (1<<i)` for every corner `i < 8` with `vertex[i].w > isoValue`. -/
def caseIndex (vertex : List vec4f) (isoValue : ℚ) : Option Nat :=
  [0, 1, 2, 3, 4, 5, 6, 7].foldlM
    (fun index i => do
      let v ← vertex[i]?
      pure (if v.w > isoValue then index + (1 <<< i) else index))
    0

/-- The interpolation parameter `t` of `process`, as an exact quotient. The
source subtracts in binary32 and divides in double: for scalars whose
difference overflows, its `t` is not this number (it can be NaN). -/
def tParam (v0 v1 : vec4f) (isoValue : ℚ) : ℚ :=
  if v1.w = v0.w then 0 else (isoValue - v0.w) / (v1.w - v0.w)

/-- The position `triVertex[ii]` computed from the two edge corners. -/
def interpolate (v0 v1 : vec4f) (isoValue : ℚ) : vec3f :=
  let t := tParam v0 v1 isoValue
  ⟨(1 - t) * v0.x + t * v1.x, (1 - t) * v0.y + t * v1.y, (1 - t) * v0.z + t * v1.z⟩

/-- Body of the loop over `ii`: look the edge up in `vtkMarchingCubes_edges`,
fetch its two corners and interpolate. -/
def triVertexAt (vertex : List vec4f) (isoValue : ℚ) (e : Int) : Option vec3f := do
  let vert ← getInt? vtkMarchingCubes_edges e
  let i0 ← vert[0]?
  let i1 ← vert[1]?
  let v0 ← getInt? vertex i0
  let v1 ← getInt? vertex i1
  pure (interpolate v0 v1 isoValue)

/-- The loop `for (edge = row; edge[0] > -1; edge += 3)` of `process`, over
the part of the row that starts at `edge`.  Reading past the end of the row
gives `none`. -/
def walkCases (vertex : List vec4f) (isoValue : ℚ) :
    List FatVertex → List Int → Option (List FatVertex)
  | _, [] => none
  | out, [e0] => if e0 > -1 then none else some out
  | out, [e0, _] => if e0 > -1 then none else some out
  | out, e0 :: e1 :: e2 :: rest =>
    if e0 > -1 then
      match triVertexAt vertex isoValue e0, triVertexAt vertex isoValue e1,
          triVertexAt vertex isoValue e2 with
      | some t0, some t1, some t2 =>
        if t1 = t0 then walkCases vertex isoValue out rest
        else if t2 = t0 then walkCases vertex isoValue out rest
        else if t1 = t2 then walkCases vertex isoValue out rest
        else walkCases vertex isoValue (out ++ [⟨t0, 0⟩, ⟨t1, 0⟩, ⟨t2, 0⟩]) rest
      | _, _, _ => none
    else some out

/-- Marching cubes on one 8-corner cell: `process(out, vertex, isoValue)`.
The result is the buffer `out` after the call. -/
def process (out : List FatVertex) (vertex : List vec4f) (isoValue : ℚ) :
    Option (List FatVertex) := do
  let index ← caseIndex vertex isoValue
  if index = 0 ∨ index = 0xff then pure out
  else do
    let row ← vtkMarchingCubesTriangleCases[index]?
    walkCases vertex isoValue out row

/-! ## The mesh container and the element lifters -/

/-- A tetrahedron, `UMesh::Tet`: four vertex indices `x y z w`. -/
structure Tet where
  x : Nat
  y : Nat
  z : Nat
  w : Nat
deriving DecidableEq

/-- A pyramid, `UMesh::Pyr`: `pyr[0]`..`pyr[4]`, the last one the apex. -/
structure Pyr where
  i0 : Nat
  i1 : Nat
  i2 : Nat
  i3 : Nat
  i4 : Nat
deriving DecidableEq

/-- A wedge, `UMesh::Wedge`: `wedge[0]`..`wedge[5]`. -/
structure Wedge where
  i0 : Nat
  i1 : Nat
  i2 : Nat
  i3 : Nat
  i4 : Nat
  i5 : Nat
deriving DecidableEq

/-- A hexahedron, `UMesh::Hex`: `hex[0]`..`hex[7]`. -/
structure Hex where
  i0 : Nat
  i1 : Nat
  i2 : Nat
  i3 : Nat
  i4 : Nat
  i5 : Nat
  i6 : Nat
  i7 : Nat
deriving DecidableEq

/-- Modelled from the spec: the mesh container `UMesh`, declared in
`umesh/UMesh.h`.  It has a vertex array, an optional per-vertex scalar array
(`perVertex->values`), the surface element arrays and one array per volume
element kind. -/
structure UMesh where
  vertices : List vec3f
  perVertex : Option (List ℚ)
  triangles : List vec3i
  quads : List (List Int)
  tets : List Tet
  pyrs : List Pyr
  wedges : List Wedge
  hexes : List Hex
deriving DecidableEq

/-- The value of `std::make_shared<UMesh>()`: every array empty, no scalars. -/
def UMesh.empty : UMesh := ⟨[], none, [], [], [], [], [], []⟩

/-- The corner `vec4f(in->vertices[i], in->perVertex->values[i])`. -/
def fetch (inp : UMesh) (i : Nat) : Option vec4f := do
  let p ← inp.vertices[i]?
  let values ← inp.perVertex
  let s ← values[i]?
  pure (vec4f.ofPos p s)

/-- The overload `process(out, in, tet, isoValue)`: blow the tet up into a
hex by replicating vertices, then run the cell kernel. -/
def processTet (out : List FatVertex) (inp : UMesh) (tet : Tet) (isoValue : ℚ) :
    Option (List FatVertex) := do
  let a ← fetch inp tet.x
  let b ← fetch inp tet.y
  let c ← fetch inp tet.z
  let d ← fetch inp tet.w
  process out [a, b, c, c, d, d, d, d] isoValue

/-- The overload `process(out, in, pyr, isoValue)`. -/
def processPyr (out : List FatVertex) (inp : UMesh) (pyr : Pyr) (isoValue : ℚ) :
    Option (List FatVertex) := do
  let v0 ← fetch inp pyr.i0
  let v1 ← fetch inp pyr.i1
  let v2 ← fetch inp pyr.i2
  let v3 ← fetch inp pyr.i3
  let v4 ← fetch inp pyr.i4
  process out [v0, v1, v2, v3, v4, v4, v4, v4] isoValue

/-- The overload `process(out, in, wedge, isoValue)`. -/
def processWedge (out : List FatVertex) (inp : UMesh) (wedge : Wedge) (isoValue : ℚ) :
    Option (List FatVertex) := do
  let v0 ← fetch inp wedge.i0
  let v1 ← fetch inp wedge.i1
  let v2 ← fetch inp wedge.i2
  let v3 ← fetch inp wedge.i3
  let v4 ← fetch inp wedge.i4
  let v5 ← fetch inp wedge.i5
  process out [v0, v1, v4, v3, v2, v2, v5, v5] isoValue

/-- The overload `process(out, in, hex, isoValue)`. -/
def processHex (out : List FatVertex) (inp : UMesh) (hex : Hex) (isoValue : ℚ) :
    Option (List FatVertex) := do
  let v0 ← fetch inp hex.i0
  let v1 ← fetch inp hex.i1
  let v2 ← fetch inp hex.i2
  let v3 ← fetch inp hex.i3
  let v4 ← fetch inp hex.i4
  let v5 ← fetch inp hex.i5
  let v6 ← fetch inp hex.i6
  let v7 ← fetch inp hex.i7
  process out [v0, v1, v2, v3, v4, v5, v6, v7] isoValue

/-! ## Blocked dispatch -/

/-- The loop `for (i = begin; i < end; i++) process(localVertices, in, elems[i], isoValue)`
shared by the four `doIsoSurface*` functions: `n` iterations from index `i`. -/
def blockLoop {ε : Type} (elems : List ε)
    (proc : List FatVertex → ε → Option (List FatVertex)) :
    Nat → Nat → List FatVertex → Option (List FatVertex)
  | _, 0, localVertices => some localVertices
  | i, n + 1, localVertices => do
    let e ← elems[i]?
    let next ← proc localVertices e
    blockLoop elems proc (i + 1) n next

/-- The function `doIsoSurfaceTets`: run the block into `localVertices`, then
append them to the shared buffer `out` (under the lock). -/
def doIsoSurfaceTets (out : List FatVertex) (inp : UMesh) (begin_ end_ : Nat)
    (isoValue : ℚ) : Option (List FatVertex) := do
  let localVertices ←
    blockLoop inp.tets (fun lv e => processTet lv inp e isoValue) begin_ (end_ - begin_) []
  pure (out ++ localVertices)

/-- The function `doIsoSurfacePyrs`. -/
def doIsoSurfacePyrs (out : List FatVertex) (inp : UMesh) (begin_ end_ : Nat)
    (isoValue : ℚ) : Option (List FatVertex) := do
  let localVertices ←
    blockLoop inp.pyrs (fun lv e => processPyr lv inp e isoValue) begin_ (end_ - begin_) []
  pure (out ++ localVertices)

/-- The function `doIsoSurfaceWedges`. -/
def doIsoSurfaceWedges (out : List FatVertex) (inp : UMesh) (begin_ end_ : Nat)
    (isoValue : ℚ) : Option (List FatVertex) := do
  let localVertices ←
    blockLoop inp.wedges (fun lv e => processWedge lv inp e isoValue) begin_ (end_ - begin_) []
  pure (out ++ localVertices)

/-- The function `doIsoSurfaceHexes`. -/
def doIsoSurfaceHexes (out : List FatVertex) (inp : UMesh) (begin_ end_ : Nat)
    (isoValue : ℚ) : Option (List FatVertex) := do
  let localVertices ←
    blockLoop inp.hexes (fun lv e => processHex lv inp e isoValue) begin_ (end_ - begin_) []
  pure (out ++ localVertices)

/-- Modelled from the spec: the blocks of `parallel_for_blocked(begin, end,
blockSize, f)` (declared in `umesh/parallel_for.h`): `[begin, end)` cut into
contiguous ranges of up to `blockSize` indices.  `fuel` bounds the number of
blocks; `end - begin` is always enough. -/
def blocksOf (blockSize : Nat) : Nat → Nat → Nat → List (Nat × Nat)
  | 0, _, _ => []
  | fuel + 1, begin_, end_ =>
    if begin_ < end_ then
      (begin_, min (begin_ + blockSize) end_) ::
        blocksOf blockSize fuel (min (begin_ + blockSize) end_) end_
    else []

/-- Modelled from the spec: `parallel_for_blocked(begin, end, blockSize, f)`
run by one worker, the blocks taken in index order; `f` is applied to the
shared buffer. -/
def parallel_for_blocked (begin_ end_ blockSize : Nat)
    (f : Nat → Nat → List FatVertex → Option (List FatVertex))
    (shared : List FatVertex) : Option (List FatVertex) :=
  (blocksOf blockSize (end_ - begin_) begin_ end_).foldlM (fun buf be => f be.1 be.2 buf) shared

/-- The four dispatch passes of `extractIsoSurface` (tets, pyramids, wedges,
hexes), each in blocks of 1024: the buffer `fatVertices` before the merge. -/
def collectFatVertices (inp : UMesh) (isoValue : ℚ) : Option (List FatVertex) := do
  let afterTets ← parallel_for_blocked 0 inp.tets.length 1024
    (fun b e buf => doIsoSurfaceTets buf inp b e isoValue) []
  let afterPyrs ← parallel_for_blocked 0 inp.pyrs.length 1024
    (fun b e buf => doIsoSurfacePyrs buf inp b e isoValue) afterTets
  let afterWedges ← parallel_for_blocked 0 inp.wedges.length 1024
    (fun b e buf => doIsoSurfaceWedges buf inp b e isoValue) afterPyrs
  parallel_for_blocked 0 inp.hexes.length 1024
    (fun b e buf => doIsoSurfaceHexes buf inp b e isoValue) afterWedges

/-! ## Sorting the raw corners -/

/-- The little-endian bytes of a 32-bit word.  Words are not wrapped: the most
significant byte is left unreduced, so that for `w < 2^32` these are exactly
the four bytes in memory. -/
def bytes32 (w : Nat) : List Nat :=
  [w % 256, w / 256 % 256, w / 65536 % 256, w / 16777216]

/-- The object representation of a `FatVertex` (16 bytes): `pos.x`, `pos.y`,
`pos.z`, `idx`.  `bits` gives the 32-bit pattern of a `float`. -/
def FatVertex.bytes (bits : ℚ → ℕ) (v : FatVertex) : List Nat :=
  bytes32 (bits v.pos.x) ++ bytes32 (bits v.pos.y) ++ bytes32 (bits v.pos.z) ++ bytes32 v.idx

/-- The libc `memcmp` on two byte strings of one length: the difference of
the first pair of bytes that differ, `0` when there is none. -/
def memcmp : List Nat → List Nat → Int
  | a :: as, b :: bs => if a = b then memcmp as bs else (a : Int) - (b : Int)
  | _, _ => 0

/-- The comparator `FatVertexCompare`: `memcmp(&a,&b,sizeof(a)) < 0`. -/
def FatVertexCompare (bits : ℚ → ℕ) (a b : FatVertex) : Bool :=
  decide (memcmp (a.bytes bits) (b.bytes bits) < 0)

/-- Insert `a` into a sorted list, before the first element that `a` precedes. -/
def orderedInsert (lt : FatVertex → FatVertex → Bool) (a : FatVertex) :
    List FatVertex → List FatVertex
  | [] => [a]
  | b :: l => if lt a b then a :: b :: l else b :: orderedInsert lt a l

/-- The call `std::sort(begin, end, comp)` (or `tbb::parallel_sort`): the
buffer rearranged into non-descending order of `comp`, here by insertion. -/
def sort (lt : FatVertex → FatVertex → Bool) : List FatVertex → List FatVertex
  | [] => []
  | a :: l => orderedInsert lt a (sort lt l)

/-- The loop `for (i...) fatVertices[i].idx = i`, from index `i` on. -/
def assignSlots : Nat → List FatVertex → List FatVertex
  | _, [] => []
  | i, v :: l => ⟨v.pos, i⟩ :: assignSlots (i + 1) l

/-! ## Merge, dedup and index write-back -/

/-- The test `(i==0) || (fatVertices[i].pos != fatVertices[i-1].pos)`;
`prev` is `none` for `i = 0`. On exact rationals `!=` is inequality of the
positions; the binary32 values on which `!=` and the bytes of the sort
disagree (zeros of either sign, NaN) are not represented. -/
def startsVertex (prev : Option vec3f) (pos : vec3f) : Bool :=
  match prev with
  | none => true
  | some p => decide (pos ≠ p)

/-- The counting loop for `numUniqueVertices`. -/
def countUnique : Option vec3f → List FatVertex → Nat
  | _, [] => 0
  | prev, v :: l =>
    (if startsVertex prev v.pos then 1 else 0) + countUnique (some v.pos) l

/-- Array write `a[i] = x` with an `int` subscript; `none` outside the array. -/
def setInt? {α : Type} (l : List α) (i : Int) (x : α) : Option (List α) :=
  if 0 ≤ i ∧ i.toNat < l.length then some (l.set i.toNat x) else none

/-- The main loop of the merge: `uniqueVertexID` is advanced at every corner
that starts a vertex, whose position is stored in `vertices`; the id is then
written into the flat `int` view of the triangle array at the corner's slot. -/
def scanLoop : Option vec3f → Int → List vec3f → List Int → List FatVertex →
    Option (List vec3f × List Int)
  | _, _, vertices, flat, [] => some (vertices, flat)
  | prev, uniqueVertexID, vertices, flat, vtx :: rest =>
    if startsVertex prev vtx.pos then
      match setInt? vertices (uniqueVertexID + 1) vtx.pos with
      | none => none
      | some vertices1 =>
        match setInt? flat vtx.idx (uniqueVertexID + 1) with
        | none => none
        | some flat1 => scanLoop (some vtx.pos) (uniqueVertexID + 1) vertices1 flat1 rest
    else
      match setInt? flat vtx.idx uniqueVertexID with
      | none => none
      | some flat1 => scanLoop (some vtx.pos) uniqueVertexID vertices flat1 rest

/-- The triangle array seen through its flat `int` view: three consecutive
ints per triangle. -/
def groupTriangles : List Int → List vec3i
  | a :: b :: c :: rest => ⟨a, b, c⟩ :: groupTriangles rest
  | _ => []

/-- The flat `int` view `(int*)out->triangles.data()` of a triangle array. -/
def flatTriangleIndices : List vec3i → List Int
  | [] => []
  | t :: rest => t.x :: t.y :: t.z :: flatTriangleIndices rest

/-- How a call can end without a mesh: a thrown `std::runtime_error`, the
`std::length_error` that `resize` throws for a size beyond `max_size()`, or an
array access outside its bounds. -/
inductive Failure where
  | runtime_error (what : String)
  | length_error
  | out_of_bounds
deriving DecidableEq

/-- The conversion `(int)n` of a `size_t` value: `n` modulo `2^32`, read as a
signed 32-bit number. -/
def toInt32 (n : Nat) : Int :=
  if n % 2 ^ 32 < 2 ^ 31 then ((n % 2 ^ 32 : Nat) : Int)
  else ((n % 2 ^ 32 : Nat) : Int) - 2 ^ 32

/-- The second half of `extractIsoSurface` (from `numFatVertices` on).
`numFatVertices` is the size of the buffer narrowed to `int`; the three loops
`for (int i=0;i<numFatVertices;i++)` run over the first `numFatVertices`
corners (none when it is negative), while `std::sort` sorts the whole buffer.
The slot loop leaves the slot of every later corner as the kernel pushed it.
`resize(numFatVertices/3)` gets the quotient of the `int` division, which
rounds towards zero, converted to `size_t`: a negative quotient is a size
beyond `max_size()` and `resize` throws.  The elements that `resize` adds are
taken as zero; the loops overwrite every one of them when the buffer holds
fewer than `2^31` corners. -/
def buildIndexedMesh (bits : ℚ → ℕ) (fatVertices : List FatVertex) : Except Failure UMesh :=
  let numFatVertices : Int := toInt32 fatVertices.length
  let count := numFatVertices.toNat
  let slotted := assignSlots 0 (fatVertices.take count) ++ fatVertices.drop count
  let sorted := sort (FatVertexCompare bits) slotted
  let numUniqueVertices := countUnique none (sorted.take count)
  if numFatVertices.tdiv 3 < 0 then .error .length_error
  else
    let flat0 : List Int := List.replicate (3 * (numFatVertices.tdiv 3).toNat) 0
    let vertices0 : List vec3f := List.replicate numUniqueVertices ⟨0, 0, 0⟩
    match scanLoop none (-1) vertices0 flat0 (sorted.take count) with
    | none => .error .out_of_bounds
    | some (vertices, flat) =>
      .ok { UMesh.empty with vertices := vertices, triangles := groupTriangles flat }

/-! ## The entry point -/

/-- The function `extractIsoSurface(in, isoValue)`; `inp = none` is the null
mesh reference. -/
def extractIsoSurface (bits : ℚ → ℕ) (inp : Option UMesh) (isoValue : ℚ) :
    Except Failure UMesh :=
  match inp with
  | none => .error (.runtime_error "null input mesh")
  | some mesh =>
    if mesh.perVertex.isNone then .error (.runtime_error "input mesh w/o scalar field")
    else
      match collectFatVertices mesh isoValue with
      | none => .error .out_of_bounds
      | some fatVertices => buildIndexedMesh bits fatVertices

/-! ## Auxiliary definitions used by the statements -/

/-- The number whose bit `i` is `bᵢ`. -/
def codeOfBits (b0 b1 b2 b3 b4 b5 b6 b7 : Bool) : Nat :=
  b0.toNat + 2 * b1.toNat + 4 * b2.toNat + 8 * b3.toNat + 16 * b4.toNat + 32 * b5.toNat
    + 64 * b6.toNat + 128 * b7.toNat

/-- The three raw corners pushed for one emitted triangle. -/
def cornersOf (t : vec3f × vec3f × vec3f) : List FatVertex :=
  [⟨t.1, 0⟩, ⟨t.2.1, 0⟩, ⟨t.2.2, 0⟩]

/-- A corner buffer made of whole triangles, in order. -/
def unpack : List (vec3f × vec3f × vec3f) → List FatVertex
  | [] => []
  | t :: ts => cornersOf t ++ unpack ts

/-- Consecutive entries taken three at a time. -/
def inThrees {α : Type} : List α → List (α × α × α)
  | a :: b :: c :: rest => (a, b, c) :: inThrees rest
  | _ => []

/-- The terminated sequence of edge-index triples stored in a table row: the
entries before the first `-1`, three at a time. -/
def rowTriangles (row : List Int) : List (Int × Int × Int) :=
  inThrees (row.takeWhile (fun e => e != -1))

/-- The candidate triangles of a cell: each edge triple replaced by its three
interpolated positions; `none` if a table lookup leaves its array. -/
def candidateTriangles (vertex : List vec4f) (isoValue : ℚ) :
    List (Int × Int × Int) → Option (List (vec3f × vec3f × vec3f))
  | [] => some []
  | e :: es =>
    match triVertexAt vertex isoValue e.1, triVertexAt vertex isoValue e.2.1,
        triVertexAt vertex isoValue e.2.2, candidateTriangles vertex isoValue es with
    | some t0, some t1, some t2, some ts => some ((t0, t1, t2) :: ts)
    | _, _, _, _ => none

/-- A triangle none of whose three corners coincide. -/
def nonDegenerate (t : vec3f × vec3f × vec3f) : Bool :=
  decide (t.2.1 ≠ t.1 ∧ t.2.2 ≠ t.1 ∧ t.2.1 ≠ t.2.2)

/-- Shape of a table row as the walk of `process` needs it: a `-1` stands at
the start of some triple, and the triples before it hold edge numbers `0..11`. -/
def rowOK : List Int → Bool
  | [] => false
  | [e0] => e0 == -1
  | [e0, _] => e0 == -1
  | e0 :: e1 :: e2 :: rest =>
    if e0 > -1 then
      decide (e0 ≤ 11 ∧ 0 ≤ e1 ∧ e1 ≤ 11 ∧ 0 ≤ e2 ∧ e2 ≤ 11) && rowOK rest
    else e0 == -1

/-- The positions at which the scan starts a new output vertex, in scan
order; `prev` is the position of the corner before the first one. -/
def newPositions : Option vec3f → List FatVertex → List vec3f
  | _, [] => []
  | prev, v :: l =>
    if startsVertex prev v.pos then v.pos :: newPositions (some v.pos) l
    else newPositions (some v.pos) l

/-- The scan of `scanLoop` with unchecked writes and the counter
`n = uniqueVertexID + 1`; it agrees with `scanLoop` whenever no write leaves
its array. -/
def scanPure : Option vec3f → Nat → List vec3f → List Int → List FatVertex →
    List vec3f × List Int
  | _, _, vertices, flat, [] => (vertices, flat)
  | prev, n, vertices, flat, vtx :: rest =>
    if startsVertex prev vtx.pos then
      scanPure (some vtx.pos) (n + 1) (vertices.set n vtx.pos) (flat.set vtx.idx (n : Int)) rest
    else
      scanPure (some vtx.pos) n vertices (flat.set vtx.idx ((n : Int) - 1)) rest

/-- The 12 position bytes at the start of the object representation. -/
def posBytes (bits : ℚ → ℕ) (p : vec3f) : List Nat :=
  bytes32 (bits p.x) ++ bytes32 (bits p.y) ++ bytes32 (bits p.z)

/-- An output mesh read as position triples: every triangle with its three
indices replaced by the vertices they select. -/
def trianglePositions (mesh : UMesh) :
    List (Option vec3f × Option vec3f × Option vec3f) :=
  mesh.triangles.map
    (fun t => (getInt? mesh.vertices t.x, getInt? mesh.vertices t.y, getInt? mesh.vertices t.z))

/-- A mesh of one wedge over six vertices with scalars 0..5. -/
def wedgeMesh : UMesh :=
  { UMesh.empty with
    vertices := [⟨0, 0, 0⟩, ⟨1, 0, 0⟩, ⟨0, 1, 0⟩, ⟨0, 0, 1⟩, ⟨1, 0, 1⟩, ⟨0, 1, 1⟩]
    perVertex := some [0, 1, 2, 3, 4, 5]
    wedges := [⟨0, 1, 2, 3, 4, 5⟩] }

/-- An injective numbering of the rationals, used as bit pattern where a
concrete one is needed: sign and numerator paired with the denominator. -/
def ratBits (q : ℚ) : ℕ :=
  Nat.pair (if q.num < 0 then 2 * (-q.num).toNat + 1 else 2 * q.num.toNat) q.den

/-- Two triangles that share the edge from `(1,0,0)` to `(0,1,0)`, as six raw
corners. -/
def sampleRaw : List FatVertex :=
  [⟨⟨0, 0, 0⟩, 0⟩, ⟨⟨1, 0, 0⟩, 0⟩, ⟨⟨0, 1, 0⟩, 0⟩, ⟨⟨1, 0, 0⟩, 0⟩, ⟨⟨1, 1, 0⟩, 0⟩, ⟨⟨0, 1, 0⟩, 0⟩]

/-- The buffer `sampleRaw` with its two triangles appended in the other order. -/
def sampleRawSwapped : List FatVertex :=
  [⟨⟨1, 0, 0⟩, 0⟩, ⟨⟨1, 1, 0⟩, 0⟩, ⟨⟨0, 1, 0⟩, 0⟩, ⟨⟨0, 0, 0⟩, 0⟩, ⟨⟨1, 0, 0⟩, 0⟩, ⟨⟨0, 1, 0⟩, 0⟩]

/-- The vertex indices of a tetrahedron. -/
def Tet.indices (t : Tet) : List Nat := [t.x, t.y, t.z, t.w]

/-- The vertex indices of a pyramid. -/
def Pyr.indices (p : Pyr) : List Nat := [p.i0, p.i1, p.i2, p.i3, p.i4]

/-- The vertex indices of a wedge. -/
def Wedge.indices (w : Wedge) : List Nat := [w.i0, w.i1, w.i2, w.i3, w.i4, w.i5]

/-- The vertex indices of a hexahedron. -/
def Hex.indices (h : Hex) : List Nat := [h.i0, h.i1, h.i2, h.i3, h.i4, h.i5, h.i6, h.i7]

/-- Every vertex index used by a volume element of the mesh. -/
def elementIndices (inp : UMesh) : List (List Nat) :=
  inp.tets.map Tet.indices ++ inp.pyrs.map Pyr.indices ++ inp.wedges.map Wedge.indices
    ++ inp.hexes.map Hex.indices

/-- Every element index is within the vertex array and the scalar array. -/
def InRange (inp : UMesh) (values : List ℚ) : Prop :=
  ∀ ix ∈ elementIndices inp, ∀ i ∈ ix, i < inp.vertices.length ∧ i < values.length

/-- The corner scalars of an element (given by its vertex indices) are all
strictly greater than the iso-value, or all less than or equal to it. -/
def OneSided (values : List ℚ) (isoValue : ℚ) (ix : List Nat) : Prop :=
  (∀ i ∈ ix, ∀ s, values[i]? = some s → s > isoValue) ∨
    (∀ i ∈ ix, ∀ s, values[i]? = some s → s ≤ isoValue)

/-- An 8-corner cell. -/
structure Cell where
  c0 : vec4f
  c1 : vec4f
  c2 : vec4f
  c3 : vec4f
  c4 : vec4f
  c5 : vec4f
  c6 : vec4f
  c7 : vec4f

/-- The array `vertex[8]` of a cell. -/
def Cell.corners (c : Cell) : List vec4f := [c.c0, c.c1, c.c2, c.c3, c.c4, c.c5, c.c6, c.c7]

/-- A sequence of kernel calls, each on a cell and an iso-value, into one
buffer. -/
def kernelCalls : List (Cell × ℚ) → List FatVertex → Option (List FatVertex)
  | [], buf => some buf
  | c :: cs, buf => (process buf c.1.corners c.2).bind (kernelCalls cs)

/-- A sequence of block appends: each block is a sequence of kernel calls
into a fresh local buffer, which is then appended to the shared buffer. -/
def blockAppends : List (List (Cell × ℚ)) → List FatVertex → Option (List FatVertex)
  | [], shared => some shared
  | blk :: blks, shared => (kernelCalls blk []).bind (fun lv => blockAppends blks (shared ++ lv))

/-- A triangle that some kernel call emits, on some cell, iso-value and
buffer. This names no call of a given run: the groups of a run are those of
`emittedBy`, call by call. -/
def EmittedByKernel (t : vec3f × vec3f × vec3f) : Prop :=
  ∃ (out : List FatVertex) (c : Cell) (isoValue : ℚ) (tris : List (vec3f × vec3f × vec3f)),
    process out c.corners isoValue = some (out ++ unpack tris) ∧ t ∈ tris

/-- A mesh of one hexahedron, the unit cube, with all eight scalars 5. -/
def hexMesh5 : UMesh :=
  { UMesh.empty with
    vertices := [⟨0, 0, 0⟩, ⟨1, 0, 0⟩, ⟨1, 1, 0⟩, ⟨0, 1, 0⟩, ⟨0, 0, 1⟩, ⟨1, 0, 1⟩, ⟨1, 1, 1⟩,
      ⟨0, 1, 1⟩]
    perVertex := some [5, 5, 5, 5, 5, 5, 5, 5]
    hexes := [⟨0, 1, 2, 3, 4, 5, 6, 7⟩] }

/-- The iso-surface of `wedgeMesh` at iso-value 1: one triangle. -/
def wedgeSurface : UMesh :=
  { UMesh.empty with
    vertices := [⟨0, 0, 1 / 3⟩, ⟨0, 1 / 2, 0⟩, ⟨1, 0, 0⟩]
    triangles := [⟨2, 1, 0⟩] }

/-- The mesh `wedgeMesh` with a triangle and a quad added. -/
def wedgeMeshWithSurface : UMesh :=
  { wedgeMesh with triangles := [⟨0, 1, 2⟩], quads := [[0, 1, 4, 3]] }

/-- The point `(1-t)*p + t*q` of the segment from `p` to `q`. -/
def lerpAt (t : ℚ) (p q : vec3f) : vec3f :=
  ⟨(1 - t) * p.x + t * q.x, (1 - t) * p.y + t * q.y, (1 - t) * p.z + t * q.z⟩

/-- A mesh of one tetrahedron with scalars 0, 0, 0, 2. -/
def tetMesh : UMesh :=
  { UMesh.empty with
    vertices := [⟨0, 0, 0⟩, ⟨2, 0, 0⟩, ⟨0, 2, 0⟩, ⟨0, 0, 2⟩]
    perVertex := some [0, 0, 0, 2]
    tets := [⟨0, 1, 2, 3⟩] }

/-- A mesh of one pyramid over a square base with scalar 0 and apex scalar 2. -/
def pyrMesh : UMesh :=
  { UMesh.empty with
    vertices := [⟨0, 0, 0⟩, ⟨2, 0, 0⟩, ⟨2, 2, 0⟩, ⟨0, 2, 0⟩, ⟨1, 1, 2⟩]
    perVertex := some [0, 0, 0, 0, 2]
    pyrs := [⟨0, 1, 2, 3, 4⟩] }

/-- Block partitioning of a range of `count` elements does not change what a
block function `f` collects: for every positive block size, running the
blocks of `parallel_for_blocked` in index order gives the buffer of the single
block `[0, count)`, and running them in any other order gives a buffer with
the same whole triangles in another order. -/
def PartitionIndependent (count : Nat)
    (f : Nat → Nat → List FatVertex → Option (List FatVertex)) : Prop :=
  ∀ blockSize, 0 < blockSize →
    (∀ shared, parallel_for_blocked 0 count blockSize f shared = f 0 count shared) ∧
    (∀ sched : List (Nat × Nat), sched.Perm (blocksOf blockSize count 0 count) →
      ∀ raw, f 0 count [] = some raw →
        ∃ tris tris2, raw = unpack tris ∧
          sched.foldlM (fun buf be => f be.1 be.2 buf) [] = some (unpack tris2) ∧
          tris2.Perm tris)

/-- A mesh of two tetrahedra that share the face of vertices 0, 1, 2; the
shared vertices have scalar 1, the two others scalar 3 and 5. -/
def twoTetMesh : UMesh :=
  { UMesh.empty with
    vertices := [⟨0, 0, 0⟩, ⟨2, 0, 0⟩, ⟨0, 2, 0⟩, ⟨0, 0, 2⟩, ⟨0, 0, -2⟩]
    perVertex := some [1, 1, 1, 3, 5]
    tets := [⟨0, 1, 2, 3⟩, ⟨4, 2, 1, 0⟩] }

/-- The triangles of a corner buffer: its positions, three at a time. -/
def packTriangles (l : List FatVertex) : List (vec3f × vec3f × vec3f) :=
  inThrees (l.map FatVertex.pos)

/-- The raw corners collected from `twoTetMesh` at iso-value 2. -/
def twoTetRaw : List FatVertex :=
  [⟨⟨1, 0, 1⟩, 0⟩, ⟨⟨0, 0, 1⟩, 0⟩, ⟨⟨0, 1, 1⟩, 0⟩,
    ⟨⟨0, 3 / 2, -1 / 2⟩, 0⟩, ⟨⟨3 / 2, 0, -1 / 2⟩, 0⟩, ⟨⟨0, 0, -1 / 2⟩, 0⟩]

/-- The two corner numbers that the edge table holds for edge `e`, read as the
kernel reads them: `vert = vtkMarchingCubes_edges[e]`, then `vert[0]` and
`vert[1]`. -/
def edgeCorners (e : Int) : Option (Int × Int) := do
  let vert ← getInt? vtkMarchingCubes_edges e
  let i0 ← vert[0]?
  let i1 ← vert[1]?
  pure (i0, i1)

/-- Edge `e` is crossed in configuration `c`: the two corners that the edge
table gives for it have different bits in `c`. -/
def crossedIn (c : Nat) (e : Int) : Bool :=
  match edgeCorners e with
  | some (i0, i1) => c.testBit i0.toNat != c.testBit i1.toNat
  | none => false

/-- The edge triple names both cell edge 10, which joins the corner slots 3
and 7, and cell edge 11, which joins the corner slots 2 and 6. -/
def usesEdges10And11 (e : Int × Int × Int) : Bool :=
  decide ((e.1 = 10 ∨ e.2.1 = 10 ∨ e.2.2 = 10) ∧ (e.1 = 11 ∨ e.2.1 = 11 ∨ e.2.2 = 11))

/-! ## The ugrid64 importer: command line -/

/-- How the importer ends before the loader is called: `exit(status)` inside
`usage`, after the error message (if there is one) and the usage line have
been printed, or the assignment `outFileName = av[++i]` reading `av[ac]`, the
null pointer that ends the argument vector. -/
inductive Stop where
  | exit (status : Nat) (error : String)
  | null_argument
deriving DecidableEq

/-- The function `usage(error)`: it prints and calls `exit(error != "")`, so
it does not return. -/
def usage {α : Type} (error : String) : Except Stop α :=
  .error (.exit (if error != "" then 1 else 0) error)

/-- The three strings that `main` collects from the command line. -/
structure FileNames where
  ugridFileName : String
  scalarsFileName : String
  outFileName : String
deriving DecidableEq

/-- The character `arg[0]`; for the empty string it is the terminating NUL. -/
def firstChar (arg : String) : Char := arg.toList.headD (Char.ofNat 0)

/-- The argument loop of `main` over the arguments `av[i], ..., av[ac-1]` that
are still to be read. -/
def parseArgs : List String → FileNames → Except Stop FileNames
  | [], names => .ok names
  | arg :: rest, names =>
    if arg = "-h" then usage ""
    else if arg = "-o" then
      match rest with
      | [] => .error .null_argument
      | value :: rest2 => parseArgs rest2 { names with outFileName := value }
    else if firstChar arg ≠ '-' then
      if names.ugridFileName = "" then parseArgs rest { names with ugridFileName := arg }
      else if names.scalarsFileName = "" then
        parseArgs rest { names with scalarsFileName := arg }
      else usage "more than two file names specified!?"
    else usage ("unknown cmd-line arg '" ++ arg ++ "'")

/-- The function `main` of the importer up to the call of the loader, on the
arguments `av[1], ..., av[ac-1]`: the result `.ok names` stands for the call
`UGrid64Loader::load(ugridFileName, scalarsFileName)`, which the code reaches
with these names. A missing scalars file name only prints a warning. -/
def importMain (args : List String) : Except Stop FileNames :=
  match parseArgs args ⟨"", "", ""⟩ with
  | .error stop => .error stop
  | .ok names =>
    if names.ugridFileName = "" then usage "no ugrid file specified"
    else if names.outFileName = "" then usage "no output file specified"
    else .ok names

/-- The arguments that stand as file names on a command line, read from left
to right: those that are neither the word `-o`, nor the value after a `-o`,
nor a word starting with `-`. -/
def fileNameArgs : List String → List String
  | [] => []
  | arg :: rest =>
    if arg = "-o" then
      match rest with
      | [] => []
      | _ :: rest2 => fileNameArgs rest2
    else if firstChar arg = '-' then fileNameArgs rest
    else arg :: fileNameArgs rest

/-- The values that follow a `-o` on a command line, read from left to
right. -/
def outputArgs : List String → List String
  | [] => []
  | arg :: rest =>
    if arg = "-o" then
      match rest with
      | [] => []
      | value :: rest2 => value :: outputArgs rest2
    else outputArgs rest

/-- The triangles that the kernel call on cell `c.1` with iso-value `c.2`
emits: what `process` appends to an empty buffer, three corners at a time. -/
def emittedBy (c : Cell × ℚ) : List (vec3f × vec3f × vec3f) :=
  packTriangles ((process [] c.1.corners c.2).getD [])

/-- A mesh of one flat pyramid: the apex lies in the plane of its square
base, on the line through base corners 0 and 1. Base scalar 0, apex scalar 2. -/
def flatPyrMesh : UMesh :=
  { UMesh.empty with
    vertices := [⟨0, 0, 0⟩, ⟨2, 0, 0⟩, ⟨2, 2, 0⟩, ⟨0, 2, 0⟩, ⟨4, 0, 0⟩]
    perVertex := some [0, 0, 0, 0, 2]
    pyrs := [⟨0, 1, 2, 3, 4⟩] }

/-- The number whose big-endian bytes are the little-endian bytes of the slot
`w`: comparing two slots byte by byte in memory order, as `memcmp` does,
compares these numbers. -/
def byteReversed (w : Nat) : Nat :=
  (w % 256) * 16777216 + (w / 256 % 256) * 65536 + (w / 65536 % 256) * 256 + w / 16777216

/-- Nine vertices: six on the x axis at `x = 0, 2, 3, 4, 5, 6`, and a triangle
at `x = 7`. The binary32 patterns of 0, 2, 3, 4, 5, 6 and 7 compare byte by
byte as the numbers do. -/
def fanVertices : List vec3f :=
  [⟨0, 0, 0⟩, ⟨2, 0, 0⟩, ⟨3, 0, 0⟩, ⟨4, 0, 0⟩, ⟨5, 0, 0⟩, ⟨6, 0, 0⟩,
    ⟨7, 0, 0⟩, ⟨7, 2, 0⟩, ⟨7, 0, 2⟩]

/-- Scalars of `fanVertices`: the last vertex alone is above the iso-value 1. -/
def fanScalars : List ℚ := [1, 1, 1, 1, 1, 1, 1, 1, 2]

/-- A mesh of tetrahedra over `fanVertices`. -/
def fanMesh (tets : List Tet) : UMesh :=
  { UMesh.empty with
    vertices := fanVertices
    perVertex := some fanScalars
    tets := tets }

/-- The triangle that the tetrahedron `⟨i, 6, 7, 8⟩` of a `fanMesh` emits at
iso-value 1, `p` being vertex `i`: the three corners below the apex. -/
def fanTriangle (p : vec3f) : vec3f × vec3f × vec3f := (⟨7, 0, 0⟩, p, ⟨7, 2, 0⟩)

/-- The triangle of a tetrahedron of a `fanMesh`. -/
def fanTriangleOf (e : Tet) : vec3f × vec3f × vec3f :=
  fanTriangle (fanVertices.getD e.x ⟨0, 0, 0⟩)

/-- A mesh of 715,827,883 equal tetrahedra, each emitting one triangle at
iso-value 1: `2^31 + 1` raw corners. -/
def overflowMesh : UMesh := fanMesh (List.replicate 715827883 ⟨5, 6, 7, 8⟩)

/-- The raw corners of `overflowMesh` at iso-value 1. -/
def overflowRaw : List FatVertex := unpack (List.replicate 715827883 (fanTriangle ⟨6, 0, 0⟩))

/-- A mesh of 1,431,655,767 equal tetrahedra, each emitting one triangle at
iso-value 1: `2^32 + 5` raw corners. -/
def uniformMesh : UMesh := fanMesh (List.replicate 1431655767 ⟨5, 6, 7, 8⟩)

/-- The raw corners of `uniformMesh` at iso-value 1. -/
def uniformRaw : List FatVertex := unpack (List.replicate 1431655767 (fanTriangle ⟨6, 0, 0⟩))

/-- A mesh of 1,431,655,767 tetrahedra, the last five on the vertices 0 to 4,
each emitting one triangle at iso-value 1: `2^32 + 5` raw corners. -/
def wrapMesh : UMesh :=
  fanMesh (List.replicate 1431655762 ⟨5, 6, 7, 8⟩
    ++ [⟨0, 6, 7, 8⟩, ⟨1, 6, 7, 8⟩, ⟨2, 6, 7, 8⟩, ⟨3, 6, 7, 8⟩, ⟨4, 6, 7, 8⟩])

/-- The raw corners of `wrapMesh` at iso-value 1. -/
def wrapRaw : List FatVertex :=
  unpack (List.replicate 1431655762 (fanTriangle ⟨6, 0, 0⟩)
    ++ [fanTriangle ⟨0, 0, 0⟩, fanTriangle ⟨2, 0, 0⟩, fanTriangle ⟨3, 0, 0⟩,
      fanTriangle ⟨4, 0, 0⟩, fanTriangle ⟨5, 0, 0⟩])

/-- The triangles of `wrapRaw` in another order: the last one first. -/
def wrapRawReordered : List FatVertex :=
  unpack (fanTriangle ⟨5, 0, 0⟩ :: (List.replicate 1431655762 (fanTriangle ⟨6, 0, 0⟩)
    ++ [fanTriangle ⟨0, 0, 0⟩, fanTriangle ⟨2, 0, 0⟩, fanTriangle ⟨3, 0, 0⟩,
      fanTriangle ⟨4, 0, 0⟩]))

/-! ## The cell kernel -/

theorem caseIndex_eq (c0 c1 c2 c3 c4 c5 c6 c7 : vec4f) (isoValue : ℚ) :
    caseIndex [c0, c1, c2, c3, c4, c5, c6, c7] isoValue =
      some (codeOfBits (decide (c0.w > isoValue)) (decide (c1.w > isoValue))
        (decide (c2.w > isoValue)) (decide (c3.w > isoValue)) (decide (c4.w > isoValue))
        (decide (c5.w > isoValue)) (decide (c6.w > isoValue)) (decide (c7.w > isoValue))) := by
  simp only [caseIndex, List.foldlM, List.getElem?_cons_zero, List.getElem?_cons_succ,
    bind_pure_comp, Option.map_some', Option.some_bind, Option.bind_eq_bind, Option.map_eq_map,
    pure, codeOfBits]
  by_cases h0 : c0.w > isoValue <;> by_cases h1 : c1.w > isoValue <;>
  by_cases h2 : c2.w > isoValue <;> by_cases h3 : c3.w > isoValue <;>
  by_cases h4 : c4.w > isoValue <;> by_cases h5 : c5.w > isoValue <;>
  by_cases h6 : c6.w > isoValue <;> by_cases h7 : c7.w > isoValue <;>
  simp [h0, h1, h2, h3, h4, h5, h6, h7]

theorem codeOfBits_lt : ∀ b0 b1 b2 b3 b4 b5 b6 b7 : Bool,
    codeOfBits b0 b1 b2 b3 b4 b5 b6 b7 < 256 := by decide

theorem codeOfBits_testBit : ∀ b0 b1 b2 b3 b4 b5 b6 b7 : Bool,
    (codeOfBits b0 b1 b2 b3 b4 b5 b6 b7).testBit 0 = b0 ∧
    (codeOfBits b0 b1 b2 b3 b4 b5 b6 b7).testBit 1 = b1 ∧
    (codeOfBits b0 b1 b2 b3 b4 b5 b6 b7).testBit 2 = b2 ∧
    (codeOfBits b0 b1 b2 b3 b4 b5 b6 b7).testBit 3 = b3 ∧
    (codeOfBits b0 b1 b2 b3 b4 b5 b6 b7).testBit 4 = b4 ∧
    (codeOfBits b0 b1 b2 b3 b4 b5 b6 b7).testBit 5 = b5 ∧
    (codeOfBits b0 b1 b2 b3 b4 b5 b6 b7).testBit 6 = b6 ∧
    (codeOfBits b0 b1 b2 b3 b4 b5 b6 b7).testBit 7 = b7 := by decide

theorem codeOfBits_eq_zero : ∀ b0 b1 b2 b3 b4 b5 b6 b7 : Bool,
    codeOfBits b0 b1 b2 b3 b4 b5 b6 b7 = 0 →
      b0 = false ∧ b1 = false ∧ b2 = false ∧ b3 = false ∧ b4 = false ∧ b5 = false ∧
        b6 = false ∧ b7 = false := by
  intro b0 b1 b2 b3 b4 b5 b6 b7
  cases b0 <;> cases b1 <;> cases b2 <;> cases b3 <;> cases b4 <;> cases b5 <;> cases b6 <;>
    cases b7 <;> decide

theorem codeOfBits_eq_255 : ∀ b0 b1 b2 b3 b4 b5 b6 b7 : Bool,
    codeOfBits b0 b1 b2 b3 b4 b5 b6 b7 = 255 →
      b0 = true ∧ b1 = true ∧ b2 = true ∧ b3 = true ∧ b4 = true ∧ b5 = true ∧
        b6 = true ∧ b7 = true := by
  intro b0 b1 b2 b3 b4 b5 b6 b7
  cases b0 <;> cases b1 <;> cases b2 <;> cases b3 <;> cases b4 <;> cases b5 <;> cases b6 <;>
    cases b7 <;> decide

theorem process_of_code (out : List FatVertex) (vertex : List vec4f) (isoValue : ℚ)
    (code : Nat) (h : caseIndex vertex isoValue = some code) :
    process out vertex isoValue =
      if code = 0 ∨ code = 255 then some out
      else (vtkMarchingCubesTriangleCases[code]?).bind (walkCases vertex isoValue out) := by
  simp only [process, h, Option.bind_eq_bind, Option.some_bind]
  split <;> rfl

/-- C7. Classification: the configuration code of a cell is the number below
256 whose bit `i` is set exactly when corner `i` has a scalar strictly greater
than the iso-value (so a corner at the iso-value has its bit clear), and the
kernel leaves the buffer unchanged when the code is 0 or 255. -/
theorem C7_classification (c0 c1 c2 c3 c4 c5 c6 c7 : vec4f) (isoValue : ℚ) :
    ∃ code, caseIndex [c0, c1, c2, c3, c4, c5, c6, c7] isoValue = some code ∧ code < 256 ∧
      (∀ i v, [c0, c1, c2, c3, c4, c5, c6, c7][i]? = some v →
        (code.testBit i = true ↔ v.w > isoValue)) ∧
      (∀ i v, [c0, c1, c2, c3, c4, c5, c6, c7][i]? = some v → v.w = isoValue →
        code.testBit i = false) ∧
      (code = 0 ∨ code = 255 →
        ∀ out, process out [c0, c1, c2, c3, c4, c5, c6, c7] isoValue = some out) := by
  refine ⟨_, caseIndex_eq c0 c1 c2 c3 c4 c5 c6 c7 isoValue, codeOfBits_lt _ _ _ _ _ _ _ _, ?_, ?_, ?_⟩
  · intro i v hi
    obtain ⟨t0, t1, t2, t3, t4, t5, t6, t7⟩ := codeOfBits_testBit (decide (c0.w > isoValue))
      (decide (c1.w > isoValue)) (decide (c2.w > isoValue)) (decide (c3.w > isoValue))
      (decide (c4.w > isoValue)) (decide (c5.w > isoValue)) (decide (c6.w > isoValue))
      (decide (c7.w > isoValue))
    match i, hi with
    | 0, hi => simp at hi; subst hi; rw [t0]; simp
    | 1, hi => simp at hi; subst hi; rw [t1]; simp
    | 2, hi => simp at hi; subst hi; rw [t2]; simp
    | 3, hi => simp at hi; subst hi; rw [t3]; simp
    | 4, hi => simp at hi; subst hi; rw [t4]; simp
    | 5, hi => simp at hi; subst hi; rw [t5]; simp
    | 6, hi => simp at hi; subst hi; rw [t6]; simp
    | 7, hi => simp at hi; subst hi; rw [t7]; simp
    | n + 8, hi => simp at hi
  · intro i v hi hv
    obtain ⟨t0, t1, t2, t3, t4, t5, t6, t7⟩ := codeOfBits_testBit (decide (c0.w > isoValue))
      (decide (c1.w > isoValue)) (decide (c2.w > isoValue)) (decide (c3.w > isoValue))
      (decide (c4.w > isoValue)) (decide (c5.w > isoValue)) (decide (c6.w > isoValue))
      (decide (c7.w > isoValue))
    match i, hi with
    | 0, hi => simp at hi; subst hi; rw [t0]; simp [hv]
    | 1, hi => simp at hi; subst hi; rw [t1]; simp [hv]
    | 2, hi => simp at hi; subst hi; rw [t2]; simp [hv]
    | 3, hi => simp at hi; subst hi; rw [t3]; simp [hv]
    | 4, hi => simp at hi; subst hi; rw [t4]; simp [hv]
    | 5, hi => simp at hi; subst hi; rw [t5]; simp [hv]
    | 6, hi => simp at hi; subst hi; rw [t6]; simp [hv]
    | 7, hi => simp at hi; subst hi; rw [t7]; simp [hv]
    | n + 8, hi => simp at hi
  · intro hc out
    rw [process_of_code out _ isoValue _ (caseIndex_eq c0 c1 c2 c3 c4 c5 c6 c7 isoValue), if_pos hc]

/-- Witness of C7 on a cell whose eight scalars are 5, with iso-value 1: the
code is 255 and nothing is emitted. -/
theorem C7_classification_witness :
    ∃ code, caseIndex (List.replicate 8 (⟨0, 0, 0, 5⟩ : vec4f)) 1 = some code ∧ code < 256 ∧
      (code = 0 ∨ code = 255 → process [] (List.replicate 8 (⟨0, 0, 0, 5⟩ : vec4f)) 1 = some []) := by
  obtain ⟨code, h1, h2, _, _, h5⟩ :=
    C7_classification ⟨0, 0, 0, 5⟩ ⟨0, 0, 0, 5⟩ ⟨0, 0, 0, 5⟩ ⟨0, 0, 0, 5⟩ ⟨0, 0, 0, 5⟩
      ⟨0, 0, 0, 5⟩ ⟨0, 0, 0, 5⟩ ⟨0, 0, 0, 5⟩ 1
  exact ⟨code, h1, h2, fun h => h5 h []⟩

/-! ### The table walk -/

set_option maxRecDepth 100000 in
theorem table_rowOK : ∀ row ∈ vtkMarchingCubesTriangleCases, rowOK row = true := by decide

set_option maxRecDepth 100000 in
theorem table_length : vtkMarchingCubesTriangleCases.length = 256 := by decide

theorem triVertexAt_some (c0 c1 c2 c3 c4 c5 c6 c7 : vec4f) (isoValue : ℚ) (e : Int)
    (h0 : 0 ≤ e) (h11 : e ≤ 11) :
    ∃ t, triVertexAt [c0, c1, c2, c3, c4, c5, c6, c7] isoValue e = some t := by
  interval_cases e <;> exact ⟨_, rfl⟩

theorem unpack_append (a b : List (vec3f × vec3f × vec3f)) :
    unpack (a ++ b) = unpack a ++ unpack b := by
  induction a with
  | nil => rfl
  | cons t ts ih => simp [unpack, ih]

theorem walkCases_rowOK (vertex : List vec4f) (isoValue : ℚ)
    (hv : ∀ e : Int, 0 ≤ e → e ≤ 11 → ∃ t, triVertexAt vertex isoValue e = some t) :
    ∀ (row : List Int) (out : List FatVertex), rowOK row = true →
      ∃ cands, candidateTriangles vertex isoValue (rowTriangles row) = some cands ∧
        walkCases vertex isoValue out row = some (out ++ unpack (cands.filter nonDegenerate))
  | [], _, h => by simp [rowOK] at h
  | [e0], out, h => by
    simp [rowOK] at h
    subst h
    exact ⟨[], by simp [rowTriangles, inThrees, candidateTriangles], by simp [walkCases, unpack]⟩
  | [e0, e1], out, h => by
    simp [rowOK] at h
    subst h
    exact ⟨[], by simp [rowTriangles, inThrees, candidateTriangles], by simp [walkCases, unpack]⟩
  | e0 :: e1 :: e2 :: rest, out, h => by
    by_cases hpos : e0 > -1
    · simp only [rowOK, hpos, if_true, Bool.and_eq_true, decide_eq_true_eq] at h
      obtain ⟨⟨h0, h1a, h1b, h2a, h2b⟩, hrest⟩ := h
      obtain ⟨t0, ht0⟩ := hv e0 (by omega) h0
      obtain ⟨t1, ht1⟩ := hv e1 h1a h1b
      obtain ⟨t2, ht2⟩ := hv e2 h2a h2b
      have hrow : rowTriangles (e0 :: e1 :: e2 :: rest) = (e0, e1, e2) :: rowTriangles rest := by
        have a0 : (e0 != -1) = true := by simp; omega
        have a1 : (e1 != -1) = true := by simp; omega
        have a2 : (e2 != -1) = true := by simp; omega
        simp [rowTriangles, List.takeWhile, a0, a1, a2, inThrees]
      by_cases d : nonDegenerate (t0, t1, t2) = true
      · obtain ⟨cands, hc, hw⟩ := walkCases_rowOK vertex isoValue hv rest
          (out ++ [⟨t0, 0⟩, ⟨t1, 0⟩, ⟨t2, 0⟩]) hrest
        refine ⟨(t0, t1, t2) :: cands, ?_, ?_⟩
        · simp [hrow, candidateTriangles, ht0, ht1, ht2, hc]
        · simp only [nonDegenerate, decide_eq_true_eq] at d
          obtain ⟨d1, d2, d3⟩ := d
          simp only [walkCases, hpos, if_true, ht0, ht1, ht2, d1, d2, d3, if_false, hw]
          simp [List.filter, nonDegenerate, d1, d2, d3, unpack, cornersOf]
      · obtain ⟨cands, hc, hw⟩ := walkCases_rowOK vertex isoValue hv rest out hrest
        refine ⟨(t0, t1, t2) :: cands, ?_, ?_⟩
        · simp [hrow, candidateTriangles, ht0, ht1, ht2, hc]
        · have hf : ((t0, t1, t2) :: cands).filter nonDegenerate = cands.filter nonDegenerate := by
            simp [List.filter, d]
          rw [hf, ← hw]
          simp only [nonDegenerate, decide_eq_true_eq, not_and_or, not_not] at d
          simp only [walkCases, hpos, if_true, ht0, ht1, ht2]
          rcases d with d | d | d
          · simp [d]
          · by_cases d1 : t1 = t0
            · simp [d1]
            · simp [d1, d]
          · by_cases d1 : t1 = t0
            · simp [d1]
            · by_cases d2 : t2 = t0
              · simp [d2]
              · simp [d1, d2, d]
    · have he : e0 = -1 := by
        simp only [rowOK, hpos, if_false] at h
        simpa using h
      subst he
      exact ⟨[], by simp [rowTriangles, List.takeWhile, inThrees, candidateTriangles],
        by simp [walkCases, unpack]⟩

set_option maxRecDepth 100000 in
theorem table_row_zero : vtkMarchingCubesTriangleCases[0]? = some (List.replicate 16 (-1)) := by
  decide

set_option maxRecDepth 100000 in
theorem table_row_255 : vtkMarchingCubesTriangleCases[255]? = some (List.replicate 16 (-1)) := by
  decide

theorem rowTriangles_terminators : rowTriangles (List.replicate 16 (-1)) = [] := by decide

/-- The kernel on an 8-corner cell, in closed form: it succeeds, and appends
the non-degenerate candidate triangles of the row of the cell's code. -/
theorem process_cell (out : List FatVertex) (c0 c1 c2 c3 c4 c5 c6 c7 : vec4f) (isoValue : ℚ) :
    ∃ code row cands, caseIndex [c0, c1, c2, c3, c4, c5, c6, c7] isoValue = some code ∧
      vtkMarchingCubesTriangleCases[code]? = some row ∧
      candidateTriangles [c0, c1, c2, c3, c4, c5, c6, c7] isoValue (rowTriangles row)
        = some cands ∧
      process out [c0, c1, c2, c3, c4, c5, c6, c7] isoValue
        = some (out ++ unpack (cands.filter nonDegenerate)) := by
  have hcode := caseIndex_eq c0 c1 c2 c3 c4 c5 c6 c7 isoValue
  have hlt := codeOfBits_lt (decide (c0.w > isoValue)) (decide (c1.w > isoValue))
    (decide (c2.w > isoValue)) (decide (c3.w > isoValue)) (decide (c4.w > isoValue))
    (decide (c5.w > isoValue)) (decide (c6.w > isoValue)) (decide (c7.w > isoValue))
  generalize codeOfBits (decide (c0.w > isoValue)) (decide (c1.w > isoValue))
    (decide (c2.w > isoValue)) (decide (c3.w > isoValue)) (decide (c4.w > isoValue))
    (decide (c5.w > isoValue)) (decide (c6.w > isoValue)) (decide (c7.w > isoValue)) = code
    at hcode hlt
  have hproc := process_of_code out _ isoValue code hcode
  by_cases hc : code = 0 ∨ code = 255
  · rw [if_pos hc] at hproc
    refine ⟨code, List.replicate 16 (-1), [], hcode, ?_, ?_, ?_⟩
    · rcases hc with h | h
      · rw [h]; exact table_row_zero
      · rw [h]; exact table_row_255
    · rw [rowTriangles_terminators]; rfl
    · rw [hproc]; simp [unpack]
  · rw [if_neg hc] at hproc
    have hl : code < vtkMarchingCubesTriangleCases.length := by rw [table_length]; exact hlt
    have hrow : vtkMarchingCubesTriangleCases[code]? = some (vtkMarchingCubesTriangleCases[code]) :=
      List.getElem?_eq_getElem hl
    obtain ⟨cands, h1, h2⟩ := walkCases_rowOK [c0, c1, c2, c3, c4, c5, c6, c7] isoValue
      (fun e h0 h11 => triVertexAt_some c0 c1 c2 c3 c4 c5 c6 c7 isoValue e h0 h11)
      (vtkMarchingCubesTriangleCases[code]) out
      (table_rowOK _ (List.getElem_mem hl))
    refine ⟨code, _, cands, hcode, hrow, h1, ?_⟩
    rw [hproc, hrow]
    exact h2

/-! ### Interpolation, degeneracy filter, lifting -/

/-- C8. Interpolation in exact arithmetic: the kernel's parameter is
`t = (isoValue - scalar0)/(scalar1 - scalar0)` when the two scalars differ and
`0` when they are equal; the position is `(1-t)*pos0 + t*pos1`; for different
scalars the linearly interpolated scalar at `t` is the iso-value, for equal
scalars the position is `pos0`; and this is the position the kernel computes
for a table edge from the edge's two corners. -/
theorem C8_interpolation (v0 v1 : vec4f) (isoValue : ℚ) :
    tParam v0 v1 isoValue
        = (if v0.w = v1.w then 0 else (isoValue - v0.w) / (v1.w - v0.w)) ∧
      interpolate v0 v1 isoValue
        = ⟨(1 - tParam v0 v1 isoValue) * v0.x + tParam v0 v1 isoValue * v1.x,
           (1 - tParam v0 v1 isoValue) * v0.y + tParam v0 v1 isoValue * v1.y,
           (1 - tParam v0 v1 isoValue) * v0.z + tParam v0 v1 isoValue * v1.z⟩ ∧
      (v0.w ≠ v1.w →
        (1 - tParam v0 v1 isoValue) * v0.w + tParam v0 v1 isoValue * v1.w = isoValue) ∧
      (v0.w = v1.w → tParam v0 v1 isoValue = 0 ∧ interpolate v0 v1 isoValue = v0.pos) ∧
      (∀ (vertex : List vec4f) (e i0 i1 : Int),
        getInt? vtkMarchingCubes_edges e = some [i0, i1] →
        getInt? vertex i0 = some v0 → getInt? vertex i1 = some v1 →
        triVertexAt vertex isoValue e = some (interpolate v0 v1 isoValue)) := by
  refine ⟨?_, rfl, ?_, ?_, ?_⟩
  · unfold tParam
    by_cases h : v0.w = v1.w
    · rw [if_pos h.symm, if_pos h]
    · rw [if_neg (Ne.symm h), if_neg h]
  · intro h
    have hne : v1.w - v0.w ≠ 0 := sub_ne_zero.mpr (Ne.symm h)
    unfold tParam
    rw [if_neg (Ne.symm h)]
    field_simp
    ring
  · intro h
    have ht : tParam v0 v1 isoValue = 0 := by
      unfold tParam
      rw [if_pos h.symm]
    refine ⟨ht, ?_⟩
    simp [interpolate, ht, vec4f.pos]
  · intro vertex e i0 i1 he h0 h1
    simp [triVertexAt, he, h0, h1]

/-- Witness of C8: the edge from `(0,0,0)` with scalar 0 to `(2,4,6)` with
scalar 2 meets iso-value 1 where the interpolated scalar is 1. -/
theorem C8_interpolation_witness :
    (1 - tParam ⟨0, 0, 0, 0⟩ ⟨2, 4, 6, 2⟩ 1) * 0 + tParam ⟨0, 0, 0, 0⟩ ⟨2, 4, 6, 2⟩ 1 * 2
      = (1 : ℚ) :=
  (C8_interpolation ⟨0, 0, 0, 0⟩ ⟨2, 4, 6, 2⟩ 1).2.2.1 (by decide)

/-- C9. Degeneracy filter: on every 8-corner cell the kernel succeeds and
appends exactly the candidate triangles of the table row of the cell's code
(the row's edge triples in table order, each edge replaced by its interpolated
position) from which every triangle with two equal corners is removed; no
emitted triangle has two equal corners and every candidate with three
pairwise different corners is emitted. -/
theorem C9_degeneracy_filter (out : List FatVertex) (c0 c1 c2 c3 c4 c5 c6 c7 : vec4f)
    (isoValue : ℚ) :
    ∃ code row cands, caseIndex [c0, c1, c2, c3, c4, c5, c6, c7] isoValue = some code ∧
      vtkMarchingCubesTriangleCases[code]? = some row ∧
      candidateTriangles [c0, c1, c2, c3, c4, c5, c6, c7] isoValue (rowTriangles row)
        = some cands ∧
      process out [c0, c1, c2, c3, c4, c5, c6, c7] isoValue
        = some (out ++ unpack (cands.filter nonDegenerate)) ∧
      (∀ t ∈ cands.filter nonDegenerate, t.1 ≠ t.2.1 ∧ t.1 ≠ t.2.2 ∧ t.2.1 ≠ t.2.2) ∧
      (∀ t ∈ cands, t.1 ≠ t.2.1 → t.1 ≠ t.2.2 → t.2.1 ≠ t.2.2 →
        t ∈ cands.filter nonDegenerate) := by
  obtain ⟨code, row, cands, h1, h2, h3, h4⟩ := process_cell out c0 c1 c2 c3 c4 c5 c6 c7 isoValue
  refine ⟨code, row, cands, h1, h2, h3, h4, ?_, ?_⟩
  · intro t ht
    have hnd := (List.mem_filter.mp ht).2
    simp only [nonDegenerate, decide_eq_true_eq] at hnd
    exact ⟨fun h => hnd.1 h.symm, fun h => hnd.2.1 h.symm, hnd.2.2⟩
  · intro t ht a b c
    refine List.mem_filter.mpr ⟨ht, ?_⟩
    simp only [nonDegenerate, decide_eq_true_eq]
    exact ⟨fun h => a h.symm, fun h => b h.symm, c⟩

/-- Meaning of `fetch`: position and scalar read at the same vertex index. -/
theorem fetch_eq_some (inp : UMesh) (i : Nat) (v : vec4f) :
    fetch inp i = some v ↔
      ∃ p values s, inp.vertices[i]? = some p ∧ inp.perVertex = some values ∧
        values[i]? = some s ∧ v = vec4f.ofPos p s := by
  unfold fetch
  constructor
  · intro h
    cases hp : inp.vertices[i]? with
    | none => simp [hp] at h
    | some p =>
      cases hv : inp.perVertex with
      | none => simp [hp, hv] at h
      | some values =>
        cases hs : values[i]? with
        | none => simp [hp, hv, hs] at h
        | some s =>
          simp [hp, hv, hs] at h
          exact ⟨p, values, s, rfl, rfl, hs, h.symm⟩
  · rintro ⟨p, values, s, hp, hv, hs, rfl⟩
    simp [hp, hv, hs]

/-- C10. Lifting patterns: a corner fetched for an element is the position
and the scalar of the mesh at the element's vertex index, and the 8 cell
corners passed to the kernel are `v0 v1 v2 v2 v3 v3 v3 v3` for a tetrahedron,
`v0 v1 v2 v3 v4 v4 v4 v4` for a pyramid, `v0 v1 v4 v3 v2 v2 v5 v5` for a wedge
and `v0 .. v7` for a hexahedron. -/
theorem C10_lifting_patterns (out : List FatVertex) (inp : UMesh) (isoValue : ℚ) :
    (∀ i v, fetch inp i = some v ↔
      ∃ p values s, inp.vertices[i]? = some p ∧ inp.perVertex = some values ∧
        values[i]? = some s ∧ v.pos = p ∧ v.w = s) ∧
    (∀ (tet : Tet) (v0 v1 v2 v3 : vec4f),
      fetch inp tet.x = some v0 → fetch inp tet.y = some v1 → fetch inp tet.z = some v2 →
      fetch inp tet.w = some v3 →
      processTet out inp tet isoValue = process out [v0, v1, v2, v2, v3, v3, v3, v3] isoValue) ∧
    (∀ (pyr : Pyr) (v0 v1 v2 v3 v4 : vec4f),
      fetch inp pyr.i0 = some v0 → fetch inp pyr.i1 = some v1 → fetch inp pyr.i2 = some v2 →
      fetch inp pyr.i3 = some v3 → fetch inp pyr.i4 = some v4 →
      processPyr out inp pyr isoValue = process out [v0, v1, v2, v3, v4, v4, v4, v4] isoValue) ∧
    (∀ (wedge : Wedge) (v0 v1 v2 v3 v4 v5 : vec4f),
      fetch inp wedge.i0 = some v0 → fetch inp wedge.i1 = some v1 →
      fetch inp wedge.i2 = some v2 → fetch inp wedge.i3 = some v3 →
      fetch inp wedge.i4 = some v4 → fetch inp wedge.i5 = some v5 →
      processWedge out inp wedge isoValue
        = process out [v0, v1, v4, v3, v2, v2, v5, v5] isoValue) ∧
    (∀ (hex : Hex) (v0 v1 v2 v3 v4 v5 v6 v7 : vec4f),
      fetch inp hex.i0 = some v0 → fetch inp hex.i1 = some v1 → fetch inp hex.i2 = some v2 →
      fetch inp hex.i3 = some v3 → fetch inp hex.i4 = some v4 → fetch inp hex.i5 = some v5 →
      fetch inp hex.i6 = some v6 → fetch inp hex.i7 = some v7 →
      processHex out inp hex isoValue
        = process out [v0, v1, v2, v3, v4, v5, v6, v7] isoValue) := by
  refine ⟨?_, ?_, ?_, ?_, ?_⟩
  · intro i v
    rw [fetch_eq_some]
    constructor
    · rintro ⟨p, values, s, hp, hv, hs, rfl⟩
      exact ⟨p, values, s, hp, hv, hs, rfl, rfl⟩
    · rintro ⟨p, values, s, hp, hv, hs, rfl, rfl⟩
      exact ⟨v.pos, values, v.w, hp, hv, hs, rfl⟩
  · intro tet v0 v1 v2 v3 h0 h1 h2 h3
    simp [processTet, h0, h1, h2, h3]
  · intro pyr v0 v1 v2 v3 v4 h0 h1 h2 h3 h4
    simp [processPyr, h0, h1, h2, h3, h4]
  · intro wedge v0 v1 v2 v3 v4 v5 h0 h1 h2 h3 h4 h5
    simp [processWedge, h0, h1, h2, h3, h4, h5]
  · intro hex v0 v1 v2 v3 v4 v5 v6 v7 h0 h1 h2 h3 h4 h5 h6 h7
    simp [processHex, h0, h1, h2, h3, h4, h5, h6, h7]

/-- Witness of C10 on a mesh with one wedge: the cell corners are
`v0 v1 v4 v3 v2 v2 v5 v5`. -/
theorem C10_lifting_patterns_witness :
    processWedge [] wedgeMesh ⟨0, 1, 2, 3, 4, 5⟩ 1
      = process [] [⟨0, 0, 0, 0⟩, ⟨1, 0, 0, 1⟩, ⟨1, 0, 1, 4⟩, ⟨0, 0, 1, 3⟩, ⟨0, 1, 0, 2⟩,
          ⟨0, 1, 0, 2⟩, ⟨0, 1, 1, 5⟩, ⟨0, 1, 1, 5⟩] 1 :=
  (C10_lifting_patterns [] wedgeMesh 1).2.2.2.1 ⟨0, 1, 2, 3, 4, 5⟩ _ _ _ _ _ _
    (by decide) (by decide) (by decide) (by decide) (by decide) (by decide)

/-! ## Sorting -/

theorem memcmp_swap : ∀ a b : List Nat, memcmp b a = - memcmp a b
  | [], [] => by simp [memcmp]
  | [], _ :: _ => by simp [memcmp]
  | _ :: _, [] => by simp [memcmp]
  | x :: a, y :: b => by
    by_cases h : x = y
    · subst h
      simp [memcmp, memcmp_swap a b]
    · have h2 : ¬ y = x := fun e => h e.symm
      simp [memcmp, h, h2]

theorem memcmp_eq_zero : ∀ a b : List Nat, a.length = b.length → memcmp a b = 0 → a = b
  | [], [], _, _ => rfl
  | [], _ :: _, hl, _ => by simp at hl
  | _ :: _, [], hl, _ => by simp at hl
  | x :: a, y :: b, hl, h => by
    by_cases hxy : x = y
    · subst hxy
      simp only [memcmp, if_true] at h
      rw [memcmp_eq_zero a b (by simpa using hl) h]
    · simp only [memcmp, hxy, if_false] at h
      omega

theorem memcmp_self : ∀ a : List Nat, memcmp a a = 0
  | [] => by simp [memcmp]
  | x :: a => by simp [memcmp, memcmp_self a]

theorem memcmp_trans : ∀ a b c : List Nat, a.length = b.length → b.length = c.length →
    memcmp a b ≤ 0 → memcmp b c ≤ 0 → memcmp a c ≤ 0
  | [], _, [], _, _, _, _ => by simp [memcmp]
  | [], _, _ :: _, _, _, _, _ => by simp [memcmp]
  | _ :: _, _, [], _, _, _, _ => by simp [memcmp]
  | _ :: _, [], _ :: _, h1, _, _, _ => by simp at h1
  | x :: a, y :: b, z :: c, h1, h2, hab, hbc => by
    simp only [memcmp] at hab hbc ⊢
    by_cases hxy : x = y <;> by_cases hyz : y = z <;> by_cases hxz : x = z <;>
      simp only [hxy, hyz, hxz, if_true, if_false] at hab hbc ⊢
    all_goals first
      | exact memcmp_trans a b c (by simpa using h1) (by simpa using h2) hab hbc
      | omega

theorem memcmp_append : ∀ (a b c d : List Nat), a.length = b.length →
    memcmp (a ++ c) (b ++ d) = if memcmp a b = 0 then memcmp c d else memcmp a b
  | [], [], c, d, _ => by simp [memcmp]
  | [], _ :: _, _, _, hl => by simp at hl
  | _ :: _, [], _, _, hl => by simp at hl
  | x :: a, y :: b, c, d, hl => by
    by_cases hxy : x = y
    · subst hxy
      simp [memcmp, memcmp_append a b c d (by simpa using hl)]
    · have : (x : Int) - (y : Int) ≠ 0 := by omega
      simp [memcmp, hxy, this]

theorem bytes32_length (w : Nat) : (bytes32 w).length = 4 := rfl

theorem bytes32_injective (w w' : Nat) (h : bytes32 w = bytes32 w') : w = w' := by
  simp only [bytes32, List.cons.injEq, and_true] at h
  omega

theorem posBytes_length (bits : ℚ → ℕ) (p : vec3f) : (posBytes bits p).length = 12 := by
  simp [posBytes, bytes32_length]

theorem bytes_eq (bits : ℚ → ℕ) (v : FatVertex) :
    v.bytes bits = posBytes bits v.pos ++ bytes32 v.idx := rfl

theorem posBytes_injective (bits : ℚ → ℕ) (hbits : Function.Injective bits) (p q : vec3f)
    (h : posBytes bits p = posBytes bits q) : p = q := by
  simp only [posBytes, bytes32, List.cons_append, List.nil_append, List.cons.injEq, and_true] at h
  obtain ⟨x0, x1, x2, x3, y0, y1, y2, y3, z0, z1, z2, z3⟩ := h
  have hx : bits p.x = bits q.x := by omega
  have hy : bits p.y = bits q.y := by omega
  have hz : bits p.z = bits q.z := by omega
  cases p
  cases q
  simp only [vec3f.mk.injEq]
  exact ⟨hbits hx, hbits hy, hbits hz⟩
theorem orderedInsert_perm (lt : FatVertex → FatVertex → Bool) (a : FatVertex) :
    ∀ l : List FatVertex, (orderedInsert lt a l).Perm (a :: l)
  | [] => List.Perm.refl _
  | b :: l => by
    unfold orderedInsert
    split
    · exact List.Perm.refl _
    · exact ((orderedInsert_perm lt a l).cons b).trans (List.Perm.swap a b l)

theorem sort_perm (lt : FatVertex → FatVertex → Bool) :
    ∀ l : List FatVertex, (sort lt l).Perm l
  | [] => List.Perm.refl _
  | a :: l => (orderedInsert_perm lt a (sort lt l)).trans ((sort_perm lt l).cons a)

theorem orderedInsert_pairwise (lt : FatVertex → FatVertex → Bool)
    (le : FatVertex → FatVertex → Prop) (hlt : ∀ a b, lt a b = true → le a b)
    (hge : ∀ a b, lt a b = false → le b a) (htr : ∀ a b c, le a b → le b c → le a c)
    (a : FatVertex) :
    ∀ l : List FatVertex, l.Pairwise le → (orderedInsert lt a l).Pairwise le
  | [], _ => by simp [orderedInsert]
  | b :: l, h => by
    unfold orderedInsert
    rw [List.pairwise_cons] at h
    cases hab : lt a b with
    | true =>
      simp only [if_true]
      refine List.pairwise_cons.mpr ⟨?_, List.pairwise_cons.mpr h⟩
      intro x hx
      rcases List.mem_cons.mp hx with rfl | hx
      · exact hlt _ _ hab
      · exact htr _ _ _ (hlt _ _ hab) (h.1 x hx)
    | false =>
      simp only [Bool.false_eq_true, if_false]
      refine List.pairwise_cons.mpr ⟨?_, orderedInsert_pairwise lt le hlt hge htr a l h.2⟩
      intro x hx
      rcases List.mem_cons.mp ((orderedInsert_perm lt a l).mem_iff.mp hx) with rfl | hx
      · exact hge _ _ hab
      · exact h.1 x hx

theorem sort_pairwise (lt : FatVertex → FatVertex → Bool)
    (le : FatVertex → FatVertex → Prop) (hlt : ∀ a b, lt a b = true → le a b)
    (hge : ∀ a b, lt a b = false → le b a) (htr : ∀ a b c, le a b → le b c → le a c) :
    ∀ l : List FatVertex, (sort lt l).Pairwise le
  | [] => List.Pairwise.nil
  | a :: l => orderedInsert_pairwise lt le hlt hge htr a _ (sort_pairwise lt le hlt hge htr l)

theorem bytes_length (bits : ℚ → ℕ) (v : FatVertex) : (v.bytes bits).length = 16 := by
  simp [FatVertex.bytes, bytes32_length]

/-- The sorted buffer is in non-descending `memcmp` order. -/
theorem sort_compare_pairwise (bits : ℚ → ℕ) (l : List FatVertex) :
    (sort (FatVertexCompare bits) l).Pairwise
      (fun a b => memcmp (a.bytes bits) (b.bytes bits) ≤ 0) := by
  apply sort_pairwise
  · intro a b h
    simp only [FatVertexCompare, decide_eq_true_eq] at h
    omega
  · intro a b h
    simp only [FatVertexCompare, decide_eq_false_iff_not] at h
    rw [memcmp_swap]
    omega
  · intro a b c hab hbc
    exact memcmp_trans _ _ _ (by rw [bytes_length, bytes_length])
      (by rw [bytes_length, bytes_length]) hab hbc

/-- In the sorted buffer the positions are in non-descending order of their
12 bytes. -/
theorem sort_positions_pairwise (bits : ℚ → ℕ) (l : List FatVertex) :
    (sort (FatVertexCompare bits) l).Pairwise
      (fun a b => memcmp (posBytes bits a.pos) (posBytes bits b.pos) ≤ 0) := by
  refine (sort_compare_pairwise bits l).imp ?_
  intro a b h
  rw [bytes_eq, bytes_eq, memcmp_append _ _ _ _ (by rw [posBytes_length, posBytes_length])] at h
  by_cases h0 : memcmp (posBytes bits a.pos) (posBytes bits b.pos) = 0
  · omega
  · rwa [if_neg h0] at h

/-! ## Slots -/

theorem assignSlots_map_pos : ∀ (i : Nat) (l : List FatVertex),
    (assignSlots i l).map FatVertex.pos = l.map FatVertex.pos
  | _, [] => rfl
  | i, v :: l => by simp [assignSlots, assignSlots_map_pos (i + 1) l]

theorem assignSlots_idx_lt : ∀ (i : Nat) (l : List FatVertex),
    ∀ v ∈ assignSlots i l, i ≤ v.idx ∧ v.idx < i + l.length
  | _, [], v, h => by simp [assignSlots] at h
  | i, w :: l, v, h => by
    simp only [assignSlots, List.mem_cons] at h
    rcases h with rfl | h
    · simp
    · have := assignSlots_idx_lt (i + 1) l v h
      simp only [List.length_cons]
      omega

theorem assignSlots_nodup : ∀ (i : Nat) (l : List FatVertex),
    ((assignSlots i l).map FatVertex.idx).Nodup
  | _, [] => by simp [assignSlots]
  | i, w :: l => by
    simp only [assignSlots, List.map_cons, List.nodup_cons, List.mem_map, not_exists, not_and]
    refine ⟨?_, assignSlots_nodup (i + 1) l⟩
    intro v hv hi
    have := assignSlots_idx_lt (i + 1) l v hv
    omega

theorem assignSlots_mem : ∀ (i : Nat) (l : List FatVertex) (k : Nat) (v : FatVertex),
    l[k]? = some v → (⟨v.pos, i + k⟩ : FatVertex) ∈ assignSlots i l
  | _, [], k, v, h => by simp at h
  | i, w :: l, 0, v, h => by
    simp at h
    subst h
    simp [assignSlots]
  | i, w :: l, k + 1, v, h => by
    simp only [List.getElem?_cons_succ] at h
    have := assignSlots_mem (i + 1) l k v h
    simp only [assignSlots, List.mem_cons]
    right
    have e : i + (k + 1) = i + 1 + k := by omega
    rw [e]
    exact this

theorem assignSlots_length : ∀ (i : Nat) (l : List FatVertex),
    (assignSlots i l).length = l.length
  | _, [] => rfl
  | i, v :: l => by simp [assignSlots, assignSlots_length (i + 1) l]

/-! ## The scan -/

theorem setInt?_natCast {α : Type} (l : List α) (i : Nat) (x : α) (h : i < l.length) :
    setInt? l (i : Int) x = some (l.set i x) := by
  simp [setInt?, h]

theorem scanLoop_eq_pure : ∀ (rest : List FatVertex) (prev : Option vec3f) (n : Nat)
    (vs : List vec3f) (fl : List Int),
    (∀ v ∈ rest, v.idx < fl.length) → n + countUnique prev rest ≤ vs.length →
    scanLoop prev ((n : Int) - 1) vs fl rest = some (scanPure prev n vs fl rest)
  | [], _, _, _, _, _, _ => rfl
  | v :: rest, prev, n, vs, fl, hfl, hvs => by
    have hv : v.idx < fl.length := hfl v (List.mem_cons_self _ _)
    have hrest : ∀ w ∈ rest, w.idx < fl.length := fun w hw => hfl w (List.mem_cons_of_mem _ hw)
    have e1 : (n : Int) - 1 + 1 = (n : Int) := by omega
    cases hs : startsVertex prev v.pos with
    | true =>
      simp only [countUnique, hs, if_true] at hvs
      have hn : n < vs.length := by omega
      have e2 : (n : Int) = ((n + 1 : Nat) : Int) - 1 := by omega
      simp only [scanLoop, scanPure, hs, if_true, e1, setInt?_natCast vs n v.pos hn,
        setInt?_natCast fl v.idx (n : Int) hv]
      rw [e2]
      have := scanLoop_eq_pure rest (some v.pos) (n + 1) (vs.set n v.pos) (fl.set v.idx (n : Int))
        (by simpa using hrest) (by simp only [List.length_set]; omega)
      simpa using this
    | false =>
      simp only [countUnique, hs, Bool.false_eq_true, if_false, Nat.zero_add] at hvs
      simp only [scanLoop, scanPure, hs, Bool.false_eq_true, if_false,
        setInt?_natCast fl v.idx ((n : Int) - 1) hv]
      exact scanLoop_eq_pure rest (some v.pos) n vs (fl.set v.idx ((n : Int) - 1))
        (by simpa using hrest) hvs

theorem scanPure_length : ∀ (rest : List FatVertex) (prev : Option vec3f) (n : Nat)
    (vs : List vec3f) (fl : List Int),
    (scanPure prev n vs fl rest).1.length = vs.length ∧
      (scanPure prev n vs fl rest).2.length = fl.length
  | [], _, _, _, _ => ⟨rfl, rfl⟩
  | v :: rest, prev, n, vs, fl => by
    unfold scanPure
    split
    · have := scanPure_length rest (some v.pos) (n + 1) (vs.set n v.pos) (fl.set v.idx (n : Int))
      simpa using this
    · have := scanPure_length rest (some v.pos) n vs (fl.set v.idx ((n : Int) - 1))
      simpa using this

/-- Vertices below the counter are not written again. -/
theorem scanPure_vertices_frame : ∀ (rest : List FatVertex) (prev : Option vec3f) (n : Nat)
    (vs : List vec3f) (fl : List Int) (j : Nat), j < n →
    (scanPure prev n vs fl rest).1[j]? = vs[j]?
  | [], _, _, _, _, _, _ => rfl
  | v :: rest, prev, n, vs, fl, j, hj => by
    unfold scanPure
    split
    · rw [scanPure_vertices_frame rest (some v.pos) (n + 1) _ _ j (by omega)]
      exact List.getElem?_set_ne (by omega)
    · exact scanPure_vertices_frame rest (some v.pos) n vs _ j hj

/-- Slots of no remaining corner are not written. -/
theorem scanPure_flat_frame : ∀ (rest : List FatVertex) (prev : Option vec3f) (n : Nat)
    (vs : List vec3f) (fl : List Int) (k : Nat), (∀ v ∈ rest, v.idx ≠ k) →
    (scanPure prev n vs fl rest).2[k]? = fl[k]?
  | [], _, _, _, _, _, _ => rfl
  | v :: rest, prev, n, vs, fl, k, hk => by
    have hv : v.idx ≠ k := hk v (List.mem_cons_self _ _)
    have hrest : ∀ w ∈ rest, w.idx ≠ k := fun w hw => hk w (List.mem_cons_of_mem _ hw)
    unfold scanPure
    split
    · rw [scanPure_flat_frame rest (some v.pos) (n + 1) _ _ k hrest]
      exact List.getElem?_set_ne hv
    · rw [scanPure_flat_frame rest (some v.pos) n vs _ k hrest]
      exact List.getElem?_set_ne hv

/-- Every scanned corner finds, at its slot, the id of a vertex that holds its
position. -/
theorem scanPure_lookup : ∀ (rest : List FatVertex) (prev : Option vec3f) (n : Nat)
    (vs : List vec3f) (fl : List Int),
    (∀ v ∈ rest, v.idx < fl.length) → n + countUnique prev rest ≤ vs.length →
    (rest.map FatVertex.idx).Nodup →
    (∀ p, prev = some p → 1 ≤ n ∧ vs[n - 1]? = some p) →
    ∀ v ∈ rest, ∃ id : Nat, id < n + countUnique prev rest ∧
      (scanPure prev n vs fl rest).2[v.idx]? = some (id : Int) ∧
      (scanPure prev n vs fl rest).1[id]? = some v.pos
  | [], _, _, _, _, _, _, _, _, v, hv => by simp at hv
  | w :: rest, prev, n, vs, fl, hfl, hvs, hnd, hprev, v, hv => by
    have hw : w.idx < fl.length := hfl w (List.mem_cons_self _ _)
    have hrest : ∀ u ∈ rest, u.idx < fl.length := fun u hu => hfl u (List.mem_cons_of_mem _ hu)
    simp only [List.map_cons, List.nodup_cons, List.mem_map, not_exists, not_and] at hnd
    have hwne : ∀ u ∈ rest, u.idx ≠ w.idx := fun u hu => hnd.1 u hu
    cases hs : startsVertex prev w.pos with
    | true =>
      simp only [countUnique, hs, if_true] at hvs ⊢
      have hn : n < vs.length := by omega
      simp only [scanPure, hs, if_true]
      rcases List.mem_cons.mp hv with rfl | hv
      · refine ⟨n, by omega, ?_, ?_⟩
        · rw [scanPure_flat_frame rest _ _ _ _ v.idx hwne]
          simp [List.getElem?_set_self, hw]
        · rw [scanPure_vertices_frame rest _ (n + 1) _ _ n (by omega)]
          simp [List.getElem?_set_self, hn]
      · obtain ⟨id, h1, h2, h3⟩ := scanPure_lookup rest (some w.pos) (n + 1) (vs.set n w.pos)
          (fl.set w.idx (n : Int)) (by simpa using hrest)
          (by simp only [List.length_set]; omega) hnd.2
          (by
            intro p hp
            simp only [Option.some.injEq] at hp
            subst hp
            refine ⟨by omega, ?_⟩
            simp [List.getElem?_set_self, hn])
          v hv
        exact ⟨id, by omega, h2, h3⟩
    | false =>
      simp only [countUnique, hs, Bool.false_eq_true, if_false, Nat.zero_add] at hvs ⊢
      simp only [scanPure, hs, Bool.false_eq_true, if_false]
      have hp : prev = some w.pos := by
        cases prev with
        | none => simp [startsVertex] at hs
        | some p =>
          simp only [startsVertex, ne_eq, decide_not, Bool.not_eq_false', decide_eq_true_eq] at hs
          rw [hs]
      obtain ⟨hn1, hvn⟩ := hprev w.pos hp
      rcases List.mem_cons.mp hv with rfl | hv
      · refine ⟨n - 1, by omega, ?_, ?_⟩
        · rw [scanPure_flat_frame rest _ _ _ _ v.idx hwne]
          have e : ((n - 1 : Nat) : Int) = (n : Int) - 1 := by omega
          simp [List.getElem?_set_self, hw, e]
        · rw [scanPure_vertices_frame rest _ n _ _ (n - 1) (by omega)]
          exact hvn
      · obtain ⟨id, h1, h2, h3⟩ := scanPure_lookup rest (some w.pos) n vs
          (fl.set w.idx ((n : Int) - 1)) (by simpa using hrest) hvs hnd.2
          (by
            intro p hp'
            simp only [Option.some.injEq] at hp'
            subst hp'
            exact ⟨hn1, hvn⟩)
          v hv
        exact ⟨id, h1, h2, h3⟩
theorem take_set_succ {α : Type} : ∀ (l : List α) (n : Nat) (x : α), n < l.length →
    (l.set n x).take (n + 1) = l.take n ++ [x]
  | [], _, _, h => by simp at h
  | _ :: l, 0, x, _ => by simp
  | a :: l, n + 1, x, h => by
    have := take_set_succ l n x (by simpa using h)
    simp [List.set, List.take, this]

theorem countUnique_eq_length : ∀ (rest : List FatVertex) (prev : Option vec3f),
    countUnique prev rest = (newPositions prev rest).length
  | [], _ => rfl
  | v :: rest, prev => by
    unfold countUnique newPositions
    rw [countUnique_eq_length rest (some v.pos)]
    split
    · simp; omega
    · simp

/-- The vertex array after the scan: what was there below the counter,
followed by the positions that start a vertex. -/
theorem scanPure_vertices : ∀ (rest : List FatVertex) (prev : Option vec3f) (n : Nat)
    (vs : List vec3f) (fl : List Int), n + countUnique prev rest = vs.length →
    (scanPure prev n vs fl rest).1 = vs.take n ++ newPositions prev rest
  | [], _, n, vs, _, h => by
    simp only [countUnique, Nat.add_zero] at h
    simp [scanPure, newPositions, h]
  | v :: rest, prev, n, vs, fl, h => by
    cases hs : startsVertex prev v.pos with
    | true =>
      simp only [countUnique, hs, if_true] at h
      simp only [scanPure, newPositions, hs, if_true]
      rw [scanPure_vertices rest (some v.pos) (n + 1) _ _ (by simp only [List.length_set]; omega),
        take_set_succ vs n v.pos (by omega)]
      simp
    | false =>
      simp only [countUnique, hs, Bool.false_eq_true, if_false, Nat.zero_add] at h
      simp only [scanPure, newPositions, hs, Bool.false_eq_true, if_false]
      exact scanPure_vertices rest (some v.pos) n vs _ h

theorem newPositions_subset : ∀ (l : List FatVertex) (prev : Option vec3f) (p : vec3f),
    p ∈ newPositions prev l → p ∈ l.map FatVertex.pos
  | [], _, p, h => by simp [newPositions] at h
  | v :: l, prev, p, h => by
    unfold newPositions at h
    split at h
    · rcases List.mem_cons.mp h with rfl | h
      · simp
      · exact List.mem_cons_of_mem _ (newPositions_subset l _ p h)
    · exact List.mem_cons_of_mem _ (newPositions_subset l _ p h)

theorem mem_newPositions : ∀ (l : List FatVertex) (prev : Option vec3f) (p : vec3f),
    p ∈ l.map FatVertex.pos → p ∈ newPositions prev l ∨ prev = some p
  | [], _, p, h => by simp at h
  | v :: l, prev, p, h => by
    simp only [List.map_cons, List.mem_cons] at h
    cases hs : startsVertex prev v.pos with
    | true =>
      left
      simp only [newPositions, hs, if_true, List.mem_cons]
      rcases h with rfl | h
      · exact Or.inl rfl
      · rcases mem_newPositions l (some v.pos) p h with h' | h'
        · exact Or.inr h'
        · simp only [Option.some.injEq] at h'
          exact Or.inl h'.symm
    | false =>
      simp only [newPositions, hs, Bool.false_eq_true, if_false]
      have hp : prev = some v.pos := by
        cases prev with
        | none => simp [startsVertex] at hs
        | some q =>
          simp only [startsVertex, ne_eq, decide_not, Bool.not_eq_false', decide_eq_true_eq] at hs
          rw [hs]
      rcases h with rfl | h
      · exact Or.inr hp
      · rcases mem_newPositions l (some v.pos) p h with h' | h'
        · exact Or.inl h'
        · simp only [Option.some.injEq] at h'
          subst h'
          exact Or.inr hp

/-- In a buffer whose positions are in non-descending order of an
antisymmetric relation, no position starts a vertex twice. -/
theorem newPositions_nodup (le : vec3f → vec3f → Prop)
    (hanti : ∀ p q, le p q → le q p → p = q) :
    ∀ (l : List FatVertex) (prev : Option vec3f),
    l.Pairwise (fun a b => le a.pos b.pos) → (∀ p, prev = some p → ∀ v ∈ l, le p v.pos) →
    (newPositions prev l).Nodup ∧ ∀ p, prev = some p → p ∉ newPositions prev l
  | [], _, _, _ => by simp [newPositions]
  | v :: l, prev, hpw, hprev => by
    rw [List.pairwise_cons] at hpw
    obtain ⟨ih1, ih2⟩ := newPositions_nodup le hanti l (some v.pos) hpw.2
      (by
        intro p hp w hw
        simp only [Option.some.injEq] at hp
        subst hp
        exact hpw.1 w hw)
    cases hs : startsVertex prev v.pos with
    | true =>
      simp only [newPositions, hs, if_true, List.nodup_cons, List.mem_cons, not_or]
      refine ⟨⟨ih2 _ rfl, ih1⟩, ?_⟩
      intro p hp
      have hne : p ≠ v.pos := by
        intro e
        subst e
        simp [startsVertex, hp] at hs
      refine ⟨hne, ?_⟩
      intro hmem
      have hin := newPositions_subset l _ p hmem
      obtain ⟨w, hw, rfl⟩ := List.mem_map.mp hin
      exact hne (hanti _ _ (hprev _ hp v (List.mem_cons_self _ _)) (hpw.1 w hw))
    | false =>
      simp only [newPositions, hs, Bool.false_eq_true, if_false]
      refine ⟨ih1, ?_⟩
      intro p hp
      have hpv : p = v.pos := by
        subst hp
        simp only [startsVertex, ne_eq, decide_not, Bool.not_eq_false', decide_eq_true_eq] at hs
        exact hs.symm
      subst hpv
      exact ih2 _ rfl

theorem flat_group : ∀ fl : List Int, fl.length % 3 = 0 →
    flatTriangleIndices (groupTriangles fl) = fl
  | [], _ => rfl
  | [_], h => by simp at h
  | [_, _], h => by simp at h
  | a :: b :: c :: rest, h => by
    have h' : rest.length % 3 = 0 := by
      simp only [List.length_cons] at h
      omega
    simp [groupTriangles, flatTriangleIndices, flat_group rest h']

theorem groupTriangles_length : ∀ fl : List Int, (groupTriangles fl).length = fl.length / 3
  | [] => rfl
  | [_] => by simp [groupTriangles]
  | [_, _] => by simp [groupTriangles]
  | a :: b :: c :: rest => by
    simp only [groupTriangles, List.length_cons, groupTriangles_length rest]
    omega

theorem ratBits_injective : Function.Injective ratBits := by
  intro a b h
  simp only [ratBits] at h
  obtain ⟨h1, h2⟩ := Nat.pair_eq_pair.mp h
  apply Rat.ext _ h2
  split at h1 <;> split at h1 <;> omega

theorem toInt32_small (n : Nat) (h : n < 2 ^ 31) : toInt32 n = (n : Int) := by
  have h1 : n % 2 ^ 32 = n := Nat.mod_eq_of_lt (by omega)
  simp only [toInt32, h1, h, if_true]

theorem sort_length (lt : FatVertex → FatVertex → Bool) (l : List FatVertex) :
    (sort lt l).length = l.length :=
  (sort_perm lt l).length_eq

/-- Below `2^31` corners the narrowing to `int` changes nothing: every corner
gets its slot, and the loops run over the whole sorted buffer. -/
theorem buildIndexedMesh_small (bits : ℚ → ℕ) (raw : List FatVertex)
    (hlt : raw.length < 2 ^ 31) :
    buildIndexedMesh bits raw
      = match scanLoop none (-1)
          (List.replicate
            (countUnique none (sort (FatVertexCompare bits) (assignSlots 0 raw))) ⟨0, 0, 0⟩)
          (List.replicate (3 * (raw.length / 3)) 0)
          (sort (FatVertexCompare bits) (assignSlots 0 raw)) with
        | none => .error .out_of_bounds
        | some (vertices, flat) =>
          .ok { UMesh.empty with vertices := vertices, triangles := groupTriangles flat } := by
  have hs : (sort (FatVertexCompare bits) (assignSlots 0 raw)).take raw.length
      = sort (FatVertexCompare bits) (assignSlots 0 raw) :=
    List.take_of_length_le (by rw [sort_length, assignSlots_length])
  have hd : ((raw.length : Int).tdiv 3) = ((raw.length / 3 : Nat) : Int) := rfl
  have hneg : ¬ ((raw.length / 3 : Nat) : Int) < 0 := by omega
  simp only [buildIndexedMesh, toInt32_small raw.length hlt, Int.toNat_ofNat, List.take_length,
    List.drop_length, List.append_nil, hs, hd, hneg, if_false]
  try rfl

/-- The merge on a buffer of whole triangles with fewer than `2^31` corners:
it succeeds; the vertex array holds the positions that start a vertex in the
sorted buffer; every raw corner finds at its own offset of the flat index
array the id of a vertex with its position. -/
theorem buildIndexedMesh_spec (bits : ℚ → ℕ) (raw : List FatVertex)
    (h3 : raw.length % 3 = 0) (hlt : raw.length < 2 ^ 31) :
    ∃ vs fl, buildIndexedMesh bits raw
        = .ok { UMesh.empty with vertices := vs, triangles := groupTriangles fl } ∧
      fl.length = raw.length ∧
      vs = newPositions none (sort (FatVertexCompare bits) (assignSlots 0 raw)) ∧
      ∀ (k : Nat) (v : FatVertex), raw[k]? = some v →
        ∃ id : Nat, id < vs.length ∧ fl[k]? = some (id : Int) ∧ vs[id]? = some v.pos := by
  have hperm := sort_perm (FatVertexCompare bits) (assignSlots 0 raw)
  have hlen : 3 * (raw.length / 3) = raw.length := by omega
  have hfl : ∀ v ∈ sort (FatVertexCompare bits) (assignSlots 0 raw),
      v.idx < (List.replicate (3 * (raw.length / 3)) (0 : Int)).length := by
    intro v hv
    have := assignSlots_idx_lt 0 raw v (hperm.mem_iff.mp hv)
    simp only [List.length_replicate]
    omega
  have hvs : 0 + countUnique none (sort (FatVertexCompare bits) (assignSlots 0 raw))
      = (List.replicate (countUnique none (sort (FatVertexCompare bits) (assignSlots 0 raw)))
          (⟨0, 0, 0⟩ : vec3f)).length := by
    simp
  have hscan := scanLoop_eq_pure _ none 0 _ _ hfl (le_of_eq hvs)
  have hnd : ((sort (FatVertexCompare bits) (assignSlots 0 raw)).map FatVertex.idx).Nodup :=
    (hperm.map FatVertex.idx).nodup_iff.mpr (assignSlots_nodup 0 raw)
  have hvert := scanPure_vertices _ none 0 _
    (List.replicate (3 * (raw.length / 3)) (0 : Int)) hvs
  have hlens := scanPure_length (sort (FatVertexCompare bits) (assignSlots 0 raw)) none 0
    (List.replicate (countUnique none (sort (FatVertexCompare bits) (assignSlots 0 raw)))
      (⟨0, 0, 0⟩ : vec3f))
    (List.replicate (3 * (raw.length / 3)) (0 : Int))
  refine ⟨(scanPure none 0
      (List.replicate (countUnique none (sort (FatVertexCompare bits) (assignSlots 0 raw)))
        (⟨0, 0, 0⟩ : vec3f))
      (List.replicate (3 * (raw.length / 3)) (0 : Int))
      (sort (FatVertexCompare bits) (assignSlots 0 raw))).1,
    (scanPure none 0
      (List.replicate (countUnique none (sort (FatVertexCompare bits) (assignSlots 0 raw)))
        (⟨0, 0, 0⟩ : vec3f))
      (List.replicate (3 * (raw.length / 3)) (0 : Int))
      (sort (FatVertexCompare bits) (assignSlots 0 raw))).2, ?_, ?_, ?_, ?_⟩
  · have e : (-1 : Int) = ((0 : Nat) : Int) - 1 := by simp
    rw [buildIndexedMesh_small bits raw hlt, e, hscan]
  · rw [hlens.2, List.length_replicate, hlen]
  · rw [hvert]
    simp
  · intro k v hk
    have hmem : (⟨v.pos, 0 + k⟩ : FatVertex) ∈ sort (FatVertexCompare bits) (assignSlots 0 raw) :=
      hperm.mem_iff.mpr (assignSlots_mem 0 raw k v hk)
    obtain ⟨id, h1, h2, h3'⟩ := scanPure_lookup _ none 0 _ _ hfl (le_of_eq hvs) hnd
      (by intro p hp; cases hp) _ hmem
    refine ⟨id, ?_, ?_, h3'⟩
    · rw [hlens.1, List.length_replicate]
      omega
    · simpa using h2

/-- Reading the triangles back through the vertex array gives the raw
positions, three at a time. -/
theorem positions_of_lookup (vs : List vec3f) : ∀ (fl : List Int) (ps : List vec3f),
    fl.length = ps.length →
    (∀ (k : Nat) (p : vec3f), ps[k]? = some p →
      ∃ id : Nat, fl[k]? = some (id : Int) ∧ vs[id]? = some p) →
    (groupTriangles fl).map (fun t => (getInt? vs t.x, getInt? vs t.y, getInt? vs t.z))
      = (inThrees ps).map (fun t => (some t.1, some t.2.1, some t.2.2))
  | [], [], _, _ => rfl
  | [], _ :: _, h, _ => by simp at h
  | _ :: _, [], h, _ => by simp at h
  | [_], [_], _, _ => rfl
  | [_], _ :: _ :: _, h, _ => by simp at h
  | _ :: _ :: _, [_], h, _ => by simp at h
  | [_, _], [_, _], _, _ => rfl
  | [_, _], _ :: _ :: _ :: _, h, _ => by simp at h
  | _ :: _ :: _ :: _, [_, _], h, _ => by simp at h
  | a :: b :: c :: fl, p :: q :: r :: ps, h, hl => by
    obtain ⟨i0, ha, hp⟩ := hl 0 p (by simp)
    obtain ⟨i1, hb, hq⟩ := hl 1 q (by simp)
    obtain ⟨i2, hc, hr⟩ := hl 2 r (by simp)
    simp only [List.getElem?_cons_zero, List.getElem?_cons_succ, Option.some.injEq] at ha hb hc
    subst ha hb hc
    have ih := positions_of_lookup vs fl ps (by simpa using h)
      (fun k p' hk => by simpa using hl (k + 3) p' (by simpa using hk))
    have g : ∀ i : Nat, getInt? vs (i : Int) = vs[i]? := by
      intro i
      simp [getInt?]
    simp only [groupTriangles, inThrees, List.map_cons, g, hp, hq, hr, ih]

theorem buildIndexedMesh_triangles (bits : ℚ → ℕ) (raw : List FatVertex)
    (h3 : raw.length % 3 = 0) (hlt : raw.length < 2 ^ 31) :
    ∃ out, buildIndexedMesh bits raw = .ok out ∧
      trianglePositions out
        = (inThrees (raw.map FatVertex.pos)).map (fun t => (some t.1, some t.2.1, some t.2.2)) := by
  obtain ⟨vs, fl, hb, hlen, _, hl⟩ := buildIndexedMesh_spec bits raw h3 hlt
  refine ⟨_, hb, ?_⟩
  simp only [trianglePositions]
  apply positions_of_lookup vs fl (raw.map FatVertex.pos) (by simpa using hlen)
  intro k p hk
  simp only [List.getElem?_map, Option.map_eq_some'] at hk
  obtain ⟨v, hv, rfl⟩ := hk
  obtain ⟨id, _, h1, h2⟩ := hl k v hv
  exact ⟨id, h1, h2⟩

/-! ## The merge below `2^31` corners -/

/-- Index reconstruction for a buffer of whole triangles with fewer than `2^31`
corners: the merge returns a mesh with one triangle per three corners in
which, for every offset `k` of the buffer as it was before the sort, the
index at offset `k` of the flat triangle array selects a vertex equal to the
position of raw corner `k`. -/
theorem index_reconstruction (bits : ℚ → ℕ) (raw : List FatVertex)
    (h3 : raw.length % 3 = 0) (hlt : raw.length < 2 ^ 31) :
    ∃ out, buildIndexedMesh bits raw = .ok out ∧
      out.triangles.length = raw.length / 3 ∧
      (∀ (k : Nat) (v : FatVertex), raw[k]? = some v →
        ∃ id : Nat, (flatTriangleIndices out.triangles)[k]? = some (id : Int) ∧
          out.vertices[id]? = some v.pos) ∧
      trianglePositions out
        = (inThrees (raw.map FatVertex.pos)).map (fun t => (some t.1, some t.2.1, some t.2.2)) := by
  obtain ⟨vs, fl, hb, hlen, _, hl⟩ := buildIndexedMesh_spec bits raw h3 hlt
  obtain ⟨out', hb', htri⟩ := buildIndexedMesh_triangles bits raw h3 hlt
  rw [hb] at hb'
  simp only [Except.ok.injEq] at hb'
  subst hb'
  refine ⟨_, hb, ?_, ?_, htri⟩
  · simp only [groupTriangles_length, hlen]
  · intro k v hk
    obtain ⟨id, _, h1, h2⟩ := hl k v hk
    refine ⟨id, ?_, h2⟩
    simp only []
    rw [flat_group fl (by rw [hlen]; exact h3)]
    exact h1

/-- Scheduling independence below `2^31` corners: two buffers of whole
triangles whose triangles, read as position triples, are a reordering of each
other are merged into meshes with the same triangles up to order. -/
theorem scheduling_independence (bits : ℚ → ℕ) (raw raw2 : List FatVertex)
    (h3 : raw.length % 3 = 0) (h32 : raw2.length % 3 = 0)
    (hlt : raw.length < 2 ^ 31) (hlt2 : raw2.length < 2 ^ 31)
    (hperm : (inThrees (raw.map FatVertex.pos)).Perm (inThrees (raw2.map FatVertex.pos))) :
    ∃ out out2, buildIndexedMesh bits raw = .ok out ∧ buildIndexedMesh bits raw2 = .ok out2 ∧
      (trianglePositions out).Perm (trianglePositions out2) := by
  obtain ⟨out, hb, ht⟩ := buildIndexedMesh_triangles bits raw h3 hlt
  obtain ⟨out2, hb2, ht2⟩ := buildIndexedMesh_triangles bits raw2 h32 hlt2
  refine ⟨out, out2, hb, hb2, ?_⟩
  rw [ht, ht2]
  exact hperm.map _

/-! ## Dispatch -/

theorem unpack_length (tris : List (vec3f × vec3f × vec3f)) :
    (unpack tris).length = 3 * tris.length := by
  induction tris with
  | nil => rfl
  | cons t ts ih => simp [unpack, cornersOf, ih]; omega

theorem blockLoop_spec {ε : Type} (P : List (vec3f × vec3f × vec3f) → Prop) (hnil : P [])
    (happ : ∀ a b, P a → P b → P (a ++ b)) (elems : List ε)
    (proc : List FatVertex → ε → Option (List FatVertex))
    (hproc : ∀ lv, ∀ e ∈ elems, ∃ tris, P tris ∧ proc lv e = some (lv ++ unpack tris)) :
    ∀ (n i : Nat) (lv : List FatVertex), i + n ≤ elems.length →
      ∃ tris, P tris ∧ blockLoop elems proc i n lv = some (lv ++ unpack tris)
  | 0, _, lv, _ => ⟨[], hnil, by simp [blockLoop, unpack]⟩
  | n + 1, i, lv, h => by
    have hi : i < elems.length := by omega
    obtain ⟨t1, p1, h1⟩ := hproc lv elems[i] (List.getElem_mem hi)
    obtain ⟨t2, p2, h2⟩ := blockLoop_spec P hnil happ elems proc hproc n (i + 1)
      (lv ++ unpack t1) (by omega)
    refine ⟨t1 ++ t2, happ _ _ p1 p2, ?_⟩
    simp only [blockLoop, List.getElem?_eq_getElem hi, Option.bind_eq_bind, Option.some_bind,
      h1, h2, unpack_append, List.append_assoc]

theorem blockThenAppend_spec {ε : Type} (P : List (vec3f × vec3f × vec3f) → Prop) (hnil : P [])
    (happ : ∀ a b, P a → P b → P (a ++ b)) (elems : List ε)
    (proc : List FatVertex → ε → Option (List FatVertex))
    (hproc : ∀ lv, ∀ e ∈ elems, ∃ tris, P tris ∧ proc lv e = some (lv ++ unpack tris))
    (out : List FatVertex) (b e : Nat) (he : e ≤ elems.length) :
    ∃ tris, P tris ∧
      (blockLoop elems proc b (e - b) []).bind (fun lv => some (out ++ lv))
        = some (out ++ unpack tris) := by
  by_cases hbe : b ≤ e
  · obtain ⟨tris, p, h⟩ := blockLoop_spec P hnil happ elems proc hproc (e - b) b [] (by omega)
    exact ⟨tris, p, by simp [h]⟩
  · have h0 : e - b = 0 := by omega
    exact ⟨[], hnil, by simp [h0, blockLoop, unpack]⟩

theorem blocksOf_le (blockSize : Nat) : ∀ (fuel b e : Nat),
    ∀ be ∈ blocksOf blockSize fuel b e, be.2 ≤ e
  | 0, _, _, be, h => by simp [blocksOf] at h
  | fuel + 1, b, e, be, h => by
    unfold blocksOf at h
    split at h
    · rcases List.mem_cons.mp h with rfl | h
      · exact Nat.min_le_right _ _
      · exact blocksOf_le blockSize fuel _ e be h
    · simp at h

theorem foldBlocks_spec (P : List (vec3f × vec3f × vec3f) → Prop) (hnil : P [])
    (happ : ∀ a b, P a → P b → P (a ++ b))
    (f : Nat → Nat → List FatVertex → Option (List FatVertex)) (end_ : Nat)
    (hf : ∀ b e buf, e ≤ end_ → ∃ tris, P tris ∧ f b e buf = some (buf ++ unpack tris)) :
    ∀ (blocks : List (Nat × Nat)) (shared : List FatVertex), (∀ be ∈ blocks, be.2 ≤ end_) →
      ∃ tris, P tris ∧
        blocks.foldlM (fun buf be => f be.1 be.2 buf) shared = some (shared ++ unpack tris)
  | [], shared, _ => ⟨[], hnil, by simp [unpack]⟩
  | be :: blocks, shared, h => by
    obtain ⟨t1, p1, h1⟩ := hf be.1 be.2 shared (h be (List.mem_cons_self _ _))
    obtain ⟨t2, p2, h2⟩ := foldBlocks_spec P hnil happ f end_ hf blocks (shared ++ unpack t1)
      (fun x hx => h x (List.mem_cons_of_mem _ hx))
    refine ⟨t1 ++ t2, happ _ _ p1 p2, ?_⟩
    simp only [List.foldlM_cons, h1, Option.bind_eq_bind, Option.some_bind, h2, unpack_append,
      List.append_assoc]

theorem parallel_for_blocked_spec (P : List (vec3f × vec3f × vec3f) → Prop) (hnil : P [])
    (happ : ∀ a b, P a → P b → P (a ++ b))
    (f : Nat → Nat → List FatVertex → Option (List FatVertex)) (begin_ end_ blockSize : Nat)
    (hf : ∀ b e buf, e ≤ end_ → ∃ tris, P tris ∧ f b e buf = some (buf ++ unpack tris))
    (shared : List FatVertex) :
    ∃ tris, P tris ∧
      parallel_for_blocked begin_ end_ blockSize f shared = some (shared ++ unpack tris) :=
  foldBlocks_spec P hnil happ f end_ hf _ shared (blocksOf_le blockSize _ begin_ end_)

/-- The four dispatch passes succeed and leave whole triangles, all with
property `P`, when every element is processed successfully into triangles
with property `P`. -/
theorem collectFatVertices_spec (P : List (vec3f × vec3f × vec3f) → Prop) (hnil : P [])
    (happ : ∀ a b, P a → P b → P (a ++ b)) (inp : UMesh) (isoValue : ℚ)
    (htet : ∀ lv, ∀ e ∈ inp.tets,
      ∃ tris, P tris ∧ processTet lv inp e isoValue = some (lv ++ unpack tris))
    (hpyr : ∀ lv, ∀ e ∈ inp.pyrs,
      ∃ tris, P tris ∧ processPyr lv inp e isoValue = some (lv ++ unpack tris))
    (hwedge : ∀ lv, ∀ e ∈ inp.wedges,
      ∃ tris, P tris ∧ processWedge lv inp e isoValue = some (lv ++ unpack tris))
    (hhex : ∀ lv, ∀ e ∈ inp.hexes,
      ∃ tris, P tris ∧ processHex lv inp e isoValue = some (lv ++ unpack tris)) :
    ∃ tris, P tris ∧ collectFatVertices inp isoValue = some (unpack tris) := by
  obtain ⟨t1, p1, h1⟩ := parallel_for_blocked_spec P hnil happ
    (fun b e buf => doIsoSurfaceTets buf inp b e isoValue) 0 inp.tets.length 1024
    (fun b e buf he => blockThenAppend_spec P hnil happ inp.tets _ htet buf b e he) []
  obtain ⟨t2, p2, h2⟩ := parallel_for_blocked_spec P hnil happ
    (fun b e buf => doIsoSurfacePyrs buf inp b e isoValue) 0 inp.pyrs.length 1024
    (fun b e buf he => blockThenAppend_spec P hnil happ inp.pyrs _ hpyr buf b e he)
    ([] ++ unpack t1)
  obtain ⟨t3, p3, h3⟩ := parallel_for_blocked_spec P hnil happ
    (fun b e buf => doIsoSurfaceWedges buf inp b e isoValue) 0 inp.wedges.length 1024
    (fun b e buf he => blockThenAppend_spec P hnil happ inp.wedges _ hwedge buf b e he)
    ([] ++ unpack t1 ++ unpack t2)
  obtain ⟨t4, p4, h4⟩ := parallel_for_blocked_spec P hnil happ
    (fun b e buf => doIsoSurfaceHexes buf inp b e isoValue) 0 inp.hexes.length 1024
    (fun b e buf he => blockThenAppend_spec P hnil happ inp.hexes _ hhex buf b e he)
    ([] ++ unpack t1 ++ unpack t2 ++ unpack t3)
  refine ⟨t1 ++ t2 ++ t3 ++ t4, happ _ _ (happ _ _ (happ _ _ p1 p2) p3) p4, ?_⟩
  simp only [List.nil_append] at h1 h2 h3 h4
  simp only [collectFatVertices, h1, Option.bind_eq_bind, Option.some_bind, h2, h3, h4,
    unpack_append, List.nil_append]

/-! ## Elements -/

theorem process_emits (out : List FatVertex) (c : Cell) (isoValue : ℚ) :
    ∃ tris, (∀ t ∈ tris, EmittedByKernel t) ∧
      process out c.corners isoValue = some (out ++ unpack tris) := by
  obtain ⟨_, _, cands, _, _, _, h⟩ :=
    process_cell out c.c0 c.c1 c.c2 c.c3 c.c4 c.c5 c.c6 c.c7 isoValue
  exact ⟨cands.filter nonDegenerate, fun t ht => ⟨out, c, isoValue, _, h, ht⟩, h⟩

theorem process_one_sided (out : List FatVertex) (c : Cell) (isoValue : ℚ)
    (h : (∀ v ∈ c.corners, v.w > isoValue) ∨ (∀ v ∈ c.corners, v.w ≤ isoValue)) :
    process out c.corners isoValue = some out := by
  have hcode := caseIndex_eq c.c0 c.c1 c.c2 c.c3 c.c4 c.c5 c.c6 c.c7 isoValue
  rw [show c.corners = [c.c0, c.c1, c.c2, c.c3, c.c4, c.c5, c.c6, c.c7] from rfl] at h ⊢
  rw [process_of_code out _ isoValue _ hcode]
  rcases h with h | h
  · have e : ∀ v ∈ [c.c0, c.c1, c.c2, c.c3, c.c4, c.c5, c.c6, c.c7],
        decide (v.w > isoValue) = true := fun v hv => decide_eq_true (h v hv)
    simp only [List.mem_cons, List.mem_singleton, forall_eq_or_imp, forall_eq,
      List.not_mem_nil, false_implies, implies_true, and_true] at e
    obtain ⟨e0, e1, e2, e3, e4, e5, e6, e7⟩ := e
    rw [e0, e1, e2, e3, e4, e5, e6, e7]
    rfl
  · have e : ∀ v ∈ [c.c0, c.c1, c.c2, c.c3, c.c4, c.c5, c.c6, c.c7],
        decide (v.w > isoValue) = false :=
      fun v hv => decide_eq_false (not_lt.mpr (h v hv))
    simp only [List.mem_cons, List.mem_singleton, forall_eq_or_imp, forall_eq,
      List.not_mem_nil, false_implies, implies_true, and_true] at e
    obtain ⟨e0, e1, e2, e3, e4, e5, e6, e7⟩ := e
    rw [e0, e1, e2, e3, e4, e5, e6, e7]
    rfl

theorem fetch_of_lt (inp : UMesh) (values : List ℚ) (hv : inp.perVertex = some values)
    (i : Nat) (h : i < inp.vertices.length ∧ i < values.length) :
    ∃ v, fetch inp i = some v ∧ values[i]? = some v.w := by
  refine ⟨vec4f.ofPos inp.vertices[i] values[i], ?_, ?_⟩
  · simp [fetch, hv, List.getElem?_eq_getElem h.1, List.getElem?_eq_getElem h.2]
  · simp [vec4f.ofPos, List.getElem?_eq_getElem h.2]

/-- Corners whose scalars are read at the indices of a one-sided element are
all above the iso-value or all not above it. -/
theorem oneSided_corners (values : List ℚ) (isoValue : ℚ) (ix : List Nat) (vs : List vec4f)
    (hs : OneSided values isoValue ix)
    (hvs : ∀ v ∈ vs, ∃ i ∈ ix, values[i]? = some v.w) :
    (∀ v ∈ vs, v.w > isoValue) ∨ (∀ v ∈ vs, v.w ≤ isoValue) := by
  rcases hs with h | h
  · left
    intro v hv
    obtain ⟨i, hi, hval⟩ := hvs v hv
    exact h i hi _ hval
  · right
    intro v hv
    obtain ⟨i, hi, hval⟩ := hvs v hv
    exact h i hi _ hval

theorem processTet_spec (lv : List FatVertex) (inp : UMesh) (values : List ℚ)
    (hv : inp.perVertex = some values) (isoValue : ℚ) (e : Tet)
    (hr : ∀ i ∈ e.indices, i < inp.vertices.length ∧ i < values.length) :
    (∃ tris, (∀ t ∈ tris, EmittedByKernel t) ∧
      processTet lv inp e isoValue = some (lv ++ unpack tris)) ∧
    (OneSided values isoValue e.indices → processTet lv inp e isoValue = some lv) := by
  obtain ⟨a, ha, sa⟩ := fetch_of_lt inp values hv e.x (hr _ (by simp [Tet.indices]))
  obtain ⟨b, hb, sb⟩ := fetch_of_lt inp values hv e.y (hr _ (by simp [Tet.indices]))
  obtain ⟨c, hc, sc⟩ := fetch_of_lt inp values hv e.z (hr _ (by simp [Tet.indices]))
  obtain ⟨d, hd, sd⟩ := fetch_of_lt inp values hv e.w (hr _ (by simp [Tet.indices]))
  have hp : processTet lv inp e isoValue
      = process lv (Cell.corners ⟨a, b, c, c, d, d, d, d⟩) isoValue := by
    simp [processTet, ha, hb, hc, hd, Cell.corners]
  rw [hp]
  refine ⟨process_emits lv _ isoValue, fun hs => process_one_sided lv _ isoValue ?_⟩
  apply oneSided_corners values isoValue e.indices _ hs
  simp only [Cell.corners, Tet.indices, List.mem_cons, List.mem_singleton, forall_eq_or_imp,
    forall_eq, List.not_mem_nil, false_implies, implies_true, and_true, exists_eq_or_imp,
    exists_eq_left, false_and, exists_false, or_false]
  simp [sa, sb, sc, sd]

theorem processPyr_spec (lv : List FatVertex) (inp : UMesh) (values : List ℚ)
    (hv : inp.perVertex = some values) (isoValue : ℚ) (e : Pyr)
    (hr : ∀ i ∈ e.indices, i < inp.vertices.length ∧ i < values.length) :
    (∃ tris, (∀ t ∈ tris, EmittedByKernel t) ∧
      processPyr lv inp e isoValue = some (lv ++ unpack tris)) ∧
    (OneSided values isoValue e.indices → processPyr lv inp e isoValue = some lv) := by
  obtain ⟨v0, h0, s0⟩ := fetch_of_lt inp values hv e.i0 (hr _ (by simp [Pyr.indices]))
  obtain ⟨v1, h1, s1⟩ := fetch_of_lt inp values hv e.i1 (hr _ (by simp [Pyr.indices]))
  obtain ⟨v2, h2, s2⟩ := fetch_of_lt inp values hv e.i2 (hr _ (by simp [Pyr.indices]))
  obtain ⟨v3, h3, s3⟩ := fetch_of_lt inp values hv e.i3 (hr _ (by simp [Pyr.indices]))
  obtain ⟨v4, h4, s4⟩ := fetch_of_lt inp values hv e.i4 (hr _ (by simp [Pyr.indices]))
  have hp : processPyr lv inp e isoValue
      = process lv (Cell.corners ⟨v0, v1, v2, v3, v4, v4, v4, v4⟩) isoValue := by
    simp [processPyr, h0, h1, h2, h3, h4, Cell.corners]
  rw [hp]
  refine ⟨process_emits lv _ isoValue, fun hs => process_one_sided lv _ isoValue ?_⟩
  apply oneSided_corners values isoValue e.indices _ hs
  simp only [Cell.corners, Pyr.indices, List.mem_cons, List.mem_singleton, forall_eq_or_imp,
    forall_eq, List.not_mem_nil, false_implies, implies_true, and_true, exists_eq_or_imp,
    exists_eq_left, false_and, exists_false, or_false]
  simp [s0, s1, s2, s3, s4]

theorem processWedge_spec (lv : List FatVertex) (inp : UMesh) (values : List ℚ)
    (hv : inp.perVertex = some values) (isoValue : ℚ) (e : Wedge)
    (hr : ∀ i ∈ e.indices, i < inp.vertices.length ∧ i < values.length) :
    (∃ tris, (∀ t ∈ tris, EmittedByKernel t) ∧
      processWedge lv inp e isoValue = some (lv ++ unpack tris)) ∧
    (OneSided values isoValue e.indices → processWedge lv inp e isoValue = some lv) := by
  obtain ⟨v0, h0, s0⟩ := fetch_of_lt inp values hv e.i0 (hr _ (by simp [Wedge.indices]))
  obtain ⟨v1, h1, s1⟩ := fetch_of_lt inp values hv e.i1 (hr _ (by simp [Wedge.indices]))
  obtain ⟨v2, h2, s2⟩ := fetch_of_lt inp values hv e.i2 (hr _ (by simp [Wedge.indices]))
  obtain ⟨v3, h3, s3⟩ := fetch_of_lt inp values hv e.i3 (hr _ (by simp [Wedge.indices]))
  obtain ⟨v4, h4, s4⟩ := fetch_of_lt inp values hv e.i4 (hr _ (by simp [Wedge.indices]))
  obtain ⟨v5, h5, s5⟩ := fetch_of_lt inp values hv e.i5 (hr _ (by simp [Wedge.indices]))
  have hp : processWedge lv inp e isoValue
      = process lv (Cell.corners ⟨v0, v1, v4, v3, v2, v2, v5, v5⟩) isoValue := by
    simp [processWedge, h0, h1, h2, h3, h4, h5, Cell.corners]
  rw [hp]
  refine ⟨process_emits lv _ isoValue, fun hs => process_one_sided lv _ isoValue ?_⟩
  apply oneSided_corners values isoValue e.indices _ hs
  simp only [Cell.corners, Wedge.indices, List.mem_cons, List.mem_singleton, forall_eq_or_imp,
    forall_eq, List.not_mem_nil, false_implies, implies_true, and_true, exists_eq_or_imp,
    exists_eq_left, false_and, exists_false, or_false]
  simp [s0, s1, s2, s3, s4, s5]

theorem processHex_spec (lv : List FatVertex) (inp : UMesh) (values : List ℚ)
    (hv : inp.perVertex = some values) (isoValue : ℚ) (e : Hex)
    (hr : ∀ i ∈ e.indices, i < inp.vertices.length ∧ i < values.length) :
    (∃ tris, (∀ t ∈ tris, EmittedByKernel t) ∧
      processHex lv inp e isoValue = some (lv ++ unpack tris)) ∧
    (OneSided values isoValue e.indices → processHex lv inp e isoValue = some lv) := by
  obtain ⟨v0, h0, s0⟩ := fetch_of_lt inp values hv e.i0 (hr _ (by simp [Hex.indices]))
  obtain ⟨v1, h1, s1⟩ := fetch_of_lt inp values hv e.i1 (hr _ (by simp [Hex.indices]))
  obtain ⟨v2, h2, s2⟩ := fetch_of_lt inp values hv e.i2 (hr _ (by simp [Hex.indices]))
  obtain ⟨v3, h3, s3⟩ := fetch_of_lt inp values hv e.i3 (hr _ (by simp [Hex.indices]))
  obtain ⟨v4, h4, s4⟩ := fetch_of_lt inp values hv e.i4 (hr _ (by simp [Hex.indices]))
  obtain ⟨v5, h5, s5⟩ := fetch_of_lt inp values hv e.i5 (hr _ (by simp [Hex.indices]))
  obtain ⟨v6, h6, s6⟩ := fetch_of_lt inp values hv e.i6 (hr _ (by simp [Hex.indices]))
  obtain ⟨v7, h7, s7⟩ := fetch_of_lt inp values hv e.i7 (hr _ (by simp [Hex.indices]))
  have hp : processHex lv inp e isoValue
      = process lv (Cell.corners ⟨v0, v1, v2, v3, v4, v5, v6, v7⟩) isoValue := by
    simp [processHex, h0, h1, h2, h3, h4, h5, h6, h7, Cell.corners]
  rw [hp]
  refine ⟨process_emits lv _ isoValue, fun hs => process_one_sided lv _ isoValue ?_⟩
  apply oneSided_corners values isoValue e.indices _ hs
  simp only [Cell.corners, Hex.indices, List.mem_cons, List.mem_singleton, forall_eq_or_imp,
    forall_eq, List.not_mem_nil, false_implies, implies_true, and_true, exists_eq_or_imp,
    exists_eq_left, false_and, exists_false, or_false]
  simp [s0, s1, s2, s3, s4, s5, s6, s7]

/-! ## Claims on the whole extraction -/

theorem kernelCalls_spec : ∀ (calls : List (Cell × ℚ)) (buf : List FatVertex),
    ∃ tris, (∀ t ∈ tris, EmittedByKernel t) ∧ kernelCalls calls buf = some (buf ++ unpack tris)
  | [], buf => ⟨[], by simp, by simp [kernelCalls, unpack]⟩
  | c :: cs, buf => by
    obtain ⟨t1, p1, h1⟩ := process_emits buf c.1 c.2
    obtain ⟨t2, p2, h2⟩ := kernelCalls_spec cs (buf ++ unpack t1)
    refine ⟨t1 ++ t2, ?_, ?_⟩
    · intro t ht
      rcases List.mem_append.mp ht with h | h
      · exact p1 t h
      · exact p2 t h
    · simp [kernelCalls, h1, h2, unpack_append]

theorem blockAppends_spec : ∀ (blocks : List (List (Cell × ℚ))) (shared : List FatVertex),
    ∃ tris, (∀ t ∈ tris, EmittedByKernel t) ∧
      blockAppends blocks shared = some (shared ++ unpack tris)
  | [], shared => ⟨[], by simp, by simp [blockAppends, unpack]⟩
  | blk :: blks, shared => by
    obtain ⟨t1, p1, h1⟩ := kernelCalls_spec blk []
    obtain ⟨t2, p2, h2⟩ := blockAppends_spec blks (shared ++ unpack t1)
    refine ⟨t1 ++ t2, ?_, ?_⟩
    · intro t ht
      rcases List.mem_append.mp ht with h | h
      · exact p1 t h
      · exact p2 t h
    · simp only [List.nil_append] at h1
      simp [blockAppends, h1, h2, unpack_append]

theorem mem_elementIndices_tet (inp : UMesh) (e : Tet) (he : e ∈ inp.tets) :
    e.indices ∈ elementIndices inp := by
  simp only [elementIndices, List.mem_append, List.mem_map]
  exact Or.inl (Or.inl (Or.inl ⟨e, he, rfl⟩))

theorem mem_elementIndices_pyr (inp : UMesh) (e : Pyr) (he : e ∈ inp.pyrs) :
    e.indices ∈ elementIndices inp := by
  simp only [elementIndices, List.mem_append, List.mem_map]
  exact Or.inl (Or.inl (Or.inr ⟨e, he, rfl⟩))

theorem mem_elementIndices_wedge (inp : UMesh) (e : Wedge) (he : e ∈ inp.wedges) :
    e.indices ∈ elementIndices inp := by
  simp only [elementIndices, List.mem_append, List.mem_map]
  exact Or.inl (Or.inr ⟨e, he, rfl⟩)

theorem mem_elementIndices_hex (inp : UMesh) (e : Hex) (he : e ∈ inp.hexes) :
    e.indices ∈ elementIndices inp := by
  simp only [elementIndices, List.mem_append, List.mem_map]
  exact Or.inr ⟨e, he, rfl⟩

theorem inRange_tets (inp : UMesh) (values : List ℚ) (hr : InRange inp values) :
    ∀ e ∈ inp.tets, ∀ i ∈ e.indices, i < inp.vertices.length ∧ i < values.length :=
  fun e he => hr e.indices (mem_elementIndices_tet inp e he)

theorem inRange_pyrs (inp : UMesh) (values : List ℚ) (hr : InRange inp values) :
    ∀ e ∈ inp.pyrs, ∀ i ∈ e.indices, i < inp.vertices.length ∧ i < values.length :=
  fun e he => hr e.indices (mem_elementIndices_pyr inp e he)

theorem inRange_wedges (inp : UMesh) (values : List ℚ) (hr : InRange inp values) :
    ∀ e ∈ inp.wedges, ∀ i ∈ e.indices, i < inp.vertices.length ∧ i < values.length :=
  fun e he => hr e.indices (mem_elementIndices_wedge inp e he)

theorem inRange_hexes (inp : UMesh) (values : List ℚ) (hr : InRange inp values) :
    ∀ e ∈ inp.hexes, ∀ i ∈ e.indices, i < inp.vertices.length ∧ i < values.length :=
  fun e he => hr e.indices (mem_elementIndices_hex inp e he)

/-- With a scalar field and in-range indices the dispatch succeeds and leaves
whole triangles, each emitted by one kernel call. -/
theorem collect_inRange (inp : UMesh) (values : List ℚ) (hv : inp.perVertex = some values)
    (hr : InRange inp values) (isoValue : ℚ) :
    ∃ tris, (∀ t ∈ tris, EmittedByKernel t) ∧
      collectFatVertices inp isoValue = some (unpack tris) := by
  apply collectFatVertices_spec (fun tris => ∀ t ∈ tris, EmittedByKernel t) (by simp)
  · intro a b ha hb t ht
    rcases List.mem_append.mp ht with h | h
    · exact ha t h
    · exact hb t h
  · exact fun lv e he => (processTet_spec lv inp values hv isoValue e
      (inRange_tets inp values hr e he)).1
  · exact fun lv e he => (processPyr_spec lv inp values hv isoValue e
      (inRange_pyrs inp values hr e he)).1
  · exact fun lv e he => (processWedge_spec lv inp values hv isoValue e
      (inRange_wedges inp values hr e he)).1
  · exact fun lv e he => (processHex_spec lv inp values hv isoValue e
      (inRange_hexes inp values hr e he)).1

/-- With only one-sided elements the dispatch leaves the buffer empty. -/
theorem collect_oneSided (inp : UMesh) (values : List ℚ) (hv : inp.perVertex = some values)
    (hr : InRange inp values) (isoValue : ℚ)
    (hs : ∀ ix ∈ elementIndices inp, OneSided values isoValue ix) :
    collectFatVertices inp isoValue = some [] := by
  obtain ⟨tris, ht, h⟩ := collectFatVertices_spec (fun tris => tris = []) rfl
    (by intro a b ha hb; rw [ha, hb]; rfl) inp isoValue
    (fun lv e he => ⟨[], rfl, by
      rw [(processTet_spec lv inp values hv isoValue e (inRange_tets inp values hr e he)).2
        (hs _ (mem_elementIndices_tet inp e he))]
      simp [unpack]⟩)
    (fun lv e he => ⟨[], rfl, by
      rw [(processPyr_spec lv inp values hv isoValue e (inRange_pyrs inp values hr e he)).2
        (hs _ (mem_elementIndices_pyr inp e he))]
      simp [unpack]⟩)
    (fun lv e he => ⟨[], rfl, by
      rw [(processWedge_spec lv inp values hv isoValue e (inRange_wedges inp values hr e he)).2
        (hs _ (mem_elementIndices_wedge inp e he))]
      simp [unpack]⟩)
    (fun lv e he => ⟨[], rfl, by
      rw [(processHex_spec lv inp values hv isoValue e (inRange_hexes inp values hr e he)).2
        (hs _ (mem_elementIndices_hex inp e he))]
      simp [unpack]⟩)
  rw [h, ht, unpack]

theorem extract_of_collect (bits : ℚ → ℕ) (inp : UMesh) (values : List ℚ)
    (hv : inp.perVertex = some values) (isoValue : ℚ) (raw : List FatVertex) (out : UMesh)
    (hc : collectFatVertices inp isoValue = some raw)
    (hb : buildIndexedMesh bits raw = .ok out) :
    extractIsoSurface bits (some inp) isoValue = .ok out := by
  simp [extractIsoSurface, hv, hc, hb]

/-- C3. No crossing: on a mesh with a scalar field and in-range element
indices in which every tetrahedron, pyramid, wedge and hexahedron has all its
corner scalars strictly greater than the iso-value or all of them less than or
equal to it, `extractIsoSurface` returns a mesh with no triangle and no
vertex. -/
theorem C3_no_crossing (bits : ℚ → ℕ) (inp : UMesh) (values : List ℚ) (isoValue : ℚ)
    (hv : inp.perVertex = some values) (hr : InRange inp values)
    (hs : ∀ ix ∈ elementIndices inp, OneSided values isoValue ix) :
    ∃ out, extractIsoSurface bits (some inp) isoValue = .ok out ∧
      out.triangles = [] ∧ out.vertices = [] :=
  ⟨UMesh.empty, extract_of_collect bits inp values hv isoValue [] UMesh.empty
    (collect_oneSided inp values hv hr isoValue hs) rfl, rfl, rfl⟩

/-- Witness of C3: one hexahedron with all eight scalars 5 and iso-value 1;
its configuration code is `0xFF`. -/
theorem C3_no_crossing_witness :
    caseIndex (List.replicate 8 (⟨0, 0, 0, 5⟩ : vec4f)) 1 = some 0xFF ∧
    ∃ out, extractIsoSurface ratBits (some hexMesh5) 1 = .ok out ∧
      out.triangles = [] ∧ out.vertices = [] :=
  ⟨by decide, C3_no_crossing ratBits hexMesh5 [5, 5, 5, 5, 5, 5, 5, 5] 1 rfl
    (by unfold InRange; decide)
    (by
      intro ix hix
      left
      intro i _ s hsome
      have h5 : ∀ (j : Nat) (x : ℚ), ([5, 5, 5, 5, 5, 5, 5, 5] : List ℚ)[j]? = some x → x = 5 := by
        intro j x hx
        have hmem := List.getElem?_mem hx
        simp only [List.mem_cons, List.mem_singleton, List.not_mem_nil, or_false, or_self] at hmem
        exact hmem
      rw [h5 i s hsome]
      norm_num)⟩

/-- The two precondition throws of `extractIsoSurface`, and its success on a
mesh with a scalar field and in-range element indices from which fewer than
`2^31` raw corners are collected. -/
theorem extract_preconditions (bits : ℚ → ℕ) (isoValue : ℚ) :
    extractIsoSurface bits none isoValue = .error (.runtime_error "null input mesh") ∧
    (∀ inp : UMesh, inp.perVertex = none →
      extractIsoSurface bits (some inp) isoValue
        = .error (.runtime_error "input mesh w/o scalar field")) ∧
    (∀ (inp : UMesh) (values : List ℚ), inp.perVertex = some values → InRange inp values →
      ∃ raw, collectFatVertices inp isoValue = some raw ∧
        (raw.length < 2 ^ 31 → ∃ out, extractIsoSurface bits (some inp) isoValue = .ok out)) := by
  refine ⟨rfl, ?_, ?_⟩
  · intro inp h
    simp [extractIsoSurface, h]
  · intro inp values hv hr
    obtain ⟨tris, _, hc⟩ := collect_inRange inp values hv hr isoValue
    refine ⟨_, hc, fun hlt => ?_⟩
    obtain ⟨vs, fl, hb, _⟩ := buildIndexedMesh_spec bits (unpack tris)
      (by rw [unpack_length]; omega) hlt
    exact ⟨_, extract_of_collect bits inp values hv isoValue _ _ hc hb⟩

/-! ## Orientation of an edge -/

/-- Swapping the two corners of an edge with different scalars turns `t` into
`1 - t` and leaves the interpolated position unchanged. -/
theorem interpolate_swap (v0 v1 : vec4f) (isoValue : ℚ) (h : v0.w ≠ v1.w) :
    tParam v1 v0 isoValue = 1 - tParam v0 v1 isoValue ∧
      interpolate v1 v0 isoValue = interpolate v0 v1 isoValue := by
  have hne : v1.w - v0.w ≠ 0 := sub_ne_zero.mpr (Ne.symm h)
  have hne2 : v0.w - v1.w ≠ 0 := sub_ne_zero.mpr h
  have ht : tParam v1 v0 isoValue = 1 - tParam v0 v1 isoValue := by
    unfold tParam
    rw [if_neg h, if_neg (Ne.symm h)]
    field_simp
    ring
  refine ⟨ht, ?_⟩
  simp only [interpolate, ht, vec3f.mk.injEq]
  refine ⟨?_, ?_, ?_⟩ <;> ring

/-- C14. Edge-orientation symmetry in exact arithmetic: for two corners with
different scalars, interpolating with the corner roles swapped gives the
parameter `1 - t` and the same crossing position. -/
theorem C14_edge_orientation_symmetry (v0 v1 : vec4f) (isoValue : ℚ) (h : v0.w ≠ v1.w) :
    tParam v1 v0 isoValue = 1 - tParam v0 v1 isoValue ∧
      interpolate v1 v0 isoValue = interpolate v0 v1 isoValue :=
  interpolate_swap v0 v1 isoValue h

/-- Witness of C14: the edge from `(0,0,0)` with scalar 0 to `(4,8,12)` with
scalar 4 at iso-value 1. -/
theorem C14_edge_orientation_symmetry_witness :
    tParam ⟨4, 8, 12, 4⟩ ⟨0, 0, 0, 0⟩ 1 = 1 - tParam ⟨0, 0, 0, 0⟩ ⟨4, 8, 12, 4⟩ 1 ∧
      interpolate ⟨4, 8, 12, 4⟩ ⟨0, 0, 0, 0⟩ 1 = interpolate ⟨0, 0, 0, 0⟩ ⟨4, 8, 12, 4⟩ 1 :=
  C14_edge_orientation_symmetry ⟨0, 0, 0, 0⟩ ⟨4, 8, 12, 4⟩ 1 (by decide)

/-! ## Shape of the tables -/

set_option maxRecDepth 100000 in
/-- Every row has 16 entries; its first `-1` stands at an offset that is a
multiple of 3 and at most 15; the entries before it are edge numbers. -/
theorem table_rows_shape : ∀ row ∈ vtkMarchingCubesTriangleCases,
    row.length = 16 ∧ (row.takeWhile (fun e => e != -1)).length % 3 = 0 ∧
      (row.takeWhile (fun e => e != -1)).length ≤ 15 ∧
      row[(row.takeWhile (fun e => e != -1)).length]? = some (-1) ∧
      ∀ e ∈ row.takeWhile (fun e => e != -1), 0 ≤ e ∧ e ≤ 11 := by
  decide

theorem edges_shape : vtkMarchingCubes_edges.length = 12 ∧
    ∀ vert ∈ vtkMarchingCubes_edges, vert.length = 2 ∧ ∀ i ∈ vert, 0 ≤ i ∧ i ≤ 7 := by
  decide

set_option maxRecDepth 100000 in
theorem table_empty_rows : ∀ code < 256, ∀ row, vtkMarchingCubesTriangleCases[code]? = some row →
    ((row.head? = some (-1) ↔ code = 0 ∨ code = 255) ∧
      (rowTriangles row = [] ↔ code = 0 ∨ code = 255)) := by
  decide

/-! ## Output fields -/

theorem build_fields (bits : ℚ → ℕ) (fat : List FatVertex) (out : UMesh)
    (h : buildIndexedMesh bits fat = .ok out) :
    out.tets = [] ∧ out.pyrs = [] ∧ out.wedges = [] ∧ out.hexes = [] ∧ out.quads = [] ∧
      out.perVertex = none := by
  unfold buildIndexedMesh at h
  simp only [] at h
  split at h
  · cases h
  · split at h
    · cases h
    · simp only [Except.ok.injEq] at h
      subst h
      exact ⟨rfl, rfl, rfl, rfl, rfl, rfl⟩

theorem extract_fields (bits : ℚ → ℕ) (inp : Option UMesh) (isoValue : ℚ) (out : UMesh)
    (h : extractIsoSurface bits inp isoValue = .ok out) :
    out.tets = [] ∧ out.pyrs = [] ∧ out.wedges = [] ∧ out.hexes = [] ∧ out.quads = [] ∧
      out.perVertex = none := by
  unfold extractIsoSurface at h
  split at h
  · cases h
  · split at h
    · cases h
    · split at h
      · cases h
      · exact build_fields bits _ _ h

theorem extract_congr (bits : ℚ → ℕ) (m1 m2 : UMesh) (isoValue : ℚ)
    (hv : m1.vertices = m2.vertices) (hs : m1.perVertex = m2.perVertex)
    (ht : m1.tets = m2.tets) (hp : m1.pyrs = m2.pyrs) (hw : m1.wedges = m2.wedges)
    (hh : m1.hexes = m2.hexes) :
    extractIsoSurface bits (some m1) isoValue = extractIsoSurface bits (some m2) isoValue := by
  cases m1
  cases m2
  simp only at hv hs ht hp hw hh
  subst hv hs ht hp hw hh
  rfl

/-! ## Claims on tables, output fields and ignored input -/

/-- C15. The kernel never fails: for every 8 corners and iso-value the code
is below 256 and the table walk ends with a buffer, no lookup leaving its
array; the table has 256 rows of 16 entries, in each row the first `-1` stands
at an offset that is a multiple of 3 and at most 15, every entry before it is
an edge number in `0..11`, and the 12 entries of the edge table are pairs of
corner numbers in `0..7`. -/
theorem C15_kernel_never_fails :
    (∀ (out : List FatVertex) (c0 c1 c2 c3 c4 c5 c6 c7 : vec4f) (isoValue : ℚ),
      ∃ code result, caseIndex [c0, c1, c2, c3, c4, c5, c6, c7] isoValue = some code ∧
        code < 256 ∧ process out [c0, c1, c2, c3, c4, c5, c6, c7] isoValue = some result) ∧
    vtkMarchingCubesTriangleCases.length = 256 ∧
    (∀ row ∈ vtkMarchingCubesTriangleCases,
      row.length = 16 ∧ (row.takeWhile (fun e => e != -1)).length % 3 = 0 ∧
        (row.takeWhile (fun e => e != -1)).length ≤ 15 ∧
        row[(row.takeWhile (fun e => e != -1)).length]? = some (-1) ∧
        ∀ e ∈ row.takeWhile (fun e => e != -1), 0 ≤ e ∧ e ≤ 11) ∧
    vtkMarchingCubes_edges.length = 12 ∧
    (∀ vert ∈ vtkMarchingCubes_edges, vert.length = 2 ∧ ∀ i ∈ vert, 0 ≤ i ∧ i ≤ 7) := by
  refine ⟨?_, table_length, table_rows_shape, edges_shape.1, edges_shape.2⟩
  intro out c0 c1 c2 c3 c4 c5 c6 c7 isoValue
  obtain ⟨code, row, cands, h1, _, _, h4⟩ := process_cell out c0 c1 c2 c3 c4 c5 c6 c7 isoValue
  refine ⟨code, _, h1, ?_, h4⟩
  rw [caseIndex_eq] at h1
  simp only [Option.some.injEq] at h1
  rw [← h1]
  exact codeOfBits_lt _ _ _ _ _ _ _ _

/-- C18. Empty table rows: for a configuration code below 256 the row of the
table starts with the terminator `-1` exactly when the code is 0 or 255; the
row of every other code holds at least one edge triple. -/
theorem C18_empty_rows (code : Nat) (h : code < 256) :
    ∃ row, vtkMarchingCubesTriangleCases[code]? = some row ∧
      (row.head? = some (-1) ↔ code = 0 ∨ code = 255) ∧
      (rowTriangles row = [] ↔ code = 0 ∨ code = 255) ∧
      (code ≠ 0 → code ≠ 255 → rowTriangles row ≠ []) := by
  have hl : code < vtkMarchingCubesTriangleCases.length := by rw [table_length]; exact h
  have hrow := List.getElem?_eq_getElem hl
  obtain ⟨h1, h2⟩ := table_empty_rows code h _ hrow
  refine ⟨_, hrow, h1, h2, ?_⟩
  intro a b hc
  rcases h2.mp hc with h0 | h0
  · exact a h0
  · exact b h0

/-- Witness of C18 at code 1, whose row is not empty. -/
theorem C18_empty_rows_witness :
    ∃ row, vtkMarchingCubesTriangleCases[1]? = some row ∧
      (row.head? = some (-1) ↔ 1 = 0 ∨ 1 = 255) ∧
      (rowTriangles row = [] ↔ 1 = 0 ∨ 1 = 255) ∧
      (1 ≠ 0 → 1 ≠ 255 → rowTriangles row ≠ []) :=
  C18_empty_rows 1 (by decide)

/-- C19. Output contract: a mesh returned by `extractIsoSurface` has empty
tetrahedron, pyramid, wedge, hexahedron and quad arrays and no per-vertex
scalar field; only its vertex and triangle arrays are filled. -/
theorem C19_output_contract (bits : ℚ → ℕ) (inp : Option UMesh) (isoValue : ℚ) (out : UMesh)
    (h : extractIsoSurface bits inp isoValue = .ok out) :
    out.tets = [] ∧ out.pyrs = [] ∧ out.wedges = [] ∧ out.hexes = [] ∧ out.quads = [] ∧
      out.perVertex = none ∧
      out = { UMesh.empty with vertices := out.vertices, triangles := out.triangles } := by
  obtain ⟨h1, h2, h3, h4, h5, h6⟩ := extract_fields bits inp isoValue out h
  refine ⟨h1, h2, h3, h4, h5, h6, ?_⟩
  cases out
  simp only at h1 h2 h3 h4 h5 h6
  subst h1 h2 h3 h4 h5 h6
  rfl

set_option maxRecDepth 100000 in
/-- Witness of C19: the surface extracted from the mesh of one wedge. -/
theorem C19_output_contract_witness :
    wedgeSurface.tets = [] ∧ wedgeSurface.pyrs = [] ∧ wedgeSurface.wedges = [] ∧
      wedgeSurface.hexes = [] ∧ wedgeSurface.quads = [] ∧ wedgeSurface.perVertex = none ∧
      wedgeSurface
        = { UMesh.empty with vertices := wedgeSurface.vertices,
                             triangles := wedgeSurface.triangles } :=
  C19_output_contract ratBits (some wedgeMesh) 1 wedgeSurface (by with_unfolding_all rfl)

/-- C20. Surface elements are ignored: two meshes with the same vertices,
scalar field, tetrahedra, pyramids, wedges and hexahedra (their triangle and
quad arrays may differ) give the same result for every iso-value. -/
theorem C20_surface_elements_ignored (bits : ℚ → ℕ) (m1 m2 : UMesh) (isoValue : ℚ)
    (hv : m1.vertices = m2.vertices) (hs : m1.perVertex = m2.perVertex)
    (ht : m1.tets = m2.tets) (hp : m1.pyrs = m2.pyrs) (hw : m1.wedges = m2.wedges)
    (hh : m1.hexes = m2.hexes) :
    extractIsoSurface bits (some m1) isoValue = extractIsoSurface bits (some m2) isoValue :=
  extract_congr bits m1 m2 isoValue hv hs ht hp hw hh

/-- Witness of C20: the wedge mesh with and without a triangle and a quad. -/
theorem C20_surface_elements_ignored_witness :
    extractIsoSurface ratBits (some wedgeMesh) 1
      = extractIsoSurface ratBits (some wedgeMeshWithSurface) 1 :=
  C20_surface_elements_ignored ratBits wedgeMesh wedgeMeshWithSurface 1 rfl rfl rfl rfl rfl rfl

/-! ## The comparator as an order -/

theorem memcmp_trans_lt (a b c : List Nat) (h1 : a.length = b.length)
    (h2 : b.length = c.length) (hab : memcmp a b < 0) (hbc : memcmp b c < 0) :
    memcmp a c < 0 := by
  have hle := memcmp_trans a b c h1 h2 (le_of_lt hab) (le_of_lt hbc)
  rcases lt_or_eq_of_le hle with h | h
  · exact h
  · have hac := memcmp_eq_zero a c (h1.trans h2) h
    subst hac
    rw [memcmp_swap] at hbc
    omega

/-- The comparator as an order: it is irreflexive, transitive and
asymmetric, and any two corners with different slots are comparable, so it is
a strict total order on corners with pairwise distinct slots; the position
bytes are compared first, so corners with different positions are ordered by
their positions alone, and two corners with equal positions are ordered by
their slots alone. -/
theorem sort_order (bits : ℚ → ℕ) :
    (∀ a, FatVertexCompare bits a a = false) ∧
    (∀ a b c, FatVertexCompare bits a b = true → FatVertexCompare bits b c = true →
      FatVertexCompare bits a c = true) ∧
    (∀ a b, FatVertexCompare bits a b = true → FatVertexCompare bits b a = false) ∧
    (∀ a b : FatVertex, a.idx ≠ b.idx →
      FatVertexCompare bits a b = true ∨ FatVertexCompare bits b a = true) ∧
    (∀ a b : FatVertex, posBytes bits a.pos ≠ posBytes bits b.pos →
      FatVertexCompare bits a b
        = decide (memcmp (posBytes bits a.pos) (posBytes bits b.pos) < 0)) ∧
    (Function.Injective bits → ∀ a b : FatVertex, a.pos ≠ b.pos →
      FatVertexCompare bits a b
        = decide (memcmp (posBytes bits a.pos) (posBytes bits b.pos) < 0)) ∧
    (∀ a b : FatVertex, a.pos = b.pos →
      FatVertexCompare bits a b = decide (memcmp (bytes32 a.idx) (bytes32 b.idx) < 0)) := by
  have hpos : ∀ a b : FatVertex, posBytes bits a.pos ≠ posBytes bits b.pos →
      FatVertexCompare bits a b
        = decide (memcmp (posBytes bits a.pos) (posBytes bits b.pos) < 0) := by
    intro a b h
    have h0 : memcmp (posBytes bits a.pos) (posBytes bits b.pos) ≠ 0 :=
      fun e => h (memcmp_eq_zero _ _ (by rw [posBytes_length, posBytes_length]) e)
    simp only [FatVertexCompare, bytes_eq]
    apply decide_eq_decide.mpr
    rw [memcmp_append _ _ _ _ (by rw [posBytes_length, posBytes_length]), if_neg h0]
  refine ⟨?_, ?_, ?_, ?_, hpos, ?_, ?_⟩
  · intro a
    simp [FatVertexCompare, memcmp_self]
  · intro a b c hab hbc
    simp only [FatVertexCompare, decide_eq_true_eq] at hab hbc ⊢
    exact memcmp_trans_lt _ _ _ (by rw [bytes_length, bytes_length])
      (by rw [bytes_length, bytes_length]) hab hbc
  · intro a b hab
    simp only [FatVertexCompare, decide_eq_true_eq, decide_eq_false_iff_not] at hab ⊢
    rw [memcmp_swap]
    omega
  · intro a b hne
    simp only [FatVertexCompare, decide_eq_true_eq]
    have h0 : memcmp (a.bytes bits) (b.bytes bits) ≠ 0 := by
      intro e
      have hb := memcmp_eq_zero _ _ (by rw [bytes_length, bytes_length]) e
      rw [bytes_eq, bytes_eq] at hb
      have hi := List.append_inj_right hb (by rw [posBytes_length, posBytes_length])
      exact hne (bytes32_injective _ _ hi)
    rw [memcmp_swap (a.bytes bits) (b.bytes bits)]
    omega
  · intro hbits a b hne
    exact hpos a b (fun e => hne (posBytes_injective bits hbits _ _ e))
  · intro a b h
    simp only [FatVertexCompare, bytes_eq, h]
    apply decide_eq_decide.mpr
    rw [memcmp_append _ _ _ _ rfl, if_pos (memcmp_self _)]


/-! ## Cells with one hot corner group -/

theorem interpolate_eq_lerpAt (v0 v1 : vec4f) (isoValue : ℚ) :
    interpolate v0 v1 isoValue = lerpAt (tParam v0 v1 isoValue) v0.pos v1.pos := rfl

theorem lerpAt_left_injective (t : ℚ) (ht : t ≠ 1) (p p2 q : vec3f)
    (h : lerpAt t p q = lerpAt t p2 q) : p = p2 := by
  have h1 : 1 - t ≠ 0 := sub_ne_zero.mpr (Ne.symm ht)
  simp only [lerpAt, vec3f.mk.injEq, add_left_inj] at h
  obtain ⟨hx, hy, hz⟩ := h
  cases p
  cases p2
  simp only [vec3f.mk.injEq]
  exact ⟨mul_left_cancel₀ h1 hx, mul_left_cancel₀ h1 hy, mul_left_cancel₀ h1 hz⟩

theorem lerpAt_right_injective (t : ℚ) (ht : t ≠ 0) (p q q2 : vec3f)
    (h : lerpAt t p q = lerpAt t p q2) : q = q2 := by
  simp only [lerpAt, vec3f.mk.injEq, add_right_inj] at h
  obtain ⟨hx, hy, hz⟩ := h
  cases q
  cases q2
  simp only [vec3f.mk.injEq]
  exact ⟨mul_left_cancel₀ ht hx, mul_left_cancel₀ ht hy, mul_left_cancel₀ ht hz⟩

/-- The kernel on a cell whose code, row triples and candidates are known. -/
theorem process_eval (out : List FatVertex) (c0 c1 c2 c3 c4 c5 c6 c7 : vec4f) (isoValue : ℚ)
    (code : Nat) (tris : List (Int × Int × Int)) (cands : List (vec3f × vec3f × vec3f))
    (hcode : caseIndex [c0, c1, c2, c3, c4, c5, c6, c7] isoValue = some code)
    (hrow : (vtkMarchingCubesTriangleCases[code]?).map rowTriangles = some tris)
    (hc : candidateTriangles [c0, c1, c2, c3, c4, c5, c6, c7] isoValue tris = some cands) :
    process out [c0, c1, c2, c3, c4, c5, c6, c7] isoValue
      = some (out ++ unpack (cands.filter nonDegenerate)) := by
  obtain ⟨code2, row, cands2, h1, h2, h3, h4⟩ :=
    process_cell out c0 c1 c2 c3 c4 c5 c6 c7 isoValue
  rw [hcode] at h1
  simp only [Option.some.injEq] at h1
  subst h1
  rw [h2] at hrow
  simp only [Option.map_some', Option.some.injEq] at hrow
  subst hrow
  rw [hc] at h3
  simp only [Option.some.injEq] at h3
  subst h3
  exact h4

set_option maxRecDepth 100000 in
theorem rowTriangles_1 :
    (vtkMarchingCubesTriangleCases[1]?).map rowTriangles = some [(0, 3, 8)] := by decide

set_option maxRecDepth 100000 in
theorem rowTriangles_2 :
    (vtkMarchingCubesTriangleCases[2]?).map rowTriangles = some [(0, 9, 1)] := by decide

set_option maxRecDepth 100000 in
theorem rowTriangles_12 :
    (vtkMarchingCubesTriangleCases[12]?).map rowTriangles = some [(3, 1, 11), (10, 3, 11)] := by
  decide

set_option maxRecDepth 100000 in
theorem rowTriangles_15 :
    (vtkMarchingCubesTriangleCases[15]?).map rowTriangles = some [(9, 11, 8), (11, 10, 8)] := by
  decide

set_option maxRecDepth 100000 in
theorem rowTriangles_240 :
    (vtkMarchingCubesTriangleCases[240]?).map rowTriangles = some [(9, 8, 11), (11, 8, 10)] := by
  decide

theorem caseIndex_of_bits (c0 c1 c2 c3 c4 c5 c6 c7 : vec4f) (isoValue : ℚ)
    (b0 b1 b2 b3 b4 b5 b6 b7 : Bool)
    (h0 : decide (c0.w > isoValue) = b0) (h1 : decide (c1.w > isoValue) = b1)
    (h2 : decide (c2.w > isoValue) = b2) (h3 : decide (c3.w > isoValue) = b3)
    (h4 : decide (c4.w > isoValue) = b4) (h5 : decide (c5.w > isoValue) = b5)
    (h6 : decide (c6.w > isoValue) = b6) (h7 : decide (c7.w > isoValue) = b7) :
    caseIndex [c0, c1, c2, c3, c4, c5, c6, c7] isoValue
      = some (codeOfBits b0 b1 b2 b3 b4 b5 b6 b7) := by
  rw [caseIndex_eq, h0, h1, h2, h3, h4, h5, h6, h7]

theorem filter_degenerate_second (t : vec3f × vec3f × vec3f) (x y : vec3f) :
    [t, (x, y, x)].filter nonDegenerate = [t].filter nonDegenerate := by
  have h : nonDegenerate (x, y, x) = false := by simp [nonDegenerate]
  simp [List.filter, h]

/-- A lifted tetrahedron whose first corner alone is above the iso-value. -/
theorem tet_hot_a (out : List FatVertex) (a b c d : vec4f) (isoValue : ℚ)
    (ha : a.w > isoValue) (hb : b.w ≤ isoValue) (hc : c.w ≤ isoValue) (hd : d.w ≤ isoValue) :
    process out [a, b, c, c, d, d, d, d] isoValue
      = some (out ++ unpack ([(interpolate a b isoValue, interpolate a c isoValue,
          interpolate a d isoValue)].filter nonDegenerate)) :=
  process_eval out a b c c d d d d isoValue 1 _ _
    (caseIndex_of_bits a b c c d d d d isoValue true false false false false false false false
      (decide_eq_true ha) (decide_eq_false (not_lt.mpr hb)) (decide_eq_false (not_lt.mpr hc))
      (decide_eq_false (not_lt.mpr hc)) (decide_eq_false (not_lt.mpr hd))
      (decide_eq_false (not_lt.mpr hd)) (decide_eq_false (not_lt.mpr hd))
      (decide_eq_false (not_lt.mpr hd)))
    rowTriangles_1 rfl

/-- A lifted tetrahedron whose second corner alone is above the iso-value. -/
theorem tet_hot_b (out : List FatVertex) (a b c d : vec4f) (isoValue : ℚ)
    (ha : a.w ≤ isoValue) (hb : b.w > isoValue) (hc : c.w ≤ isoValue) (hd : d.w ≤ isoValue) :
    process out [a, b, c, c, d, d, d, d] isoValue
      = some (out ++ unpack ([(interpolate a b isoValue, interpolate b d isoValue,
          interpolate b c isoValue)].filter nonDegenerate)) :=
  process_eval out a b c c d d d d isoValue 2 _ _
    (caseIndex_of_bits a b c c d d d d isoValue false true false false false false false false
      (decide_eq_false (not_lt.mpr ha)) (decide_eq_true hb) (decide_eq_false (not_lt.mpr hc))
      (decide_eq_false (not_lt.mpr hc)) (decide_eq_false (not_lt.mpr hd))
      (decide_eq_false (not_lt.mpr hd)) (decide_eq_false (not_lt.mpr hd))
      (decide_eq_false (not_lt.mpr hd)))
    rowTriangles_2 rfl

/-- A lifted tetrahedron whose third corner alone is above the iso-value: the
second table triangle uses both copies of the edge to the fourth corner and
is dropped. -/
theorem tet_hot_c (out : List FatVertex) (a b c d : vec4f) (isoValue : ℚ)
    (ha : a.w ≤ isoValue) (hb : b.w ≤ isoValue) (hc : c.w > isoValue) (hd : d.w ≤ isoValue) :
    process out [a, b, c, c, d, d, d, d] isoValue
      = some (out ++ unpack ([(interpolate a c isoValue, interpolate b c isoValue,
          interpolate c d isoValue)].filter nonDegenerate)) := by
  rw [process_eval out a b c c d d d d isoValue 12 _
    [(interpolate a c isoValue, interpolate b c isoValue, interpolate c d isoValue),
      (interpolate c d isoValue, interpolate a c isoValue, interpolate c d isoValue)]
    (caseIndex_of_bits a b c c d d d d isoValue false false true true false false false false
      (decide_eq_false (not_lt.mpr ha)) (decide_eq_false (not_lt.mpr hb)) (decide_eq_true hc)
      (decide_eq_true hc) (decide_eq_false (not_lt.mpr hd))
      (decide_eq_false (not_lt.mpr hd)) (decide_eq_false (not_lt.mpr hd))
      (decide_eq_false (not_lt.mpr hd)))
    rowTriangles_12 rfl]
  rw [filter_degenerate_second]

/-- A lifted tetrahedron whose fourth corner alone is above the iso-value. -/
theorem tet_hot_d (out : List FatVertex) (a b c d : vec4f) (isoValue : ℚ)
    (ha : a.w ≤ isoValue) (hb : b.w ≤ isoValue) (hc : c.w ≤ isoValue) (hd : d.w > isoValue) :
    process out [a, b, c, c, d, d, d, d] isoValue
      = some (out ++ unpack ([(interpolate b d isoValue, interpolate a d isoValue,
          interpolate c d isoValue)].filter nonDegenerate)) := by
  rw [process_eval out a b c c d d d d isoValue 240 _
    [(interpolate b d isoValue, interpolate a d isoValue, interpolate c d isoValue),
      (interpolate c d isoValue, interpolate a d isoValue, interpolate c d isoValue)]
    (caseIndex_of_bits a b c c d d d d isoValue false false false false true true true true
      (decide_eq_false (not_lt.mpr ha)) (decide_eq_false (not_lt.mpr hb))
      (decide_eq_false (not_lt.mpr hc)) (decide_eq_false (not_lt.mpr hc)) (decide_eq_true hd)
      (decide_eq_true hd) (decide_eq_true hd) (decide_eq_true hd))
    rowTriangles_240 rfl]
  rw [filter_degenerate_second]

/-- A lifted pyramid whose base is above the iso-value and whose apex is not. -/
theorem pyr_base_hot (out : List FatVertex) (v0 v1 v2 v3 v4 : vec4f) (isoValue : ℚ)
    (h0 : v0.w > isoValue) (h1 : v1.w > isoValue) (h2 : v2.w > isoValue)
    (h3 : v3.w > isoValue) (h4 : v4.w ≤ isoValue) :
    process out [v0, v1, v2, v3, v4, v4, v4, v4] isoValue
      = some (out ++ unpack ([(interpolate v1 v4 isoValue, interpolate v2 v4 isoValue,
            interpolate v0 v4 isoValue),
          (interpolate v2 v4 isoValue, interpolate v3 v4 isoValue,
            interpolate v0 v4 isoValue)].filter nonDegenerate)) :=
  process_eval out v0 v1 v2 v3 v4 v4 v4 v4 isoValue 15 _ _
    (caseIndex_of_bits v0 v1 v2 v3 v4 v4 v4 v4 isoValue true true true true false false false
      false (decide_eq_true h0) (decide_eq_true h1) (decide_eq_true h2) (decide_eq_true h3)
      (decide_eq_false (not_lt.mpr h4)) (decide_eq_false (not_lt.mpr h4))
      (decide_eq_false (not_lt.mpr h4)) (decide_eq_false (not_lt.mpr h4)))
    rowTriangles_15 rfl

/-- A lifted pyramid whose apex is above the iso-value and whose base is not. -/
theorem pyr_apex_hot (out : List FatVertex) (v0 v1 v2 v3 v4 : vec4f) (isoValue : ℚ)
    (h0 : v0.w ≤ isoValue) (h1 : v1.w ≤ isoValue) (h2 : v2.w ≤ isoValue)
    (h3 : v3.w ≤ isoValue) (h4 : v4.w > isoValue) :
    process out [v0, v1, v2, v3, v4, v4, v4, v4] isoValue
      = some (out ++ unpack ([(interpolate v1 v4 isoValue, interpolate v0 v4 isoValue,
            interpolate v2 v4 isoValue),
          (interpolate v2 v4 isoValue, interpolate v0 v4 isoValue,
            interpolate v3 v4 isoValue)].filter nonDegenerate)) :=
  process_eval out v0 v1 v2 v3 v4 v4 v4 v4 isoValue 240 _ _
    (caseIndex_of_bits v0 v1 v2 v3 v4 v4 v4 v4 isoValue false false false false true true true
      true (decide_eq_false (not_lt.mpr h0)) (decide_eq_false (not_lt.mpr h1))
      (decide_eq_false (not_lt.mpr h2)) (decide_eq_false (not_lt.mpr h3)) (decide_eq_true h4)
      (decide_eq_true h4) (decide_eq_true h4) (decide_eq_true h4))
    rowTriangles_240 rfl

theorem perm_to_front {α : Type} (l : List α) (x : α) (r : List α) :
    (x :: (l ++ r)).Perm (l ++ x :: r) :=
  List.perm_middle.symm

theorem perm_last_to_front {α : Type} (l : List α) (x : α) : (l ++ [x]).Perm (x :: l) :=
  List.perm_append_comm

theorem perm3_swap23 {α : Type} (x y z : α) : [x, z, y].Perm [x, y, z] :=
  (List.Perm.swap y z []).cons x

theorem perm3_swap12 {α : Type} (x y z : α) : [y, x, z].Perm [x, y, z] :=
  List.Perm.swap x y [z]

/-- A lifted tetrahedron with exactly one corner above the iso-value, in any
slot: the kernel appends the one triangle of the three crossing points on the
edges from that corner to the others, unless two of them coincide. -/
theorem tet_one_hot (out : List FatVertex) (a b c d h c1 c2 c3 : vec4f) (isoValue : ℚ)
    (hperm : [a, b, c, d].Perm [h, c1, c2, c3]) (hh : h.w > isoValue)
    (h1 : c1.w ≤ isoValue) (h2 : c2.w ≤ isoValue) (h3 : c3.w ≤ isoValue) :
    ∃ t, process out [a, b, c, c, d, d, d, d] isoValue
        = some (out ++ unpack ([t].filter nonDegenerate)) ∧
      [t.1, t.2.1, t.2.2].Perm [interpolate h c1 isoValue, interpolate h c2 isoValue,
        interpolate h c3 isoValue] := by
  have cold : ∀ x ∈ [c1, c2, c3], x.w ≤ isoValue := by
    intro x hx
    simp only [List.mem_cons, List.mem_singleton, List.not_mem_nil, or_false] at hx
    rcases hx with rfl | rfl | rfl
    · exact h1
    · exact h2
    · exact h3
  have sw : ∀ x : vec4f, x.w ≤ isoValue →
      interpolate x h isoValue = interpolate h x isoValue := fun x hx =>
    (interpolate_swap h x isoValue (ne_of_gt (lt_of_le_of_lt hx hh))).2
  have hmem : h ∈ [a, b, c, d] := hperm.mem_iff.mpr (List.mem_cons_self _ _)
  simp only [List.mem_cons, List.mem_singleton, List.not_mem_nil, or_false] at hmem
  rcases hmem with e | e | e | e
  · rw [← e] at hperm ⊢
    have hp : [b, c, d].Perm [c1, c2, c3] := hperm.cons_inv
    have hb := cold b (hp.mem_iff.mp (by simp))
    have hc := cold c (hp.mem_iff.mp (by simp))
    have hd := cold d (hp.mem_iff.mp (by simp))
    exact ⟨_, tet_hot_a out h b c d isoValue hh hb hc hd,
      hp.map (fun x => interpolate h x isoValue)⟩
  · rw [← e] at hperm ⊢
    have hp : [a, c, d].Perm [c1, c2, c3] :=
      ((perm_to_front [a] h [c, d]).trans hperm).cons_inv
    have ha := cold a (hp.mem_iff.mp (by simp))
    have hc := cold c (hp.mem_iff.mp (by simp))
    have hd := cold d (hp.mem_iff.mp (by simp))
    refine ⟨_, tet_hot_b out a h c d isoValue ha hh hc hd, ?_⟩
    simp only [sw a ha]
    exact (perm3_swap23 _ _ _).trans (hp.map (fun x => interpolate h x isoValue))
  · rw [← e] at hperm ⊢
    have hp : [a, b, d].Perm [c1, c2, c3] :=
      ((perm_to_front [a, b] h [d]).trans hperm).cons_inv
    have ha := cold a (hp.mem_iff.mp (by simp))
    have hb := cold b (hp.mem_iff.mp (by simp))
    have hd := cold d (hp.mem_iff.mp (by simp))
    refine ⟨_, tet_hot_c out a b h d isoValue ha hb hh hd, ?_⟩
    simp only [sw a ha, sw b hb]
    exact hp.map (fun x => interpolate h x isoValue)
  · rw [← e] at hperm ⊢
    have hp : [a, b, c].Perm [c1, c2, c3] :=
      ((perm_to_front [a, b, c] h []).trans hperm).cons_inv
    have ha := cold a (hp.mem_iff.mp (by simp))
    have hb := cold b (hp.mem_iff.mp (by simp))
    have hc := cold c (hp.mem_iff.mp (by simp))
    refine ⟨_, tet_hot_d out a b c h isoValue ha hb hc hh, ?_⟩
    simp only [sw a ha, sw b hb, sw c hc]
    exact (perm3_swap12 _ _ _).trans (hp.map (fun x => interpolate h x isoValue))

theorem nonDegenerate_of_nodup (t : vec3f × vec3f × vec3f) (h : [t.1, t.2.1, t.2.2].Nodup) :
    nonDegenerate t = true := by
  simp only [List.nodup_cons, List.mem_cons, List.mem_singleton, List.not_mem_nil, or_false,
    not_or, not_false_eq_true, List.nodup_nil, and_true] at h
  obtain ⟨⟨h12, h13⟩, h23⟩ := h
  simp only [nonDegenerate, decide_eq_true_eq]
  exact ⟨fun e => h12 e.symm, fun e => h13 e.symm, h23⟩

theorem filter_single (t : vec3f × vec3f × vec3f) (h : nonDegenerate t = true) :
    unpack ([t].filter nonDegenerate) = cornersOf t := by
  simp [List.filter, h, unpack]

/-! ## Claims on single elements -/

theorem lerpAt_half_comm (p q : vec3f) : lerpAt (1 / 2) p q = lerpAt (1 / 2) q p := by
  simp only [lerpAt, vec3f.mk.injEq]
  refine ⟨?_, ?_, ?_⟩ <;> ring

/-- C11. Single tetrahedron in exact arithmetic: when one of the four corners
(in any slot) has scalar 2 and the other three have scalar 0 and pairwise
different positions, the lifter and the kernel append, for iso-value 1,
exactly one triangle; its corners are, in some order, the midpoints of the
three edges from the scalar-2 corner to the scalar-0 corners, each computed
with interpolation parameter `1/2`. -/
theorem C11_single_tetrahedron (out : List FatVertex) (inp : UMesh) (tet : Tet)
    (a b c d h c1 c2 c3 : vec4f)
    (fa : fetch inp tet.x = some a) (fb : fetch inp tet.y = some b)
    (fc : fetch inp tet.z = some c) (fd : fetch inp tet.w = some d)
    (hperm : [a, b, c, d].Perm [h, c1, c2, c3])
    (hh : h.w = 2) (h1 : c1.w = 0) (h2 : c2.w = 0) (h3 : c3.w = 0)
    (d12 : c1.pos ≠ c2.pos) (d13 : c1.pos ≠ c3.pos) (d23 : c2.pos ≠ c3.pos) :
    ∃ t, processTet out inp tet 1 = some (out ++ cornersOf t) ∧
      [t.1, t.2.1, t.2.2].Perm
        [lerpAt (1 / 2) h.pos c1.pos, lerpAt (1 / 2) h.pos c2.pos, lerpAt (1 / 2) h.pos c3.pos] ∧
      ∀ x ∈ [c1, c2, c3], tParam h x 1 = 1 / 2 ∧ tParam x h 1 = 1 / 2 ∧
        interpolate h x 1 = lerpAt (1 / 2) h.pos x.pos ∧
        interpolate x h 1 = lerpAt (1 / 2) h.pos x.pos := by
  have key : ∀ x : vec4f, x.w = 0 → tParam h x 1 = 1 / 2 ∧ tParam x h 1 = 1 / 2 ∧
      interpolate h x 1 = lerpAt (1 / 2) h.pos x.pos ∧
      interpolate x h 1 = lerpAt (1 / 2) h.pos x.pos := by
    intro x hx
    have t1 : tParam h x 1 = 1 / 2 := by
      simp only [tParam, hh, hx]
      norm_num
    have t2 : tParam x h 1 = 1 / 2 := by
      simp only [tParam, hh, hx]
      norm_num
    refine ⟨t1, t2, ?_, ?_⟩
    · rw [interpolate_eq_lerpAt, t1]
    · rw [interpolate_eq_lerpAt, t2, lerpAt_half_comm]
  obtain ⟨t, hp, hperm2⟩ := tet_one_hot out a b c d h c1 c2 c3 1 hperm
    (by rw [hh]; norm_num) (by rw [h1]; norm_num) (by rw [h2]; norm_num) (by rw [h3]; norm_num)
  rw [(key c1 h1).2.2.1, (key c2 h2).2.2.1, (key c3 h3).2.2.1] at hperm2
  have hinj : ∀ p q : vec3f, lerpAt (1 / 2) h.pos p = lerpAt (1 / 2) h.pos q → p = q :=
    fun p q e => lerpAt_right_injective (1 / 2) (by norm_num) h.pos p q e
  have hnd : [t.1, t.2.1, t.2.2].Nodup := by
    refine hperm2.nodup_iff.mpr ?_
    simp only [List.nodup_cons, List.mem_cons, List.mem_singleton, List.not_mem_nil, or_false,
      not_or, not_false_eq_true, List.nodup_nil, and_true]
    exact ⟨⟨fun e => d12 (hinj _ _ e), fun e => d13 (hinj _ _ e)⟩, fun e => d23 (hinj _ _ e)⟩
  refine ⟨t, ?_, hperm2, ?_⟩
  · have hlift : processTet out inp tet 1 = process out [a, b, c, c, d, d, d, d] 1 := by
      simp [processTet, fa, fb, fc, fd]
    rw [hlift, hp, filter_single t (nonDegenerate_of_nodup t hnd)]
  · intro x hx
    simp only [List.mem_cons, List.mem_singleton, List.not_mem_nil, or_false] at hx
    rcases hx with rfl | rfl | rfl
    · exact key _ h1
    · exact key _ h2
    · exact key _ h3

/-- Witness of C11: the tetrahedron of `tetMesh`, whose fourth corner has
scalar 2. -/
theorem C11_single_tetrahedron_witness :
    ∃ t, processTet [] tetMesh ⟨0, 1, 2, 3⟩ 1 = some ([] ++ cornersOf t) ∧
      [t.1, t.2.1, t.2.2].Perm
        [lerpAt (1 / 2) (⟨0, 0, 2, 2⟩ : vec4f).pos (⟨0, 0, 0, 0⟩ : vec4f).pos,
          lerpAt (1 / 2) (⟨0, 0, 2, 2⟩ : vec4f).pos (⟨2, 0, 0, 0⟩ : vec4f).pos,
          lerpAt (1 / 2) (⟨0, 0, 2, 2⟩ : vec4f).pos (⟨0, 2, 0, 0⟩ : vec4f).pos] ∧
      ∀ x ∈ [(⟨0, 0, 0, 0⟩ : vec4f), ⟨2, 0, 0, 0⟩, ⟨0, 2, 0, 0⟩],
        tParam ⟨0, 0, 2, 2⟩ x 1 = 1 / 2 ∧ tParam x ⟨0, 0, 2, 2⟩ 1 = 1 / 2 ∧
        interpolate ⟨0, 0, 2, 2⟩ x 1 = lerpAt (1 / 2) (⟨0, 0, 2, 2⟩ : vec4f).pos x.pos ∧
        interpolate x ⟨0, 0, 2, 2⟩ 1 = lerpAt (1 / 2) (⟨0, 0, 2, 2⟩ : vec4f).pos x.pos :=
  C11_single_tetrahedron [] tetMesh ⟨0, 1, 2, 3⟩ ⟨0, 0, 0, 0⟩ ⟨2, 0, 0, 0⟩ ⟨0, 2, 0, 0⟩
    ⟨0, 0, 2, 2⟩ ⟨0, 0, 2, 2⟩ ⟨0, 0, 0, 0⟩ ⟨2, 0, 0, 0⟩ ⟨0, 2, 0, 0⟩
    (by decide) (by decide) (by decide) (by decide) (by decide) rfl rfl rfl rfl
    (by decide) (by decide) (by decide)

theorem perm3_rotate {α : Type} (x y z : α) : [y, z, x].Perm [x, y, z] :=
  perm_last_to_front [y, z] x

theorem filter_pair (t1 t2 : vec3f × vec3f × vec3f) (h1 : nonDegenerate t1 = true)
    (h2 : nonDegenerate t2 = true) (out : List FatVertex) :
    out ++ unpack ([t1, t2].filter nonDegenerate) = out ++ cornersOf t1 ++ cornersOf t2 := by
  simp [List.filter, h1, h2, unpack]

set_option maxRecDepth 100000 in
theorem table_row_15 : vtkMarchingCubesTriangleCases[15]?
    = some [9, 11, 8, 11, 10, 8, -1, -1, -1, -1, -1, -1, -1, -1, -1, -1] := by
  decide

set_option maxRecDepth 100000 in
theorem table_row_240 : vtkMarchingCubesTriangleCases[240]?
    = some [9, 8, 11, 11, 8, 10, -1, -1, -1, -1, -1, -1, -1, -1, -1, -1] := by
  decide

theorem apex_edges :
    ([8, 9, 10, 11] : List Int).map (getInt? vtkMarchingCubes_edges)
      = [some [0, 4], some [1, 5], some [3, 7], some [2, 6]] := by
  decide

/-- Pyramid duplication pattern in exact arithmetic: for a pyramid whose
four base corners have pairwise different positions and one scalar `s`, whose
apex has a scalar `s2` different from `s` and from the iso-value, with the
iso-value separating `s` from `s2`, the lifter and the kernel append exactly
two triangles, which up to vertex order are `(p0,p1,p2)` and `(p0,p2,p3)`,
`pᵢ` being the crossing point of the edge from base corner `vᵢ` to the apex.
Each `pᵢ` is the point of that edge at a parameter `0 ≤ t < 1`; the table row
names only the cell edges 8 to 11, which join a base corner to a copy of the
apex, and no base edge. -/
theorem pyramid_pattern (out : List FatVertex) (inp : UMesh) (pyr : Pyr)
    (v0 v1 v2 v3 v4 : vec4f) (s s2 isoValue : ℚ)
    (f0 : fetch inp pyr.i0 = some v0) (f1 : fetch inp pyr.i1 = some v1)
    (f2 : fetch inp pyr.i2 = some v2) (f3 : fetch inp pyr.i3 = some v3)
    (f4 : fetch inp pyr.i4 = some v4)
    (hs0 : v0.w = s) (hs1 : v1.w = s) (hs2 : v2.w = s) (hs3 : v3.w = s) (hs4 : v4.w = s2)
    (hne : s2 ≠ s) (hiso : s2 ≠ isoValue)
    (hsep : (s > isoValue ∧ s2 ≤ isoValue) ∨ (s2 > isoValue ∧ s ≤ isoValue))
    (d01 : v0.pos ≠ v1.pos) (d02 : v0.pos ≠ v2.pos) (d03 : v0.pos ≠ v3.pos)
    (d12 : v1.pos ≠ v2.pos) (d13 : v1.pos ≠ v3.pos) (d23 : v2.pos ≠ v3.pos) :
    ∃ t1 t2, processPyr out inp pyr isoValue = some (out ++ cornersOf t1 ++ cornersOf t2) ∧
      [t1.1, t1.2.1, t1.2.2].Perm [interpolate v0 v4 isoValue, interpolate v1 v4 isoValue,
        interpolate v2 v4 isoValue] ∧
      [t2.1, t2.2.1, t2.2.2].Perm [interpolate v0 v4 isoValue, interpolate v2 v4 isoValue,
        interpolate v3 v4 isoValue] ∧
      (∀ v ∈ [v0, v1, v2, v3], 0 ≤ tParam v v4 isoValue ∧ tParam v v4 isoValue < 1 ∧
        interpolate v v4 isoValue = lerpAt (tParam v v4 isoValue) v.pos v4.pos) ∧
      (∃ code row, caseIndex [v0, v1, v2, v3, v4, v4, v4, v4] isoValue = some code ∧
        vtkMarchingCubesTriangleCases[code]? = some row ∧
        ∀ e ∈ row, e = -1 ∨ (8 ≤ e ∧ e ≤ 11)) ∧
      ([8, 9, 10, 11] : List Int).map (getInt? vtkMarchingCubes_edges)
        = [some [0, 4], some [1, 5], some [3, 7], some [2, 6]] := by
  have hlift : processPyr out inp pyr isoValue
      = process out [v0, v1, v2, v3, v4, v4, v4, v4] isoValue := by
    simp [processPyr, f0, f1, f2, f3, f4]
  -- the common interpolation parameter
  have hT : ∀ v : vec4f, v.w = s →
      tParam v v4 isoValue = (isoValue - s) / (s2 - s) := by
    intro v hv
    simp only [tParam, hv, hs4, if_neg hne]
  have hrange : 0 ≤ (isoValue - s) / (s2 - s) ∧ (isoValue - s) / (s2 - s) < 1 := by
    rcases hsep with ⟨ha, hb⟩ | ⟨ha, hb⟩
    · have hb2 : s2 < isoValue := lt_of_le_of_ne hb hiso
      exact ⟨div_nonneg_of_nonpos (by linarith) (by linarith),
        (div_lt_one_of_neg (by linarith)).mpr (by linarith)⟩
    · exact ⟨div_nonneg (by linarith) (by linarith),
        (div_lt_one (by linarith)).mpr (by linarith)⟩
  have hp : ∀ v : vec4f, v.w = s →
      interpolate v v4 isoValue = lerpAt ((isoValue - s) / (s2 - s)) v.pos v4.pos := by
    intro v hv
    rw [interpolate_eq_lerpAt, hT v hv]
  have hinj : ∀ u v : vec4f, u.w = s → v.w = s → u.pos ≠ v.pos →
      interpolate u v4 isoValue ≠ interpolate v v4 isoValue := by
    intro u v hu hv hd e
    rw [hp u hu, hp v hv] at e
    exact hd (lerpAt_left_injective _ (ne_of_lt hrange.2) _ _ _ e)
  have n01 := hinj v0 v1 hs0 hs1 d01
  have n02 := hinj v0 v2 hs0 hs2 d02
  have n03 := hinj v0 v3 hs0 hs3 d03
  have n12 := hinj v1 v2 hs1 hs2 d12
  have n23 := hinj v2 v3 hs2 hs3 d23
  have hcorners : ∀ v ∈ [v0, v1, v2, v3], 0 ≤ tParam v v4 isoValue ∧
      tParam v v4 isoValue < 1 ∧
      interpolate v v4 isoValue = lerpAt (tParam v v4 isoValue) v.pos v4.pos := by
    intro v hv
    have hw : v.w = s := by
      simp only [List.mem_cons, List.mem_singleton, List.not_mem_nil, or_false] at hv
      rcases hv with rfl | rfl | rfl | rfl <;> assumption
    rw [hT v hw]
    exact ⟨hrange.1, hrange.2, hp v hw⟩
  rcases hsep with ⟨ha, hb⟩ | ⟨ha, hb⟩
  · have hcode := caseIndex_of_bits v0 v1 v2 v3 v4 v4 v4 v4 isoValue true true true true false
      false false false (decide_eq_true (by rw [hs0]; exact ha))
      (decide_eq_true (by rw [hs1]; exact ha)) (decide_eq_true (by rw [hs2]; exact ha))
      (decide_eq_true (by rw [hs3]; exact ha))
      (decide_eq_false (not_lt.mpr (by rw [hs4]; exact hb)))
      (decide_eq_false (not_lt.mpr (by rw [hs4]; exact hb)))
      (decide_eq_false (not_lt.mpr (by rw [hs4]; exact hb)))
      (decide_eq_false (not_lt.mpr (by rw [hs4]; exact hb)))
    have hrun := pyr_base_hot out v0 v1 v2 v3 v4 isoValue (by rw [hs0]; exact ha)
      (by rw [hs1]; exact ha) (by rw [hs2]; exact ha) (by rw [hs3]; exact ha)
      (by rw [hs4]; exact hb)
    refine ⟨(interpolate v1 v4 isoValue, interpolate v2 v4 isoValue, interpolate v0 v4 isoValue),
      (interpolate v2 v4 isoValue, interpolate v3 v4 isoValue, interpolate v0 v4 isoValue),
      ?_, perm3_rotate _ _ _, perm3_rotate _ _ _, hcorners,
      ⟨15, _, hcode, table_row_15, by decide⟩, apex_edges⟩
    rw [hlift, hrun, filter_pair]
    · simp only [nonDegenerate, decide_eq_true_eq]
      exact ⟨fun e => n12 e.symm, n01, fun e => n02 e.symm⟩
    · simp only [nonDegenerate, decide_eq_true_eq]
      exact ⟨fun e => n23 e.symm, n02, fun e => n03 e.symm⟩
  · have hcode := caseIndex_of_bits v0 v1 v2 v3 v4 v4 v4 v4 isoValue false false false false
      true true true true
      (decide_eq_false (not_lt.mpr (by rw [hs0]; exact hb)))
      (decide_eq_false (not_lt.mpr (by rw [hs1]; exact hb)))
      (decide_eq_false (not_lt.mpr (by rw [hs2]; exact hb)))
      (decide_eq_false (not_lt.mpr (by rw [hs3]; exact hb)))
      (decide_eq_true (by rw [hs4]; exact ha)) (decide_eq_true (by rw [hs4]; exact ha))
      (decide_eq_true (by rw [hs4]; exact ha)) (decide_eq_true (by rw [hs4]; exact ha))
    have hrun := pyr_apex_hot out v0 v1 v2 v3 v4 isoValue (by rw [hs0]; exact hb)
      (by rw [hs1]; exact hb) (by rw [hs2]; exact hb) (by rw [hs3]; exact hb)
      (by rw [hs4]; exact ha)
    refine ⟨(interpolate v1 v4 isoValue, interpolate v0 v4 isoValue, interpolate v2 v4 isoValue),
      (interpolate v2 v4 isoValue, interpolate v0 v4 isoValue, interpolate v3 v4 isoValue),
      ?_, perm3_swap12 _ _ _, perm3_swap12 _ _ _, hcorners,
      ⟨240, _, hcode, table_row_240, by decide⟩, apex_edges⟩
    rw [hlift, hrun, filter_pair]
    · simp only [nonDegenerate, decide_eq_true_eq]
      exact ⟨n01, fun e => n12 e.symm, n02⟩
    · simp only [nonDegenerate, decide_eq_true_eq]
      exact ⟨n02, fun e => n23 e.symm, n03⟩

/-! ## Independence of the buffer and of the partition into blocks -/

/-- The kernel's output does not depend on what the buffer already holds. -/
theorem walkCases_append (vertex : List vec4f) (isoValue : ℚ) :
    ∀ (row : List Int) (out : List FatVertex),
      walkCases vertex isoValue out row
        = (walkCases vertex isoValue [] row).map (fun l => out ++ l)
  | [], _ => rfl
  | [e0], out => by
    simp only [walkCases]
    split <;> simp
  | [e0, _], out => by
    simp only [walkCases]
    split <;> simp
  | e0 :: e1 :: e2 :: rest, out => by
    simp only [walkCases]
    split
    · cases triVertexAt vertex isoValue e0 with
      | none => rfl
      | some t0 =>
        cases triVertexAt vertex isoValue e1 with
        | none => rfl
        | some t1 =>
          cases triVertexAt vertex isoValue e2 with
          | none => rfl
          | some t2 =>
            simp only []
            split
            · exact walkCases_append vertex isoValue rest out
            · split
              · exact walkCases_append vertex isoValue rest out
              · split
                · exact walkCases_append vertex isoValue rest out
                · rw [walkCases_append vertex isoValue rest (out ++ _),
                    walkCases_append vertex isoValue rest ([] ++ _)]
                  cases walkCases vertex isoValue [] rest with
                  | none => rfl
                  | some l => simp
    · simp

theorem process_append (out : List FatVertex) (vertex : List vec4f) (isoValue : ℚ) :
    process out vertex isoValue = (process [] vertex isoValue).map (fun l => out ++ l) := by
  unfold process
  cases caseIndex vertex isoValue with
  | none => rfl
  | some index =>
    simp only [Option.bind_eq_bind, Option.some_bind]
    split
    · simp
    · cases vtkMarchingCubesTriangleCases[index]? with
      | none => rfl
      | some row =>
        simp only [Option.some_bind]
        exact walkCases_append vertex isoValue row out

theorem processTet_append (out : List FatVertex) (inp : UMesh) (e : Tet) (isoValue : ℚ) :
    processTet out inp e isoValue
      = (processTet [] inp e isoValue).map (fun l => out ++ l) := by
  unfold processTet
  cases fetch inp e.x <;> cases fetch inp e.y <;> cases fetch inp e.z <;>
    cases fetch inp e.w
  all_goals first
    | rfl
    | (simp only [Option.bind_eq_bind, Option.some_bind]; exact process_append out _ isoValue)

theorem processPyr_append (out : List FatVertex) (inp : UMesh) (e : Pyr) (isoValue : ℚ) :
    processPyr out inp e isoValue
      = (processPyr [] inp e isoValue).map (fun l => out ++ l) := by
  unfold processPyr
  cases fetch inp e.i0 <;> cases fetch inp e.i1 <;> cases fetch inp e.i2 <;>
    cases fetch inp e.i3 <;> cases fetch inp e.i4
  all_goals first
    | rfl
    | (simp only [Option.bind_eq_bind, Option.some_bind]; exact process_append out _ isoValue)

theorem processWedge_append (out : List FatVertex) (inp : UMesh) (e : Wedge) (isoValue : ℚ) :
    processWedge out inp e isoValue
      = (processWedge [] inp e isoValue).map (fun l => out ++ l) := by
  unfold processWedge
  cases fetch inp e.i0 <;> cases fetch inp e.i1 <;> cases fetch inp e.i2 <;>
    cases fetch inp e.i3 <;> cases fetch inp e.i4 <;> cases fetch inp e.i5
  all_goals first
    | rfl
    | (simp only [Option.bind_eq_bind, Option.some_bind]; exact process_append out _ isoValue)

theorem processHex_append (out : List FatVertex) (inp : UMesh) (e : Hex) (isoValue : ℚ) :
    processHex out inp e isoValue
      = (processHex [] inp e isoValue).map (fun l => out ++ l) := by
  unfold processHex
  cases fetch inp e.i0 <;> cases fetch inp e.i1 <;> cases fetch inp e.i2 <;>
    cases fetch inp e.i3 <;> cases fetch inp e.i4 <;> cases fetch inp e.i5 <;>
    cases fetch inp e.i6 <;> cases fetch inp e.i7
  all_goals first
    | rfl
    | (simp only [Option.bind_eq_bind, Option.some_bind]; exact process_append out _ isoValue)

/-- A lifter that succeeds on the empty buffer leaves whole triangles. -/
theorem processTet_whole (inp : UMesh) (e : Tet) (isoValue : ℚ) (x : List FatVertex)
    (h : processTet [] inp e isoValue = some x) : ∃ tris, x = unpack tris := by
  unfold processTet at h
  cases ha : fetch inp e.x with
  | none => simp [ha] at h
  | some a =>
  cases hb : fetch inp e.y with
  | none => simp [ha, hb] at h
  | some b =>
  cases hc : fetch inp e.z with
  | none => simp [ha, hb, hc] at h
  | some c =>
  cases hd : fetch inp e.w with
  | none => simp [ha, hb, hc, hd] at h
  | some d =>
    simp only [ha, hb, hc, hd, Option.bind_eq_bind, Option.some_bind] at h
    obtain ⟨tris, _, ht⟩ := process_emits [] ⟨a, b, c, c, d, d, d, d⟩ isoValue
    simp only [Cell.corners, List.nil_append] at ht
    rw [ht] at h
    exact ⟨tris, (Option.some.inj h).symm⟩

theorem processPyr_whole (inp : UMesh) (e : Pyr) (isoValue : ℚ) (x : List FatVertex)
    (h : processPyr [] inp e isoValue = some x) : ∃ tris, x = unpack tris := by
  simp only [processPyr, Option.bind_eq_bind, Option.bind_eq_some] at h
  obtain ⟨v0, _, v1, _, v2, _, v3, _, v4, _, h⟩ := h
  obtain ⟨tris, _, ht⟩ := process_emits [] ⟨v0, v1, v2, v3, v4, v4, v4, v4⟩ isoValue
  simp only [Cell.corners, List.nil_append] at ht
  rw [ht] at h
  exact ⟨tris, (Option.some.inj h).symm⟩

theorem processWedge_whole (inp : UMesh) (e : Wedge) (isoValue : ℚ) (x : List FatVertex)
    (h : processWedge [] inp e isoValue = some x) : ∃ tris, x = unpack tris := by
  simp only [processWedge, Option.bind_eq_bind, Option.bind_eq_some] at h
  obtain ⟨v0, _, v1, _, v2, _, v3, _, v4, _, v5, _, h⟩ := h
  obtain ⟨tris, _, ht⟩ := process_emits [] ⟨v0, v1, v4, v3, v2, v2, v5, v5⟩ isoValue
  simp only [Cell.corners, List.nil_append] at ht
  rw [ht] at h
  exact ⟨tris, (Option.some.inj h).symm⟩

theorem processHex_whole (inp : UMesh) (e : Hex) (isoValue : ℚ) (x : List FatVertex)
    (h : processHex [] inp e isoValue = some x) : ∃ tris, x = unpack tris := by
  simp only [processHex, Option.bind_eq_bind, Option.bind_eq_some] at h
  obtain ⟨v0, _, v1, _, v2, _, v3, _, v4, _, v5, _, v6, _, v7, _, h⟩ := h
  obtain ⟨tris, _, ht⟩ := process_emits [] ⟨v0, v1, v2, v3, v4, v5, v6, v7⟩ isoValue
  simp only [Cell.corners, List.nil_append] at ht
  rw [ht] at h
  exact ⟨tris, (Option.some.inj h).symm⟩

/-! ### Blocks -/

theorem blockLoop_append {ε : Type} (elems : List ε)
    (proc : List FatVertex → ε → Option (List FatVertex))
    (hU : ∀ lv e, proc lv e = (proc [] e).map (fun l => lv ++ l)) :
    ∀ (n i : Nat) (lv : List FatVertex),
      blockLoop elems proc i n lv = (blockLoop elems proc i n []).map (fun l => lv ++ l)
  | 0, _, lv => by simp [blockLoop]
  | n + 1, i, lv => by
    simp only [blockLoop]
    cases elems[i]? with
    | none => rfl
    | some e =>
      simp only [Option.bind_eq_bind, Option.some_bind]
      rw [hU lv e]
      cases proc [] e with
      | none => rfl
      | some x =>
        simp only [Option.map_some', Option.some_bind]
        rw [blockLoop_append elems proc hU n (i + 1) (lv ++ x),
          blockLoop_append elems proc hU n (i + 1) x]
        cases blockLoop elems proc (i + 1) n [] with
        | none => rfl
        | some y => simp

theorem blockLoop_split {ε : Type} (elems : List ε)
    (proc : List FatVertex → ε → Option (List FatVertex)) :
    ∀ (n m i : Nat) (lv : List FatVertex),
      blockLoop elems proc i (n + m) lv
        = (blockLoop elems proc i n lv).bind (blockLoop elems proc (i + n) m)
  | 0, m, i, lv => by simp [blockLoop]
  | n + 1, m, i, lv => by
    have e1 : n + 1 + m = (n + m) + 1 := by omega
    rw [e1]
    simp only [blockLoop]
    cases elems[i]? with
    | none => rfl
    | some e =>
      simp only [Option.bind_eq_bind, Option.some_bind]
      cases proc lv e with
      | none => rfl
      | some x =>
        simp only [Option.some_bind]
        rw [blockLoop_split elems proc n m (i + 1) x]
        have e2 : i + 1 + n = i + (n + 1) := by omega
        rw [e2]

theorem blockLoop_whole {ε : Type} (elems : List ε)
    (proc : List FatVertex → ε → Option (List FatVertex))
    (hU : ∀ lv e, proc lv e = (proc [] e).map (fun l => lv ++ l))
    (hW : ∀ e x, proc [] e = some x → ∃ tris, x = unpack tris) :
    ∀ (n i : Nat) (x : List FatVertex), blockLoop elems proc i n [] = some x →
      ∃ tris, x = unpack tris
  | 0, _, x, h => by
    simp only [blockLoop, Option.some.injEq] at h
    exact ⟨[], h.symm⟩
  | n + 1, i, x, h => by
    simp only [blockLoop] at h
    cases he : elems[i]? with
    | none => simp [he] at h
    | some e =>
      cases hp : proc [] e with
      | none => simp [he, hp] at h
      | some y =>
        simp only [he, hp, Option.bind_eq_bind, Option.some_bind] at h
        rw [blockLoop_append elems proc hU n (i + 1) y] at h
        cases hr : blockLoop elems proc (i + 1) n [] with
        | none => simp [hr] at h
        | some z =>
          simp only [hr, Option.map_some', Option.some.injEq] at h
          obtain ⟨t1, ht1⟩ := hW e y hp
          obtain ⟨t2, ht2⟩ := blockLoop_whole elems proc hU hW n (i + 1) z hr
          exact ⟨t1 ++ t2, by rw [← h, ht1, ht2, unpack_append]⟩

theorem pack_unpack : ∀ tris : List (vec3f × vec3f × vec3f), packTriangles (unpack tris) = tris
  | [] => rfl
  | t :: ts => by
    have ih := pack_unpack ts
    simp only [packTriangles] at ih
    simp [packTriangles, unpack, cornersOf, inThrees, ih]

theorem unpack_flatten : ∀ tss : List (List (vec3f × vec3f × vec3f)),
    unpack tss.flatten = (tss.map unpack).flatten
  | [] => rfl
  | ts :: tss => by simp [unpack_append, unpack_flatten tss]

theorem flatten_whole : ∀ ls : List (List FatVertex), (∀ l ∈ ls, ∃ tris, l = unpack tris) →
    ls.flatten = unpack (ls.map packTriangles).flatten
  | [], _ => rfl
  | l :: ls, h => by
    obtain ⟨tris, ht⟩ := h l (List.mem_cons_self _ _)
    have ih := flatten_whole ls (fun x hx => h x (List.mem_cons_of_mem _ hx))
    simp only [List.flatten_cons, List.map_cons, unpack_append, ← ih]
    rw [ht, pack_unpack]

/-- The block function shared by the four `doIsoSurface*` functions. -/
theorem block_split {ε : Type} (elems : List ε)
    (proc : List FatVertex → ε → Option (List FatVertex))
    (hU : ∀ lv e, proc lv e = (proc [] e).map (fun l => lv ++ l))
    (b m e : Nat) (hbm : b ≤ m) (hme : m ≤ e) (shared : List FatVertex) :
    ((blockLoop elems proc b (m - b) []).bind (fun lv => some (shared ++ lv))).bind
        (fun buf => (blockLoop elems proc m (e - m) []).bind (fun lv => some (buf ++ lv)))
      = (blockLoop elems proc b (e - b) []).bind (fun lv => some (shared ++ lv)) := by
  have e1 : e - b = (m - b) + (e - m) := by omega
  have e2 : b + (m - b) = m := by omega
  rw [e1, blockLoop_split elems proc (m - b) (e - m) b [], e2]
  cases blockLoop elems proc b (m - b) [] with
  | none => rfl
  | some l1 =>
    simp only [Option.some_bind]
    rw [blockLoop_append elems proc hU (e - m) m l1]
    cases blockLoop elems proc m (e - m) [] with
    | none => rfl
    | some l2 => simp

theorem fold_blocks {ε : Type} (elems : List ε)
    (proc : List FatVertex → ε → Option (List FatVertex))
    (hU : ∀ lv e, proc lv e = (proc [] e).map (fun l => lv ++ l))
    (blockSize : Nat) (hbs : 0 < blockSize) :
    ∀ (fuel b e : Nat) (shared : List FatVertex), e - b ≤ fuel →
      (blocksOf blockSize fuel b e).foldlM
          (fun buf be => (blockLoop elems proc be.1 (be.2 - be.1) []).bind
            (fun lv => some (buf ++ lv))) shared
        = (blockLoop elems proc b (e - b) []).bind (fun lv => some (shared ++ lv))
  | 0, b, e, shared, h => by
    have h0 : e - b = 0 := by omega
    simp [blocksOf, h0, blockLoop]
  | fuel + 1, b, e, shared, h => by
    unfold blocksOf
    split
    · rename_i hlt
      have hm1 : b ≤ min (b + blockSize) e := by omega
      have hm2 : min (b + blockSize) e ≤ e := Nat.min_le_right _ _
      rw [← block_split elems proc hU b (min (b + blockSize) e) e hm1 hm2 shared]
      simp only [List.foldlM_cons]
      cases (blockLoop elems proc b (min (b + blockSize) e - b) []).bind
          (fun lv => some (shared ++ lv)) with
      | none => rfl
      | some s1 =>
        simp only [Option.bind_eq_bind, Option.some_bind]
        exact fold_blocks elems proc hU blockSize hbs fuel _ e s1 (by omega)
    · have h0 : e - b = 0 := by omega
      simp [h0, blockLoop]

theorem fold_succeeds {ε : Type} (elems : List ε)
    (proc : List FatVertex → ε → Option (List FatVertex)) :
    ∀ (bl : List (Nat × Nat)) (shared r : List FatVertex),
      bl.foldlM (fun buf be => (blockLoop elems proc be.1 (be.2 - be.1) []).bind
          (fun lv => some (buf ++ lv))) shared = some r →
      ∀ be ∈ bl, ∃ l, blockLoop elems proc be.1 (be.2 - be.1) [] = some l
  | [], _, _, _, be, hbe => by simp at hbe
  | x :: bl, shared, r, h, be, hbe => by
    simp only [List.foldlM_cons] at h
    cases hx : blockLoop elems proc x.1 (x.2 - x.1) [] with
    | none => simp [hx] at h
    | some l =>
      simp only [hx, Option.bind_eq_bind, Option.some_bind] at h
      rcases List.mem_cons.mp hbe with rfl | hbe
      · exact ⟨l, hx⟩
      · exact fold_succeeds elems proc bl _ r h be hbe

theorem fold_of_succeeds {ε : Type} (elems : List ε)
    (proc : List FatVertex → ε → Option (List FatVertex)) :
    ∀ (bl : List (Nat × Nat)) (shared : List FatVertex),
      (∀ be ∈ bl, ∃ l, blockLoop elems proc be.1 (be.2 - be.1) [] = some l) →
      bl.foldlM (fun buf be => (blockLoop elems proc be.1 (be.2 - be.1) []).bind
          (fun lv => some (buf ++ lv))) shared
        = some (shared ++ (bl.map
            (fun be => (blockLoop elems proc be.1 (be.2 - be.1) []).getD [])).flatten)
  | [], shared, _ => by simp
  | x :: bl, shared, h => by
    obtain ⟨l, hl⟩ := h x (List.mem_cons_self _ _)
    simp only [List.foldlM_cons, hl, Option.bind_eq_bind, Option.some_bind, List.map_cons,
      Option.getD_some, List.flatten_cons]
    rw [fold_of_succeeds elems proc bl (shared ++ l)
      (fun be hbe => h be (List.mem_cons_of_mem _ hbe)), List.append_assoc]

/-- Block partitioning does not change what a block function collects. -/
theorem partitionIndependent_of {ε : Type} (elems : List ε)
    (proc : List FatVertex → ε → Option (List FatVertex))
    (hU : ∀ lv e, proc lv e = (proc [] e).map (fun l => lv ++ l))
    (hW : ∀ e x, proc [] e = some x → ∃ tris, x = unpack tris) :
    PartitionIndependent elems.length
      (fun b e buf => (blockLoop elems proc b (e - b) []).bind (fun lv => some (buf ++ lv))) := by
  intro blockSize hbs
  have hseq : ∀ shared, (blocksOf blockSize elems.length 0 elems.length).foldlM
      (fun buf be => (blockLoop elems proc be.1 (be.2 - be.1) []).bind
        (fun lv => some (buf ++ lv))) shared
      = (blockLoop elems proc 0 (elems.length - 0) []).bind (fun lv => some (shared ++ lv)) :=
    fun shared => fold_blocks elems proc hU blockSize hbs elems.length 0 elems.length shared
      (by omega)
  refine ⟨hseq, ?_⟩
  intro sched hperm raw hraw
  beta_reduce at hraw ⊢
  rw [← hseq []] at hraw
  have hall := fold_succeeds elems proc _ [] raw hraw
  have hall2 : ∀ be ∈ sched, ∃ l, blockLoop elems proc be.1 (be.2 - be.1) [] = some l :=
    fun be hbe => hall be (hperm.mem_iff.mp hbe)
  rw [fold_of_succeeds elems proc _ [] hall] at hraw
  have hwhole : ∀ bl : List (Nat × Nat),
      ∀ l ∈ bl.map (fun be => (blockLoop elems proc be.1 (be.2 - be.1) []).getD []),
        ∃ tris, l = unpack tris := by
    intro bl l hl
    obtain ⟨be, _, rfl⟩ := List.mem_map.mp hl
    cases hb : blockLoop elems proc be.1 (be.2 - be.1) [] with
    | none => exact ⟨[], rfl⟩
    | some x =>
      simp only [Option.getD_some]
      exact blockLoop_whole elems proc hU hW _ _ x hb
  refine ⟨(((blocksOf blockSize elems.length 0 elems.length).map
        (fun be => (blockLoop elems proc be.1 (be.2 - be.1) []).getD [])).map
          packTriangles).flatten,
    ((sched.map (fun be => (blockLoop elems proc be.1 (be.2 - be.1) []).getD [])).map
      packTriangles).flatten, ?_, ?_, ?_⟩
  · rw [← Option.some.inj hraw, List.nil_append]
    exact flatten_whole _ (hwhole _)
  · rw [fold_of_succeeds elems proc sched [] hall2, List.nil_append]
    exact congrArg some (flatten_whole _ (hwhole sched))
  · exact ((hperm.map _).map packTriangles).flatten

/-- C16. Block partitioning does not change the result: for each of the four
element arrays and every positive block size, running the block function over
the blocks of `[0, count)` in index order gives exactly the buffer of one
pass over all elements, and running the blocks in any other order gives a
buffer made of the same whole triangles in another order. -/
theorem C16_block_partitioning (inp : UMesh) (isoValue : ℚ) :
    PartitionIndependent inp.tets.length
      (fun b e buf => doIsoSurfaceTets buf inp b e isoValue) ∧
    PartitionIndependent inp.pyrs.length
      (fun b e buf => doIsoSurfacePyrs buf inp b e isoValue) ∧
    PartitionIndependent inp.wedges.length
      (fun b e buf => doIsoSurfaceWedges buf inp b e isoValue) ∧
    PartitionIndependent inp.hexes.length
      (fun b e buf => doIsoSurfaceHexes buf inp b e isoValue) :=
  ⟨partitionIndependent_of inp.tets (fun lv e => processTet lv inp e isoValue)
      (fun lv e => processTet_append lv inp e isoValue)
      (fun e x h => processTet_whole inp e isoValue x h),
    partitionIndependent_of inp.pyrs (fun lv e => processPyr lv inp e isoValue)
      (fun lv e => processPyr_append lv inp e isoValue)
      (fun e x h => processPyr_whole inp e isoValue x h),
    partitionIndependent_of inp.wedges (fun lv e => processWedge lv inp e isoValue)
      (fun lv e => processWedge_append lv inp e isoValue)
      (fun e x h => processWedge_whole inp e isoValue x h),
    partitionIndependent_of inp.hexes (fun lv e => processHex lv inp e isoValue)
      (fun lv e => processHex_append lv inp e isoValue)
      (fun e x h => processHex_whole inp e isoValue x h)⟩

set_option maxRecDepth 100000 in
/-- Witness of C16: the two tetrahedra of `twoTetMesh` at iso-value 2 in
blocks of one element, taken in reverse order. -/
theorem C16_block_partitioning_witness :
    ∃ tris tris2, twoTetRaw = unpack tris ∧
      [(1, 2), (0, 1)].foldlM
          (fun buf be => doIsoSurfaceTets buf twoTetMesh be.1 be.2 2) [] = some (unpack tris2) ∧
      tris2.Perm tris :=
  ((C16_block_partitioning twoTetMesh 2).1 1 (by decide)).2 [(1, 2), (0, 1)] (by decide)
    twoTetRaw (by with_unfolding_all rfl)

/-! ## Two tetrahedra on a shared face -/

/-- The dispatch of `extractIsoSurface` as four single passes. -/
theorem collect_single_pass (inp : UMesh) (isoValue : ℚ) :
    collectFatVertices inp isoValue
      = (doIsoSurfaceTets [] inp 0 inp.tets.length isoValue).bind (fun afterTets =>
        (doIsoSurfacePyrs afterTets inp 0 inp.pyrs.length isoValue).bind (fun afterPyrs =>
        (doIsoSurfaceWedges afterPyrs inp 0 inp.wedges.length isoValue).bind (fun afterWedges =>
          doIsoSurfaceHexes afterWedges inp 0 inp.hexes.length isoValue))) := by
  have ht := fun shared => ((partitionIndependent_of inp.tets
    (fun lv e => processTet lv inp e isoValue) (fun lv e => processTet_append lv inp e isoValue)
    (fun e x h => processTet_whole inp e isoValue x h)) 1024 (by decide)).1 shared
  have hp := fun shared => ((partitionIndependent_of inp.pyrs
    (fun lv e => processPyr lv inp e isoValue) (fun lv e => processPyr_append lv inp e isoValue)
    (fun e x h => processPyr_whole inp e isoValue x h)) 1024 (by decide)).1 shared
  have hw := fun shared => ((partitionIndependent_of inp.wedges
    (fun lv e => processWedge lv inp e isoValue)
    (fun lv e => processWedge_append lv inp e isoValue)
    (fun e x h => processWedge_whole inp e isoValue x h)) 1024 (by decide)).1 shared
  have hh := fun shared => ((partitionIndependent_of inp.hexes
    (fun lv e => processHex lv inp e isoValue) (fun lv e => processHex_append lv inp e isoValue)
    (fun e x h => processHex_whole inp e isoValue x h)) 1024 (by decide)).1 shared
  unfold collectFatVertices
  have e1 : parallel_for_blocked 0 inp.tets.length 1024
      (fun b e buf => doIsoSurfaceTets buf inp b e isoValue) []
      = doIsoSurfaceTets [] inp 0 inp.tets.length isoValue := ht []
  have e2 : ∀ s, parallel_for_blocked 0 inp.pyrs.length 1024
      (fun b e buf => doIsoSurfacePyrs buf inp b e isoValue) s
      = doIsoSurfacePyrs s inp 0 inp.pyrs.length isoValue := hp
  have e3 : ∀ s, parallel_for_blocked 0 inp.wedges.length 1024
      (fun b e buf => doIsoSurfaceWedges buf inp b e isoValue) s
      = doIsoSurfaceWedges s inp 0 inp.wedges.length isoValue := hw
  have e4 : ∀ s, parallel_for_blocked 0 inp.hexes.length 1024
      (fun b e buf => doIsoSurfaceHexes buf inp b e isoValue) s
      = doIsoSurfaceHexes s inp 0 inp.hexes.length isoValue := hh
  simp only [e1, e2, e3, e4, Option.bind_eq_bind]

/-- The merge of whole triangles: the triangle count, and a vertex array
without repetition that holds exactly the raw positions. -/
theorem buildIndexedMesh_dedup (bits : ℚ → ℕ) (hbits : Function.Injective bits)
    (raw : List FatVertex) (h3 : raw.length % 3 = 0) (hlt : raw.length < 2 ^ 31) :
    ∃ out, buildIndexedMesh bits raw = .ok out ∧ out.triangles.length = raw.length / 3 ∧
      out.vertices.Nodup ∧ ∀ p, p ∈ out.vertices ↔ p ∈ raw.map FatVertex.pos := by
  obtain ⟨vs, fl, hb, hlen, hvs, _⟩ := buildIndexedMesh_spec bits raw h3 hlt
  have hnd : vs.Nodup := by
    rw [hvs]
    refine (newPositions_nodup (fun p q => memcmp (posBytes bits p) (posBytes bits q) ≤ 0) ?_ _
      none (sort_positions_pairwise bits _) (by intro p hp; cases hp)).1
    intro p q hpq hqp
    rw [memcmp_swap] at hqp
    exact posBytes_injective bits hbits p q
      (memcmp_eq_zero _ _ (by rw [posBytes_length, posBytes_length]) (by omega))
  have hmem : ∀ p, p ∈ vs ↔ p ∈ raw.map FatVertex.pos := by
    intro p
    rw [hvs, ← assignSlots_map_pos 0 raw,
      ← ((sort_perm (FatVertexCompare bits) (assignSlots 0 raw)).map FatVertex.pos).mem_iff]
    constructor
    · exact newPositions_subset _ _ p
    · intro h
      rcases mem_newPositions _ none p h with h' | h'
      · exact h'
      · cases h'
  exact ⟨_, hb, by simp only [groupTriangles_length, hlen], hnd, hmem⟩

set_option maxRecDepth 100000 in
theorem table_crossed_all :
    (vtkMarchingCubesTriangleCases.enum.all
      (fun cr => (cr.2.takeWhile (fun e => e != -1)).all (crossedIn cr.1))) = true := by decide

theorem table_crossed (c : Nat) (row : List Int)
    (hrow : vtkMarchingCubesTriangleCases[c]? = some row) :
    ∀ e ∈ row.takeWhile (fun e => e != -1), crossedIn c e = true := by
  have h := List.all_eq_true.mp table_crossed_all (c, row)
    (List.mk_mem_enum_iff_getElem?.mpr hrow)
  exact fun e he => List.all_eq_true.mp h e he

theorem crossedIn_range (c : Nat) (e : Int) (h : crossedIn c e = true) : 0 ≤ e ∧ e ≤ 11 := by
  by_contra hne
  have hnone : getInt? vtkMarchingCubes_edges e = none := by
    unfold getInt?
    split
    · rfl
    · apply List.getElem?_eq_none
      simp only [vtkMarchingCubes_edges, List.length_cons, List.length_nil]
      omega
  simp [crossedIn, edgeCorners, hnone] at h

theorem crossedIn_spec (c : Nat) (e : Int) (h : crossedIn c e = true) :
    ∃ i0 i1 : Nat, i0 < 8 ∧ i1 < 8 ∧
      getInt? vtkMarchingCubes_edges e = some [(i0 : Int), (i1 : Int)] ∧
      c.testBit i0 ≠ c.testBit i1 := by
  obtain ⟨h0, h11⟩ := crossedIn_range c e h
  have key : ∀ (i0 i1 : Nat), i0 < 8 → i1 < 8 →
      getInt? vtkMarchingCubes_edges e = some [(i0 : Int), (i1 : Int)] →
      ∃ i0 i1 : Nat, i0 < 8 ∧ i1 < 8 ∧
        getInt? vtkMarchingCubes_edges e = some [(i0 : Int), (i1 : Int)] ∧
        c.testBit i0 ≠ c.testBit i1 := by
    intro i0 i1 a b hg
    refine ⟨i0, i1, a, b, hg, ?_⟩
    simpa [crossedIn, edgeCorners, hg] using h
  interval_cases e
  · exact key 0 1 (by decide) (by decide) rfl
  · exact key 1 2 (by decide) (by decide) rfl
  · exact key 3 2 (by decide) (by decide) rfl
  · exact key 0 3 (by decide) (by decide) rfl
  · exact key 4 5 (by decide) (by decide) rfl
  · exact key 5 6 (by decide) (by decide) rfl
  · exact key 7 6 (by decide) (by decide) rfl
  · exact key 4 7 (by decide) (by decide) rfl
  · exact key 0 4 (by decide) (by decide) rfl
  · exact key 1 5 (by decide) (by decide) rfl
  · exact key 3 7 (by decide) (by decide) rfl
  · exact key 2 6 (by decide) (by decide) rfl

/-- C21. Table edges are crossed edges: for every configuration code `c`
below 256 the table has a row, and for every edge index that stands in that
row before the terminator the edge table holds a pair of corner numbers in
`0..7` whose bits in `c` differ, so one corner of the edge is inside and the
other outside. -/
theorem C21_table_edges_crossed (c : Nat) (hc : c < 256) :
    ∃ row, vtkMarchingCubesTriangleCases[c]? = some row ∧
      ∀ e ∈ row.takeWhile (fun e => e != -1),
        ∃ i0 i1 : Nat, i0 < 8 ∧ i1 < 8 ∧
          getInt? vtkMarchingCubes_edges e = some [(i0 : Int), (i1 : Int)] ∧
          c.testBit i0 ≠ c.testBit i1 := by
  have hlt : c < vtkMarchingCubesTriangleCases.length := by rw [table_length]; exact hc
  refine ⟨vtkMarchingCubesTriangleCases[c], List.getElem?_eq_getElem hlt, ?_⟩
  intro e he
  exact crossedIn_spec c e (table_crossed c _ (List.getElem?_eq_getElem hlt) e he)

/-- Witness of C21 at code 1, whose row starts with the edges 0, 8, 3: each
of them joins corner 0 to another corner. -/
theorem C21_table_edges_crossed_witness :
    (1 : Nat) < 256 ∧
    ∃ row, vtkMarchingCubesTriangleCases[1]? = some row ∧
      ∀ e ∈ row.takeWhile (fun e => e != -1),
        ∃ i0 i1 : Nat, i0 < 8 ∧ i1 < 8 ∧
          getInt? vtkMarchingCubes_edges e = some [(i0 : Int), (i1 : Int)] ∧
          (1 : Nat).testBit i0 ≠ (1 : Nat).testBit i1 :=
  ⟨by decide, C21_table_edges_crossed 1 (by decide)⟩

theorem candidateTriangles_length (vertex : List vec4f) (isoValue : ℚ) :
    ∀ (es : List (Int × Int × Int)) (cands : List (vec3f × vec3f × vec3f)),
      candidateTriangles vertex isoValue es = some cands → cands.length = es.length
  | [], cands, h => by
    simp only [candidateTriangles, Option.some.injEq] at h
    subst h
    rfl
  | e :: es, cands, h => by
    simp only [candidateTriangles] at h
    split at h
    · rename_i t0 t1 t2 ts h0 h1 h2 hts
      injection h with h
      subst h
      simp [candidateTriangles_length vertex isoValue es ts hts]
    · cases h

theorem inThrees_length_le {α : Type} : ∀ l : List α, 3 * (inThrees l).length ≤ l.length
  | [] => by simp [inThrees]
  | [_] => by simp [inThrees]
  | [_, _] => by simp [inThrees]
  | _ :: _ :: _ :: rest => by
    have := inThrees_length_le rest
    simp only [inThrees, List.length_cons]
    omega

theorem process_bound (out : List FatVertex) (c0 c1 c2 c3 c4 c5 c6 c7 : vec4f) (isoValue : ℚ) :
    ∃ tris, process out [c0, c1, c2, c3, c4, c5, c6, c7] isoValue = some (out ++ unpack tris) ∧
      tris.length ≤ 5 := by
  obtain ⟨code, row, cands, _, hrow, hc, hp⟩ := process_cell out c0 c1 c2 c3 c4 c5 c6 c7 isoValue
  refine ⟨cands.filter nonDegenerate, hp, ?_⟩
  have h1 := List.length_filter_le nonDegenerate cands
  have h2 := candidateTriangles_length _ isoValue _ cands hc
  have h3 := inThrees_length_le (row.takeWhile (fun e => e != -1))
  have h4 := (table_rows_shape row (List.getElem?_mem hrow)).2.2.1
  unfold rowTriangles at h2
  omega

theorem process_bound_of_some (out : List FatVertex) (c0 c1 c2 c3 c4 c5 c6 c7 : vec4f)
    (isoValue : ℚ) (x : List FatVertex)
    (h : process out [c0, c1, c2, c3, c4, c5, c6, c7] isoValue = some x) :
    ∃ l, x = out ++ l ∧ l.length ≤ 15 := by
  obtain ⟨tris, hp, hl⟩ := process_bound out c0 c1 c2 c3 c4 c5 c6 c7 isoValue
  rw [hp] at h
  injection h with h
  exact ⟨unpack tris, h.symm, by rw [unpack_length]; omega⟩

theorem processTet_bound (lv : List FatVertex) (inp : UMesh) (e : Tet) (isoValue : ℚ)
    (x : List FatVertex) (h : processTet lv inp e isoValue = some x) :
    ∃ l, x = lv ++ l ∧ l.length ≤ 15 := by
  unfold processTet at h
  cases h0 : fetch inp e.x <;> cases h1 : fetch inp e.y <;> cases h2 : fetch inp e.z <;>
    cases h3 : fetch inp e.w <;>
    simp only [h0, h1, h2, h3, Option.bind_eq_bind, Option.some_bind, Option.none_bind] at h
  all_goals first
    | cases h
    | exact process_bound_of_some lv _ _ _ _ _ _ _ _ isoValue x h

theorem processPyr_bound (lv : List FatVertex) (inp : UMesh) (e : Pyr) (isoValue : ℚ)
    (x : List FatVertex) (h : processPyr lv inp e isoValue = some x) :
    ∃ l, x = lv ++ l ∧ l.length ≤ 15 := by
  unfold processPyr at h
  cases h0 : fetch inp e.i0 <;> cases h1 : fetch inp e.i1 <;> cases h2 : fetch inp e.i2 <;>
    cases h3 : fetch inp e.i3 <;> cases h4 : fetch inp e.i4 <;>
    simp only [h0, h1, h2, h3, h4, Option.bind_eq_bind, Option.some_bind, Option.none_bind] at h
  all_goals first
    | cases h
    | exact process_bound_of_some lv _ _ _ _ _ _ _ _ isoValue x h

theorem processWedge_bound (lv : List FatVertex) (inp : UMesh) (e : Wedge) (isoValue : ℚ)
    (x : List FatVertex) (h : processWedge lv inp e isoValue = some x) :
    ∃ l, x = lv ++ l ∧ l.length ≤ 15 := by
  unfold processWedge at h
  cases h0 : fetch inp e.i0 <;> cases h1 : fetch inp e.i1 <;> cases h2 : fetch inp e.i2 <;>
    cases h3 : fetch inp e.i3 <;> cases h4 : fetch inp e.i4 <;> cases h5 : fetch inp e.i5 <;>
    simp only [h0, h1, h2, h3, h4, h5, Option.bind_eq_bind, Option.some_bind,
      Option.none_bind] at h
  all_goals first
    | cases h
    | exact process_bound_of_some lv _ _ _ _ _ _ _ _ isoValue x h

theorem processHex_bound (lv : List FatVertex) (inp : UMesh) (e : Hex) (isoValue : ℚ)
    (x : List FatVertex) (h : processHex lv inp e isoValue = some x) :
    ∃ l, x = lv ++ l ∧ l.length ≤ 15 := by
  unfold processHex at h
  cases h0 : fetch inp e.i0 <;> cases h1 : fetch inp e.i1 <;> cases h2 : fetch inp e.i2 <;>
    cases h3 : fetch inp e.i3 <;> cases h4 : fetch inp e.i4 <;> cases h5 : fetch inp e.i5 <;>
    cases h6 : fetch inp e.i6 <;> cases h7 : fetch inp e.i7 <;>
    simp only [h0, h1, h2, h3, h4, h5, h6, h7, Option.bind_eq_bind, Option.some_bind,
      Option.none_bind] at h
  all_goals first
    | cases h
    | exact process_bound_of_some lv _ _ _ _ _ _ _ _ isoValue x h

theorem blockLoop_length {ε : Type} (elems : List ε)
    (proc : List FatVertex → ε → Option (List FatVertex))
    (hproc : ∀ lv e x, proc lv e = some x → ∃ l, x = lv ++ l ∧ l.length ≤ 15) :
    ∀ (n i : Nat) (lv x : List FatVertex), blockLoop elems proc i n lv = some x →
      ∃ l, x = lv ++ l ∧ l.length ≤ 15 * n
  | 0, _, lv, x, h => by
    simp only [blockLoop, Option.some.injEq] at h
    exact ⟨[], by simp [h], by simp⟩
  | n + 1, i, lv, x, h => by
    simp only [blockLoop, Option.bind_eq_bind] at h
    cases he : elems[i]? with
    | none => simp [he] at h
    | some e =>
      simp only [he, Option.some_bind] at h
      cases hp : proc lv e with
      | none => simp [hp] at h
      | some next =>
        simp only [hp, Option.some_bind] at h
        obtain ⟨l1, hl1, hb1⟩ := hproc lv e next hp
        obtain ⟨l2, hl2, hb2⟩ := blockLoop_length elems proc hproc n (i + 1) next x h
        refine ⟨l1 ++ l2, by rw [hl2, hl1, List.append_assoc], ?_⟩
        rw [List.length_append]
        omega

theorem block_bound {ε : Type} (elems : List ε)
    (proc : List FatVertex → ε → Option (List FatVertex))
    (hproc : ∀ lv e x, proc lv e = some x → ∃ l, x = lv ++ l ∧ l.length ≤ 15)
    (out : List FatVertex) (b e : Nat) (r : List FatVertex)
    (h : (blockLoop elems proc b (e - b) []).bind (fun lv => some (out ++ lv)) = some r) :
    ∃ lv, blockLoop elems proc b (e - b) [] = some lv ∧ r = out ++ lv ∧
      lv.length ≤ 15 * (e - b) ∧ (e - b ≤ 1024 → lv.length ≤ 15360) := by
  cases hl : blockLoop elems proc b (e - b) [] with
  | none => simp [hl] at h
  | some lv =>
    simp only [hl, Option.some_bind, Option.some.injEq] at h
    obtain ⟨l, hx, hb⟩ := blockLoop_length elems proc hproc (e - b) b [] lv hl
    simp only [List.nil_append] at hx
    subst hx
    exact ⟨lv, rfl, h.symm, hb, fun hle => by omega⟩

theorem blocksOf_size (blockSize : Nat) : ∀ (fuel b e : Nat),
    ∀ be ∈ blocksOf blockSize fuel b e, be.2 - be.1 ≤ blockSize
  | 0, _, _, be, h => by simp [blocksOf] at h
  | fuel + 1, b, e, be, h => by
    unfold blocksOf at h
    split at h
    · rcases List.mem_cons.mp h with rfl | h
      · simp only
        omega
      · exact blocksOf_size blockSize fuel _ e be h
    · simp at h

/-- C27. Bounded output per cell and per block: on every 8 corners the kernel
returns the buffer it was given followed by at most 5 triangles, that is at
most 15 raw corners; so in each of the four block functions the block-local
buffer of the block `[b, e)` holds at most `15 * (e - b)` raw corners, at
most 15360 when the block has at most 1024 elements, and the result is the
shared buffer followed by the local buffer. The blocks that the dispatch
forms with block size 1024 have at most 1024 elements. -/
theorem C27_bounded_output (inp : UMesh) (isoValue : ℚ) :
    (∀ (out : List FatVertex) (c0 c1 c2 c3 c4 c5 c6 c7 : vec4f),
      ∃ tris, process out [c0, c1, c2, c3, c4, c5, c6, c7] isoValue
          = some (out ++ unpack tris) ∧
        tris.length ≤ 5 ∧ (unpack tris).length ≤ 15) ∧
    (∀ out b e r, doIsoSurfaceTets out inp b e isoValue = some r →
      ∃ lv, blockLoop inp.tets (fun lv e => processTet lv inp e isoValue) b (e - b) [] = some lv ∧
        r = out ++ lv ∧ lv.length ≤ 15 * (e - b) ∧ (e - b ≤ 1024 → lv.length ≤ 15360)) ∧
    (∀ out b e r, doIsoSurfacePyrs out inp b e isoValue = some r →
      ∃ lv, blockLoop inp.pyrs (fun lv e => processPyr lv inp e isoValue) b (e - b) [] = some lv ∧
        r = out ++ lv ∧ lv.length ≤ 15 * (e - b) ∧ (e - b ≤ 1024 → lv.length ≤ 15360)) ∧
    (∀ out b e r, doIsoSurfaceWedges out inp b e isoValue = some r →
      ∃ lv, blockLoop inp.wedges (fun lv e => processWedge lv inp e isoValue) b (e - b) []
          = some lv ∧
        r = out ++ lv ∧ lv.length ≤ 15 * (e - b) ∧ (e - b ≤ 1024 → lv.length ≤ 15360)) ∧
    (∀ out b e r, doIsoSurfaceHexes out inp b e isoValue = some r →
      ∃ lv, blockLoop inp.hexes (fun lv e => processHex lv inp e isoValue) b (e - b) []
          = some lv ∧
        r = out ++ lv ∧ lv.length ≤ 15 * (e - b) ∧ (e - b ≤ 1024 → lv.length ≤ 15360)) ∧
    (∀ count : Nat, ∀ be ∈ blocksOf 1024 count 0 count, be.2 - be.1 ≤ 1024) := by
  refine ⟨?_, ?_, ?_, ?_, ?_, ?_⟩
  · intro out c0 c1 c2 c3 c4 c5 c6 c7
    obtain ⟨tris, hp, hl⟩ := process_bound out c0 c1 c2 c3 c4 c5 c6 c7 isoValue
    exact ⟨tris, hp, hl, by rw [unpack_length]; omega⟩
  · intro out b e r h
    exact block_bound inp.tets _ (fun lv e x hx => processTet_bound lv inp e isoValue x hx)
      out b e r h
  · intro out b e r h
    exact block_bound inp.pyrs _ (fun lv e x hx => processPyr_bound lv inp e isoValue x hx)
      out b e r h
  · intro out b e r h
    exact block_bound inp.wedges _ (fun lv e x hx => processWedge_bound lv inp e isoValue x hx)
      out b e r h
  · intro out b e r h
    exact block_bound inp.hexes _ (fun lv e x hx => processHex_bound lv inp e isoValue x hx)
      out b e r h
  · intro count be hbe
    exact blocksOf_size 1024 count 0 count be hbe

set_option maxRecDepth 100000 in
/-- Witness of C27 on the mesh of one tetrahedron at iso-value 1: the block
`[0, 1)` collects the three corners of one triangle. -/
theorem C27_bounded_output_witness :
    doIsoSurfaceTets [] tetMesh 0 1 1
      = some [⟨⟨1, 0, 1⟩, 0⟩, ⟨⟨0, 0, 1⟩, 0⟩, ⟨⟨0, 1, 1⟩, 0⟩] ∧
    ∃ lv, blockLoop tetMesh.tets (fun lv e => processTet lv tetMesh e 1) 0 (1 - 0) [] = some lv ∧
      [⟨⟨1, 0, 1⟩, 0⟩, ⟨⟨0, 0, 1⟩, 0⟩, ⟨⟨0, 1, 1⟩, 0⟩] = [] ++ lv ∧ lv.length ≤ 15 * (1 - 0) ∧
      (1 - 0 ≤ 1024 → lv.length ≤ 15360) :=
  ⟨by with_unfolding_all rfl,
    (C27_bounded_output tetMesh 1).2.1 [] 0 1 _ (by with_unfolding_all rfl)⟩

set_option maxRecDepth 100000 in
theorem tet_rows : ∀ ba bb bc bd : Bool,
    ((rowTriangles ((vtkMarchingCubesTriangleCases[codeOfBits ba bb bc bc bd bd bd bd]?).getD
      [])).filter (fun e => !usesEdges10And11 e)).length ≤ 2 := by
  intro ba bb bc bd
  cases ba <;> cases bb <;> cases bc <;> cases bd <;> decide

theorem tet_degenerate (a b c d : vec4f) (isoValue : ℚ) (e : Int × Int × Int)
    (t0 t1 t2 : vec3f) (h : usesEdges10And11 e = true)
    (h0 : triVertexAt [a, b, c, c, d, d, d, d] isoValue e.1 = some t0)
    (h1 : triVertexAt [a, b, c, c, d, d, d, d] isoValue e.2.1 = some t1)
    (h2 : triVertexAt [a, b, c, c, d, d, d, d] isoValue e.2.2 = some t2) :
    nonDegenerate (t0, t1, t2) = false := by
  have k10 : triVertexAt [a, b, c, c, d, d, d, d] isoValue 10 = some (interpolate c d isoValue) :=
    rfl
  have k11 : triVertexAt [a, b, c, c, d, d, d, d] isoValue 11 = some (interpolate c d isoValue) :=
    rfl
  obtain ⟨e0, e1, e2⟩ := e
  simp only [usesEdges10And11, decide_eq_true_eq] at h
  simp only at h0 h1 h2
  obtain ⟨ha, hb⟩ := h
  rcases ha with ha | ha | ha <;> rcases hb with hb | hb | hb <;>
    first
    | omega
    | (subst ha; subst hb
       simp only [k10, k11, Option.some.injEq] at h0 h1 h2
       simp_all [nonDegenerate])

theorem tet_candidates (a b c d : vec4f) (isoValue : ℚ) :
    ∀ (es : List (Int × Int × Int)) (cands : List (vec3f × vec3f × vec3f)),
      candidateTriangles [a, b, c, c, d, d, d, d] isoValue es = some cands →
      (cands.filter nonDegenerate).length
        ≤ (es.filter (fun e => !usesEdges10And11 e)).length
  | [], cands, h => by
    simp only [candidateTriangles, Option.some.injEq] at h
    subst h
    simp
  | e :: es, cands, h => by
    simp only [candidateTriangles] at h
    split at h
    · rename_i t0 t1 t2 ts h0 h1 h2 hts
      injection h with h
      subst h
      have ih := tet_candidates a b c d isoValue es ts hts
      by_cases hu : usesEdges10And11 e = true
      · have hd := tet_degenerate a b c d isoValue e t0 t1 t2 hu h0 h1 h2
        simp only [List.filter_cons, hd, hu, Bool.false_eq_true, if_false, Bool.not_true]
        exact ih
      · have hu2 : usesEdges10And11 e = false := by simpa using hu
        simp only [List.filter_cons, hu2, Bool.not_false, if_true, List.length_cons]
        split
        · simp only [List.length_cons]
          omega
        · omega
    · cases h

theorem tet_bound (out : List FatVertex) (a b c d : vec4f) (isoValue : ℚ) :
    ∃ code row cands, caseIndex [a, b, c, c, d, d, d, d] isoValue = some code ∧
      vtkMarchingCubesTriangleCases[code]? = some row ∧
      candidateTriangles [a, b, c, c, d, d, d, d] isoValue (rowTriangles row) = some cands ∧
      process out [a, b, c, c, d, d, d, d] isoValue
        = some (out ++ unpack (cands.filter nonDegenerate)) ∧
      ((rowTriangles row).filter (fun e => !usesEdges10And11 e)).length ≤ 2 ∧
      (cands.filter nonDegenerate).length ≤ 2 := by
  obtain ⟨code, row, cands, hcode, hrow, hc, hp⟩ := process_cell out a b c c d d d d isoValue
  have hrows : ((rowTriangles row).filter (fun e => !usesEdges10And11 e)).length ≤ 2 := by
    have h := tet_rows (decide (a.w > isoValue)) (decide (b.w > isoValue))
      (decide (c.w > isoValue)) (decide (d.w > isoValue))
    have hc2 := hcode
    rw [caseIndex_eq] at hc2
    rw [Option.some.inj hc2, hrow] at h
    exact h
  exact ⟨code, row, cands, hcode, hrow, hc, hp, hrows,
    le_trans (tet_candidates a b c d isoValue _ cands hc) hrows⟩

/-! ## Meshes returned by the entry point -/

theorem extract_ok_inv (bits : ℚ → ℕ) (inp : Option UMesh) (isoValue : ℚ) (out : UMesh)
    (h : extractIsoSurface bits inp isoValue = .ok out) :
    ∃ mesh raw, inp = some mesh ∧ collectFatVertices mesh isoValue = some raw ∧
      buildIndexedMesh bits raw = .ok out := by
  unfold extractIsoSurface at h
  cases inp with
  | none => cases h
  | some mesh =>
    simp only at h
    split at h
    · cases h
    · cases hc : collectFatVertices mesh isoValue with
      | none => simp [hc] at h
      | some raw =>
        simp only [hc] at h
        exact ⟨mesh, raw, rfl, hc, h⟩

theorem blockLoop_of_some {ε : Type} (P : List (vec3f × vec3f × vec3f) → Prop) (hnil : P [])
    (happ : ∀ a b, P a → P b → P (a ++ b)) (elems : List ε)
    (proc : List FatVertex → ε → Option (List FatVertex))
    (hproc : ∀ lv e x, proc lv e = some x → ∃ tris, P tris ∧ x = lv ++ unpack tris) :
    ∀ (n i : Nat) (lv x : List FatVertex), blockLoop elems proc i n lv = some x →
      ∃ tris, P tris ∧ x = lv ++ unpack tris
  | 0, _, lv, x, h => by
    simp only [blockLoop, Option.some.injEq] at h
    exact ⟨[], hnil, by simp [h, unpack]⟩
  | n + 1, i, lv, x, h => by
    simp only [blockLoop, Option.bind_eq_bind] at h
    cases he : elems[i]? with
    | none => simp [he] at h
    | some e =>
      simp only [he, Option.some_bind] at h
      cases hp : proc lv e with
      | none => simp [hp] at h
      | some next =>
        simp only [hp, Option.some_bind] at h
        obtain ⟨t1, p1, hl1⟩ := hproc lv e next hp
        obtain ⟨t2, p2, hl2⟩ := blockLoop_of_some P hnil happ elems proc hproc n (i + 1) next x h
        exact ⟨t1 ++ t2, happ _ _ p1 p2, by rw [hl2, hl1, unpack_append, List.append_assoc]⟩

theorem pass_of_some {ε : Type} (P : List (vec3f × vec3f × vec3f) → Prop) (hnil : P [])
    (happ : ∀ a b, P a → P b → P (a ++ b)) (elems : List ε)
    (proc : List FatVertex → ε → Option (List FatVertex))
    (hproc : ∀ lv e x, proc lv e = some x → ∃ tris, P tris ∧ x = lv ++ unpack tris)
    (n : Nat) (before : List (vec3f × vec3f × vec3f)) (x : List FatVertex)
    (h : (blockLoop elems proc 0 (n - 0) []).bind (fun lv => some (unpack before ++ lv))
      = some x) (hb : P before) :
    ∃ tris, P tris ∧ x = unpack tris := by
  rw [Nat.sub_zero] at h
  cases hl : blockLoop elems proc 0 n [] with
  | none =>
    rw [hl] at h
    cases h
  | some lv =>
    simp only [hl, Option.some_bind, Option.some.injEq] at h
    obtain ⟨t, pt, ht⟩ := blockLoop_of_some P hnil happ elems proc hproc _ 0 [] lv hl
    simp only [List.nil_append] at ht
    exact ⟨before ++ t, happ _ _ hb pt, by rw [← h, ht, unpack_append]⟩

theorem process_emits_of_some (lv : List FatVertex) (c0 c1 c2 c3 c4 c5 c6 c7 : vec4f)
    (isoValue : ℚ) (x : List FatVertex)
    (h : process lv [c0, c1, c2, c3, c4, c5, c6, c7] isoValue = some x) :
    ∃ tris, (∀ t ∈ tris, EmittedByKernel t) ∧ x = lv ++ unpack tris := by
  obtain ⟨tris, ht, hp⟩ := process_emits lv ⟨c0, c1, c2, c3, c4, c5, c6, c7⟩ isoValue
  have hp2 : process lv [c0, c1, c2, c3, c4, c5, c6, c7] isoValue = some (lv ++ unpack tris) := hp
  rw [hp2] at h
  injection h with h
  exact ⟨tris, ht, h.symm⟩

theorem processTet_of_some (lv : List FatVertex) (inp : UMesh) (e : Tet) (isoValue : ℚ)
    (x : List FatVertex) (h : processTet lv inp e isoValue = some x) :
    ∃ tris, (∀ t ∈ tris, EmittedByKernel t) ∧ x = lv ++ unpack tris := by
  unfold processTet at h
  cases h0 : fetch inp e.x <;> cases h1 : fetch inp e.y <;> cases h2 : fetch inp e.z <;>
    cases h3 : fetch inp e.w <;>
    simp only [h0, h1, h2, h3, Option.bind_eq_bind, Option.some_bind, Option.none_bind] at h
  all_goals first
    | cases h
    | exact process_emits_of_some lv _ _ _ _ _ _ _ _ isoValue x h

theorem processPyr_of_some (lv : List FatVertex) (inp : UMesh) (e : Pyr) (isoValue : ℚ)
    (x : List FatVertex) (h : processPyr lv inp e isoValue = some x) :
    ∃ tris, (∀ t ∈ tris, EmittedByKernel t) ∧ x = lv ++ unpack tris := by
  unfold processPyr at h
  cases h0 : fetch inp e.i0 <;> cases h1 : fetch inp e.i1 <;> cases h2 : fetch inp e.i2 <;>
    cases h3 : fetch inp e.i3 <;> cases h4 : fetch inp e.i4 <;>
    simp only [h0, h1, h2, h3, h4, Option.bind_eq_bind, Option.some_bind, Option.none_bind] at h
  all_goals first
    | cases h
    | exact process_emits_of_some lv _ _ _ _ _ _ _ _ isoValue x h

theorem processWedge_of_some (lv : List FatVertex) (inp : UMesh) (e : Wedge) (isoValue : ℚ)
    (x : List FatVertex) (h : processWedge lv inp e isoValue = some x) :
    ∃ tris, (∀ t ∈ tris, EmittedByKernel t) ∧ x = lv ++ unpack tris := by
  unfold processWedge at h
  cases h0 : fetch inp e.i0 <;> cases h1 : fetch inp e.i1 <;> cases h2 : fetch inp e.i2 <;>
    cases h3 : fetch inp e.i3 <;> cases h4 : fetch inp e.i4 <;> cases h5 : fetch inp e.i5 <;>
    simp only [h0, h1, h2, h3, h4, h5, Option.bind_eq_bind, Option.some_bind,
      Option.none_bind] at h
  all_goals first
    | cases h
    | exact process_emits_of_some lv _ _ _ _ _ _ _ _ isoValue x h

theorem processHex_of_some (lv : List FatVertex) (inp : UMesh) (e : Hex) (isoValue : ℚ)
    (x : List FatVertex) (h : processHex lv inp e isoValue = some x) :
    ∃ tris, (∀ t ∈ tris, EmittedByKernel t) ∧ x = lv ++ unpack tris := by
  unfold processHex at h
  cases h0 : fetch inp e.i0 <;> cases h1 : fetch inp e.i1 <;> cases h2 : fetch inp e.i2 <;>
    cases h3 : fetch inp e.i3 <;> cases h4 : fetch inp e.i4 <;> cases h5 : fetch inp e.i5 <;>
    cases h6 : fetch inp e.i6 <;> cases h7 : fetch inp e.i7 <;>
    simp only [h0, h1, h2, h3, h4, h5, h6, h7, Option.bind_eq_bind, Option.some_bind,
      Option.none_bind] at h
  all_goals first
    | cases h
    | exact process_emits_of_some lv _ _ _ _ _ _ _ _ isoValue x h

/-- Whatever `collectFatVertices` returns is a buffer of whole triangles, each
emitted by one kernel call. -/
theorem collect_of_some (inp : UMesh) (isoValue : ℚ) (raw : List FatVertex)
    (h : collectFatVertices inp isoValue = some raw) :
    ∃ tris, (∀ t ∈ tris, EmittedByKernel t) ∧ raw = unpack tris := by
  have hnil : ∀ t ∈ ([] : List (vec3f × vec3f × vec3f)), EmittedByKernel t := by simp
  have happ : ∀ a b : List (vec3f × vec3f × vec3f), (∀ t ∈ a, EmittedByKernel t) →
      (∀ t ∈ b, EmittedByKernel t) → ∀ t ∈ a ++ b, EmittedByKernel t := by
    intro a b ha hb t ht
    rcases List.mem_append.mp ht with h | h
    · exact ha t h
    · exact hb t h
  rw [collect_single_pass] at h
  cases h1 : doIsoSurfaceTets [] inp 0 inp.tets.length isoValue with
  | none => simp [h1] at h
  | some r1 =>
    simp only [h1, Option.some_bind] at h
    obtain ⟨t1, p1, e1⟩ := pass_of_some _ hnil happ inp.tets _
      (fun lv e x hx => processTet_of_some lv inp e isoValue x hx) inp.tets.length [] r1 h1 hnil
    subst e1
    cases h2 : doIsoSurfacePyrs (unpack t1) inp 0 inp.pyrs.length isoValue with
    | none => simp [h2] at h
    | some r2 =>
      simp only [h2, Option.some_bind] at h
      obtain ⟨t2, p2, e2⟩ := pass_of_some _ hnil happ inp.pyrs _
        (fun lv e x hx => processPyr_of_some lv inp e isoValue x hx) inp.pyrs.length t1 r2 h2 p1
      subst e2
      cases h3 : doIsoSurfaceWedges (unpack t2) inp 0 inp.wedges.length isoValue with
      | none => simp [h3] at h
      | some r3 =>
        simp only [h3, Option.some_bind] at h
        obtain ⟨t3, p3, e3⟩ := pass_of_some _ hnil happ inp.wedges _
          (fun lv e x hx => processWedge_of_some lv inp e isoValue x hx) inp.wedges.length t2 r3
          h3 p2
        subst e3
        obtain ⟨t4, p4, e4⟩ := pass_of_some _ hnil happ inp.hexes _
          (fun lv e x hx => processHex_of_some lv inp e isoValue x hx) inp.hexes.length t3 raw
          h p3
        exact ⟨t4, p4, e4⟩

theorem emitted_nonDegenerate (t : vec3f × vec3f × vec3f) (h : EmittedByKernel t) :
    nonDegenerate t = true := by
  obtain ⟨out, c, isoValue, tris, hp, ht⟩ := h
  obtain ⟨_, _, cands, _, _, _, hp2⟩ :=
    process_cell out c.c0 c.c1 c.c2 c.c3 c.c4 c.c5 c.c6 c.c7 isoValue
  have hp3 : process out [c.c0, c.c1, c.c2, c.c3, c.c4, c.c5, c.c6, c.c7] isoValue
      = some (out ++ unpack tris) := hp
  rw [hp2] at hp3
  have hu := List.append_cancel_left (Option.some.inj hp3)
  have ht2 : tris = cands.filter nonDegenerate := by
    rw [← pack_unpack tris, ← hu, pack_unpack]
  rw [ht2] at ht
  exact (List.mem_filter.mp ht).2

theorem triangles_valid (vs : List vec3f) :
    ∀ (tris : List (vec3f × vec3f × vec3f)) (fl : List Int),
      fl.length = (unpack tris).length →
      (∀ (k : Nat) (v : FatVertex), (unpack tris)[k]? = some v →
        ∃ id : Nat, id < vs.length ∧ fl[k]? = some (id : Int) ∧ vs[id]? = some v.pos) →
      (∀ t ∈ tris, nonDegenerate t = true) →
      ∀ t ∈ groupTriangles fl,
        (0 ≤ t.x ∧ t.x < vs.length) ∧ (0 ≤ t.y ∧ t.y < vs.length) ∧
        (0 ≤ t.z ∧ t.z < vs.length) ∧ t.x ≠ t.y ∧ t.x ≠ t.z ∧ t.y ≠ t.z
  | [], fl, hl, _, _, t, ht => by
    have : fl = [] := List.length_eq_zero.mp (by simpa [unpack] using hl)
    subst this
    simp [groupTriangles] at ht
  | tr :: tris, fl, hl, hlook, hnd, t, ht => by
    match fl, hl, hlook, ht with
    | [], hl, _, _ => simp [unpack, cornersOf] at hl
    | [_], hl, _, _ => simp [unpack, cornersOf] at hl
    | [_, _], hl, _, _ => simp [unpack, cornersOf] at hl
    | a :: b :: c :: rest, hl, hlook, ht =>
      simp only [groupTriangles, List.mem_cons] at ht
      rcases ht with ht | ht
      · subst ht
        obtain ⟨i0, l0, f0, p0⟩ := hlook 0 ⟨tr.1, 0⟩ (by simp [unpack, cornersOf])
        obtain ⟨i1, l1, f1, p1⟩ := hlook 1 ⟨tr.2.1, 0⟩ (by simp [unpack, cornersOf])
        obtain ⟨i2, l2, f2, p2⟩ := hlook 2 ⟨tr.2.2, 0⟩ (by simp [unpack, cornersOf])
        simp only [List.getElem?_cons_zero, List.getElem?_cons_succ, Option.some.injEq] at f0 f1 f2
        subst f0 f1 f2
        have hn := hnd tr (List.mem_cons_self _ _)
        simp only [nonDegenerate, decide_eq_true_eq] at hn
        simp only at p0 p1 p2
        dsimp only
        refine ⟨⟨by omega, by omega⟩, ⟨by omega, by omega⟩, ⟨by omega, by omega⟩, ?_, ?_, ?_⟩
        · intro e
          have e2 : i0 = i1 := by exact_mod_cast e
          rw [e2, p1] at p0
          exact hn.1 (Option.some.inj p0)
        · intro e
          have e2 : i0 = i2 := by exact_mod_cast e
          rw [e2, p2] at p0
          exact hn.2.1 (Option.some.inj p0)
        · intro e
          have e2 : i1 = i2 := by exact_mod_cast e
          rw [e2, p2] at p1
          exact hn.2.2 (Option.some.inj p1).symm
      · refine triangles_valid vs tris rest ?_ ?_ (fun u hu => hnd u (List.mem_cons_of_mem _ hu))
          t ht
        · simp only [unpack, cornersOf, List.length_cons, List.length_append, List.length_nil]
            at hl
          omega
        · intro k v hk
          obtain ⟨id, h1, h2, h3⟩ := hlook (k + 3) v (by simpa [unpack, cornersOf] using hk)
          exact ⟨id, h1, by simpa using h2, h3⟩

/-- Valid triangles below `2^31` corners: when fewer than `2^31` raw corners
are collected from a mesh, the three indices of every triangle of the merged
mesh are at least 0 and below the number of vertices, and they are pairwise
different. -/
theorem valid_triangles (bits : ℚ → ℕ) (mesh : UMesh) (isoValue : ℚ) (raw : List FatVertex)
    (out : UMesh) (hc : collectFatVertices mesh isoValue = some raw)
    (hlt : raw.length < 2 ^ 31) (hb : buildIndexedMesh bits raw = .ok out) :
    ∀ t ∈ out.triangles,
      (0 ≤ t.x ∧ t.x < out.vertices.length) ∧ (0 ≤ t.y ∧ t.y < out.vertices.length) ∧
      (0 ≤ t.z ∧ t.z < out.vertices.length) ∧ t.x ≠ t.y ∧ t.x ≠ t.z ∧ t.y ≠ t.z := by
  obtain ⟨tris, hem, hraw⟩ := collect_of_some mesh isoValue raw hc
  subst hraw
  obtain ⟨vs, fl, hb2, hlen, _, hlook⟩ := buildIndexedMesh_spec bits (unpack tris)
    (by rw [unpack_length]; omega) hlt
  rw [hb] at hb2
  injection hb2 with hb2
  subst hb2
  exact triangles_valid vs tris fl hlen hlook (fun t ht => emitted_nonDegenerate t (hem t ht))

/-- Every id handed out by the scan is written at the slot of the corner that
started it. -/
theorem scanPure_covers : ∀ (rest : List FatVertex) (prev : Option vec3f) (n : Nat)
    (vs : List vec3f) (fl : List Int),
    (∀ v ∈ rest, v.idx < fl.length) → (rest.map FatVertex.idx).Nodup →
    ∀ id : Nat, n ≤ id → id < n + countUnique prev rest →
      ∃ v ∈ rest, (scanPure prev n vs fl rest).2[v.idx]? = some (id : Int)
  | [], _, _, _, _, _, _, id, h1, h2 => by
    simp only [countUnique] at h2
    omega
  | w :: rest, prev, n, vs, fl, hfl, hnd, id, h1, h2 => by
    have hw : w.idx < fl.length := hfl w (List.mem_cons_self _ _)
    have hrest : ∀ u ∈ rest, u.idx < fl.length := fun u hu => hfl u (List.mem_cons_of_mem _ hu)
    simp only [List.map_cons, List.nodup_cons, List.mem_map, not_exists, not_and] at hnd
    have hwne : ∀ u ∈ rest, u.idx ≠ w.idx := fun u hu => hnd.1 u hu
    cases hs : startsVertex prev w.pos with
    | true =>
      simp only [countUnique, hs, if_true] at h2
      simp only [scanPure, hs, if_true]
      by_cases hid : id = n
      · subst hid
        refine ⟨w, List.mem_cons_self _ _, ?_⟩
        rw [scanPure_flat_frame rest _ _ _ _ w.idx hwne]
        simp [List.getElem?_set_self, hw]
      · obtain ⟨v, hv, hflat⟩ := scanPure_covers rest (some w.pos) (n + 1) (vs.set n w.pos)
          (fl.set w.idx (n : Int)) (by simpa using hrest) hnd.2 id (by omega) (by omega)
        exact ⟨v, List.mem_cons_of_mem _ hv, hflat⟩
    | false =>
      simp only [countUnique, hs, Bool.false_eq_true, if_false, Nat.zero_add] at h2
      simp only [scanPure, hs, Bool.false_eq_true, if_false]
      obtain ⟨v, hv, hflat⟩ := scanPure_covers rest (some w.pos) n vs
        (fl.set w.idx ((n : Int) - 1)) (by simpa using hrest) hnd.2 id h1 h2
      exact ⟨v, List.mem_cons_of_mem _ hv, hflat⟩

/-- The merge on a buffer of whole triangles writes every vertex id somewhere
in the flat index array. -/
theorem buildIndexedMesh_covers (bits : ℚ → ℕ) (raw : List FatVertex)
    (h3 : raw.length % 3 = 0) (hlt : raw.length < 2 ^ 31) :
    ∃ vs fl, buildIndexedMesh bits raw
        = .ok { UMesh.empty with vertices := vs, triangles := groupTriangles fl } ∧
      fl.length = raw.length ∧
      ∀ id : Nat, id < vs.length → ∃ k : Nat, fl[k]? = some (id : Int) := by
  have hperm := sort_perm (FatVertexCompare bits) (assignSlots 0 raw)
  have hlen : 3 * (raw.length / 3) = raw.length := by omega
  have hfl : ∀ v ∈ sort (FatVertexCompare bits) (assignSlots 0 raw),
      v.idx < (List.replicate (3 * (raw.length / 3)) (0 : Int)).length := by
    intro v hv
    have := assignSlots_idx_lt 0 raw v (hperm.mem_iff.mp hv)
    simp only [List.length_replicate]
    omega
  have hvs : 0 + countUnique none (sort (FatVertexCompare bits) (assignSlots 0 raw))
      = (List.replicate (countUnique none (sort (FatVertexCompare bits) (assignSlots 0 raw)))
          (⟨0, 0, 0⟩ : vec3f)).length := by
    simp
  have hscan := scanLoop_eq_pure _ none 0 _ _ hfl (le_of_eq hvs)
  have hnd : ((sort (FatVertexCompare bits) (assignSlots 0 raw)).map FatVertex.idx).Nodup :=
    (hperm.map FatVertex.idx).nodup_iff.mpr (assignSlots_nodup 0 raw)
  have hlens := scanPure_length (sort (FatVertexCompare bits) (assignSlots 0 raw)) none 0
    (List.replicate (countUnique none (sort (FatVertexCompare bits) (assignSlots 0 raw)))
      (⟨0, 0, 0⟩ : vec3f))
    (List.replicate (3 * (raw.length / 3)) (0 : Int))
  refine ⟨(scanPure none 0
      (List.replicate (countUnique none (sort (FatVertexCompare bits) (assignSlots 0 raw)))
        (⟨0, 0, 0⟩ : vec3f))
      (List.replicate (3 * (raw.length / 3)) (0 : Int))
      (sort (FatVertexCompare bits) (assignSlots 0 raw))).1,
    (scanPure none 0
      (List.replicate (countUnique none (sort (FatVertexCompare bits) (assignSlots 0 raw)))
        (⟨0, 0, 0⟩ : vec3f))
      (List.replicate (3 * (raw.length / 3)) (0 : Int))
      (sort (FatVertexCompare bits) (assignSlots 0 raw))).2, ?_, ?_, ?_⟩
  · have e : (-1 : Int) = ((0 : Nat) : Int) - 1 := by simp
    rw [buildIndexedMesh_small bits raw hlt, e, hscan]
  · rw [hlens.2, List.length_replicate, hlen]
  · intro id hid
    rw [hlens.1, List.length_replicate] at hid
    obtain ⟨v, _, hflat⟩ := scanPure_covers _ none 0
      (List.replicate (countUnique none (sort (FatVertexCompare bits) (assignSlots 0 raw)))
        (⟨0, 0, 0⟩ : vec3f))
      (List.replicate (3 * (raw.length / 3)) (0 : Int)) hfl hnd id (Nat.zero_le _)
      (by omega)
    exact ⟨v.idx, hflat⟩

theorem groupTriangles_covers : ∀ fl : List Int, fl.length % 3 = 0 →
    ∀ (k : Nat) (x : Int), fl[k]? = some x →
      ∃ t ∈ groupTriangles fl, t.x = x ∨ t.y = x ∨ t.z = x
  | [], _, k, x, h => by simp at h
  | [_], h3, _, _, _ => by simp at h3
  | [_, _], h3, _, _, _ => by simp at h3
  | a :: b :: c :: rest, h3, k, x, h => by
    have h3r : rest.length % 3 = 0 := by
      simp only [List.length_cons] at h3
      omega
    match k, h with
    | 0, h =>
      simp only [List.getElem?_cons_zero, Option.some.injEq] at h
      exact ⟨⟨a, b, c⟩, by simp [groupTriangles], Or.inl h⟩
    | 1, h =>
      simp only [List.getElem?_cons_succ, List.getElem?_cons_zero, Option.some.injEq] at h
      exact ⟨⟨a, b, c⟩, by simp [groupTriangles], Or.inr (Or.inl h)⟩
    | 2, h =>
      simp only [List.getElem?_cons_succ, List.getElem?_cons_zero, Option.some.injEq] at h
      exact ⟨⟨a, b, c⟩, by simp [groupTriangles], Or.inr (Or.inr h)⟩
    | k + 3, h =>
      simp only [List.getElem?_cons_succ] at h
      obtain ⟨t, ht, hx⟩ := groupTriangles_covers rest h3r k x h
      exact ⟨t, by simp [groupTriangles, ht], hx⟩

/-- No orphan vertices below `2^31` corners: when fewer than `2^31` raw corners
are collected from a mesh, every vertex index of the merged mesh is the first,
second or third index of some triangle. -/
theorem no_orphan_vertices (bits : ℚ → ℕ) (mesh : UMesh) (isoValue : ℚ)
    (raw : List FatVertex) (out : UMesh) (hc : collectFatVertices mesh isoValue = some raw)
    (hlt : raw.length < 2 ^ 31) (hb : buildIndexedMesh bits raw = .ok out) :
    ∀ id : Nat, id < out.vertices.length →
      ∃ t ∈ out.triangles, t.x = (id : Int) ∨ t.y = (id : Int) ∨ t.z = (id : Int) := by
  obtain ⟨tris, _, hraw⟩ := collect_of_some mesh isoValue raw hc
  subst hraw
  have h3 : (unpack tris).length % 3 = 0 := by rw [unpack_length]; omega
  obtain ⟨vs, fl, hb2, hlen, hcov⟩ := buildIndexedMesh_covers bits (unpack tris) h3 hlt
  rw [hb] at hb2
  injection hb2 with hb2
  subst hb2
  intro id hid
  obtain ⟨k, hk⟩ := hcov id hid
  exact groupTriangles_covers fl (by rw [hlen]; exact h3) k _ hk

theorem posBytes_antisymm (bits : ℚ → ℕ) (hbits : Function.Injective bits) (p q : vec3f)
    (hpq : memcmp (posBytes bits p) (posBytes bits q) ≤ 0)
    (hqp : memcmp (posBytes bits q) (posBytes bits p) ≤ 0) : p = q := by
  rw [memcmp_swap] at hqp
  exact posBytes_injective bits hbits p q
    (memcmp_eq_zero _ _ (by rw [posBytes_length, posBytes_length]) (by omega))

/-- The positions that start a vertex in a buffer sorted by position bytes are
strictly increasing in the order of the position bytes. -/
theorem newPositions_strict (bits : ℚ → ℕ) (hbits : Function.Injective bits) :
    ∀ (l : List FatVertex) (prev : Option vec3f),
      l.Pairwise (fun a b => memcmp (posBytes bits a.pos) (posBytes bits b.pos) ≤ 0) →
      (newPositions prev l).Pairwise
        (fun p q => memcmp (posBytes bits p) (posBytes bits q) < 0)
  | [], _, _ => by simp [newPositions]
  | v :: l, prev, hp => by
    have hpw := List.pairwise_cons.mp hp
    have ih := newPositions_strict bits hbits l (some v.pos) hpw.2
    unfold newPositions
    split
    · refine List.pairwise_cons.mpr ⟨?_, ih⟩
      intro q hq
      obtain ⟨w, hw, rfl⟩ := List.mem_map.mp (newPositions_subset l _ q hq)
      have hle := hpw.1 w hw
      have hnot := (newPositions_nodup
        (fun p q => memcmp (posBytes bits p) (posBytes bits q) ≤ 0)
        (posBytes_antisymm bits hbits) l (some v.pos) hpw.2
        (by
          intro p hp' u hu
          simp only [Option.some.injEq] at hp'
          subst hp'
          exact hpw.1 u hu)).2 v.pos rfl
      rcases lt_or_eq_of_le hle with hlt | heq
      · exact hlt
      · exfalso
        have hpos : v.pos = w.pos := posBytes_injective bits hbits _ _
          (memcmp_eq_zero _ _ (by rw [posBytes_length, posBytes_length]) heq)
        rw [← hpos] at hq
        exact hnot hq
    · exact ih

theorem buildIndexedMesh_strict (bits : ℚ → ℕ) (hbits : Function.Injective bits)
    (raw : List FatVertex) (h3 : raw.length % 3 = 0) (hlt : raw.length < 2 ^ 31) :
    ∃ out, buildIndexedMesh bits raw = .ok out ∧
      out.vertices.Pairwise (fun p q => memcmp (posBytes bits p) (posBytes bits q) < 0) ∧
      ∀ p, p ∈ out.vertices ↔ p ∈ raw.map FatVertex.pos := by
  obtain ⟨out, hb, _, _, hmem⟩ := buildIndexedMesh_dedup bits hbits raw h3 hlt
  obtain ⟨vs, fl, hb2, _, hvs, _⟩ := buildIndexedMesh_spec bits raw h3 hlt
  refine ⟨out, hb, ?_, hmem⟩
  rw [hb] at hb2
  injection hb2 with hb2
  subst hb2
  show vs.Pairwise _
  rw [hvs]
  exact newPositions_strict bits hbits _ none (sort_positions_pairwise bits _)

theorem strict_unique (bits : ℚ → ℕ) (vs vs2 : List vec3f)
    (h1 : vs.Pairwise (fun p q => memcmp (posBytes bits p) (posBytes bits q) < 0))
    (h2 : vs2.Pairwise (fun p q => memcmp (posBytes bits p) (posBytes bits q) < 0))
    (hmem : ∀ p, p ∈ vs ↔ p ∈ vs2) : vs = vs2 := by
  have hirr : ∀ p : vec3f, ¬ memcmp (posBytes bits p) (posBytes bits p) < 0 := by
    intro p
    rw [memcmp_self]
    exact lt_irrefl 0
  have hne : ∀ a b : vec3f, memcmp (posBytes bits a) (posBytes bits b) < 0 → a ≠ b := by
    intro a b hab e
    rw [e] at hab
    exact hirr b hab
  have hn1 : vs.Nodup := List.Pairwise.imp (fun {a b} hab => hne a b hab) h1
  have hn2 : vs2.Nodup := List.Pairwise.imp (fun {a b} hab => hne a b hab) h2
  have hperm : vs.Perm vs2 := (List.perm_ext_iff_of_nodup hn1 hn2).mpr hmem
  haveI : IsAntisymm vec3f (fun p q => memcmp (posBytes bits p) (posBytes bits q) < 0) :=
    ⟨fun p q hpq hqp => by
      rw [memcmp_swap] at hqp
      omega⟩
  exact List.eq_of_perm_of_sorted hperm h1 h2

theorem inThrees_flatMap {α : Type} : ∀ l : List α, l.length % 3 = 0 →
    (inThrees l).flatMap (fun t => [t.1, t.2.1, t.2.2]) = l
  | [], _ => rfl
  | [_], h => by simp at h
  | [_, _], h => by simp at h
  | a :: b :: c :: rest, h => by
    have h3 : rest.length % 3 = 0 := by
      simp only [List.length_cons] at h
      omega
    simp [inThrees, inThrees_flatMap rest h3]

theorem perm_of_inThrees {α : Type} (l l2 : List α) (h3 : l.length % 3 = 0)
    (h32 : l2.length % 3 = 0) (h : (inThrees l).Perm (inThrees l2)) : l.Perm l2 := by
  rw [← inThrees_flatMap l h3, ← inThrees_flatMap l2 h32]
  exact h.flatMap_right _

/-- The vertex array below `2^31` corners, where different `float` values have
different bit patterns: it is strictly increasing in the order that the
comparator puts on positions (`memcmp` on the 12 position bytes), so two
buffers whose corner positions are a reordering of each other are merged into
the identical vertex array. -/
theorem canonical_vertices (bits : ℚ → ℕ) (hbits : Function.Injective bits) :
    (∀ raw : List FatVertex, raw.length % 3 = 0 → raw.length < 2 ^ 31 →
      ∃ out, buildIndexedMesh bits raw = .ok out ∧
        out.vertices.Pairwise (fun p q => memcmp (posBytes bits p) (posBytes bits q) < 0)) ∧
    (∀ raw raw2 : List FatVertex, raw.length % 3 = 0 → raw2.length % 3 = 0 →
      raw.length < 2 ^ 31 → raw2.length < 2 ^ 31 →
      (raw.map FatVertex.pos).Perm (raw2.map FatVertex.pos) →
      ∃ out out2, buildIndexedMesh bits raw = .ok out ∧
        buildIndexedMesh bits raw2 = .ok out2 ∧ out.vertices = out2.vertices) := by
  constructor
  · intro raw h3 hlt
    obtain ⟨out, hb, hs, _⟩ := buildIndexedMesh_strict bits hbits raw h3 hlt
    exact ⟨out, hb, hs⟩
  · intro raw raw2 h3 h32 hlt hlt2 hperm
    obtain ⟨out, hb, hs, hm⟩ := buildIndexedMesh_strict bits hbits raw h3 hlt
    obtain ⟨out2, hb2, hs2, hm2⟩ := buildIndexedMesh_strict bits hbits raw2 h32 hlt2
    refine ⟨out, out2, hb, hb2, strict_unique bits _ _ hs hs2 ?_⟩
    intro p
    rw [hm, hm2]
    exact hperm.mem_iff

/-! ## The importer's command line -/

theorem usage_of_ne {α : Type} (error : String) (h : error ≠ "") :
    (usage error : Except Stop α) = .error (.exit 1 error) := by
  simp [usage, h]

theorem unknown_arg_ne (arg : String) : "unknown cmd-line arg '" ++ arg ++ "'" ≠ "" := by
  intro h
  have hl := congrArg String.length h
  simp only [String.length_append] at hl
  have h0 : ("" : String).length = 0 := rfl
  have h1 : ("unknown cmd-line arg '" : String).length = 22 := by decide
  omega

theorem firstChar_dash_h : firstChar "-h" = '-' := by decide

theorem firstChar_dash_o : firstChar "-o" = '-' := by decide

theorem fileNameArgs_cons_name (arg : String) (rest : List String) (h2 : arg ≠ "-o")
    (h3 : firstChar arg ≠ '-') : fileNameArgs (arg :: rest) = arg :: fileNameArgs rest := by
  conv_lhs => unfold fileNameArgs
  simp only [h2, h3, if_false]

theorem outputArgs_cons_other (arg : String) (rest : List String) (h2 : arg ≠ "-o") :
    outputArgs (arg :: rest) = outputArgs rest := by
  conv_lhs => unfold outputArgs
  simp only [h2, if_false]

/-- What the argument loop returns when it reads all arguments: each name is
the one it started with or comes from the command line. -/
theorem parseArgs_ok : ∀ (args : List String) (names r : FileNames),
    parseArgs args names = .ok r →
      (r.ugridFileName = names.ugridFileName ∨ r.ugridFileName ∈ fileNameArgs args) ∧
      (r.scalarsFileName = names.scalarsFileName ∨ r.scalarsFileName ∈ fileNameArgs args) ∧
      (r.outFileName = names.outFileName ∨ r.outFileName ∈ outputArgs args)
  | [], names, r, h => by
    simp only [parseArgs, Except.ok.injEq] at h
    subst h
    simp
  | arg :: rest, names, r, h => by
    by_cases h1 : arg = "-h"
    · unfold parseArgs at h
      simp [h1, usage] at h
    · by_cases h2 : arg = "-o"
      · subst h2
        cases rest with
        | nil =>
          unfold parseArgs at h
          simp at h
        | cons value rest2 =>
          unfold parseArgs at h
          simp only [h1, if_false, if_true] at h
          obtain ⟨a, b, c⟩ := parseArgs_ok rest2 _ r h
          simp only [fileNameArgs, outputArgs, if_true, List.mem_cons]
          refine ⟨a, b, ?_⟩
          rcases c with c | c
          · exact Or.inr (Or.inl c)
          · exact Or.inr (Or.inr c)
      · by_cases h3 : firstChar arg = '-'
        · unfold parseArgs at h
          simp [h1, h2, h3, usage] at h
        · unfold parseArgs at h
          simp only [h1, h2, if_false, ne_eq, h3, not_false_eq_true, if_true] at h
          rw [fileNameArgs_cons_name arg rest h2 h3, outputArgs_cons_other arg rest h2]
          simp only [List.mem_cons]
          split at h
          · obtain ⟨a, b, c⟩ := parseArgs_ok rest _ r h
            refine ⟨?_, ?_, c⟩
            · rcases a with a | a
              · exact Or.inr (Or.inl a)
              · exact Or.inr (Or.inr a)
            · rcases b with b | b
              · exact Or.inl b
              · exact Or.inr (Or.inr b)
          · split at h
            · obtain ⟨a, b, c⟩ := parseArgs_ok rest _ r h
              refine ⟨?_, ?_, c⟩
              · rcases a with a | a
                · exact Or.inl a
                · exact Or.inr (Or.inr a)
              · rcases b with b | b
                · exact Or.inr (Or.inl b)
                · exact Or.inr (Or.inr b)
            · simp [usage] at h

/-- How the argument loop stops early: with exit status 1 and an error
message, with exit status 0 and no message at a `-h`, or at a `-o` that is
the last argument. -/
theorem parseArgs_stop : ∀ (args : List String) (names : FileNames) (stop : Stop),
    parseArgs args names = .error stop →
      (∃ msg, msg ≠ "" ∧ stop = .exit 1 msg) ∨ (stop = .exit 0 "" ∧ "-h" ∈ args) ∨
        (stop = .null_argument ∧ args.getLast? = some "-o")
  | [], names, stop, h => by simp [parseArgs] at h
  | arg :: rest, names, stop, h => by
    have lift : ∀ (l : List String),
        ((∃ msg, msg ≠ "" ∧ stop = .exit 1 msg) ∨ (stop = .exit 0 "" ∧ "-h" ∈ l) ∨
          (stop = .null_argument ∧ l.getLast? = some "-o")) → l ≠ [] →
        (∀ x ∈ l, x ∈ arg :: rest) → (arg :: rest).getLast? = l.getLast? →
        ((∃ msg, msg ≠ "" ∧ stop = .exit 1 msg) ∨ (stop = .exit 0 "" ∧ "-h" ∈ arg :: rest) ∨
          (stop = .null_argument ∧ (arg :: rest).getLast? = some "-o")) := by
      intro l hl _ hsub hlast
      rcases hl with hl | hl | hl
      · exact Or.inl hl
      · exact Or.inr (Or.inl ⟨hl.1, hsub _ hl.2⟩)
      · exact Or.inr (Or.inr ⟨hl.1, by rw [hlast]; exact hl.2⟩)
    by_cases h1 : arg = "-h"
    · unfold parseArgs at h
      simp only [h1, if_true, usage, Except.error.injEq] at h
      subst h
      exact Or.inr (Or.inl ⟨by decide, by simp [h1]⟩)
    · by_cases h2 : arg = "-o"
      · subst h2
        cases rest with
        | nil =>
          unfold parseArgs at h
          simp only [h1, if_false, if_true, Except.error.injEq] at h
          subst h
          exact Or.inr (Or.inr ⟨rfl, rfl⟩)
        | cons value rest2 =>
          unfold parseArgs at h
          simp only [h1, if_false, if_true] at h
          have ih := parseArgs_stop rest2 _ stop h
          cases rest2 with
          | nil => simp [parseArgs] at h
          | cons x rest3 =>
            exact lift (x :: rest3) ih (by simp) (fun y hy => by simp at hy ⊢; tauto)
              (by simp [List.getLast?_cons_cons])
      · by_cases h3 : firstChar arg = '-'
        · unfold parseArgs at h
          simp only [h1, h2, if_false, ne_eq, h3, not_true_eq_false] at h
          rw [usage_of_ne _ (unknown_arg_ne arg)] at h
          simp only [Except.error.injEq] at h
          subst h
          exact Or.inl ⟨_, unknown_arg_ne arg, rfl⟩
        · unfold parseArgs at h
          simp only [h1, h2, if_false, ne_eq, h3, not_false_eq_true, if_true] at h
          have hrest : ∀ names2, parseArgs rest names2 = .error stop →
              ((∃ msg, msg ≠ "" ∧ stop = .exit 1 msg) ∨
                (stop = .exit 0 "" ∧ "-h" ∈ arg :: rest) ∨
                (stop = .null_argument ∧ (arg :: rest).getLast? = some "-o")) := by
            intro names2 hn
            have ih := parseArgs_stop rest names2 stop hn
            cases rest with
            | nil => simp [parseArgs] at hn
            | cons x rest3 =>
              exact lift (x :: rest3) ih (by simp) (fun y hy => by simp at hy ⊢; tauto)
                (by simp [List.getLast?_cons_cons])
          split at h
          · exact hrest _ h
          · split at h
            · exact hrest _ h
            · rw [usage_of_ne _ (by decide)] at h
              simp only [Except.error.injEq] at h
              subst h
              exact Or.inl ⟨_, by decide, rfl⟩

theorem importMain_ok (args : List String) (names : FileNames)
    (h : importMain args = .ok names) :
    names.ugridFileName ≠ "" ∧ names.outFileName ≠ "" ∧
      names.ugridFileName ∈ fileNameArgs args ∧ names.outFileName ∈ outputArgs args ∧
      (names.scalarsFileName = "" ∨ names.scalarsFileName ∈ fileNameArgs args) := by
  unfold importMain at h
  cases hp : parseArgs args ⟨"", "", ""⟩ with
  | error stop => simp [hp] at h
  | ok r =>
    simp only [hp] at h
    obtain ⟨a, b, c⟩ := parseArgs_ok args _ r hp
    by_cases hu : r.ugridFileName = ""
    · simp [hu, usage] at h
    · by_cases ho : r.outFileName = ""
      · simp [hu, ho, usage] at h
      · simp only [hu, ho, if_false, Except.ok.injEq] at h
        subst h
        refine ⟨hu, ho, ?_, ?_, b⟩
        · rcases a with a | a
          · exact absurd a hu
          · exact a
        · rcases c with c | c
          · exact absurd c ho
          · exact c

theorem importMain_stop (args : List String) (stop : Stop)
    (h : importMain args = .error stop) :
    (∃ msg, msg ≠ "" ∧ stop = .exit 1 msg) ∨ (stop = .exit 0 "" ∧ "-h" ∈ args) ∨
      (stop = .null_argument ∧ args.getLast? = some "-o") := by
  unfold importMain at h
  cases hp : parseArgs args ⟨"", "", ""⟩ with
  | error stop2 =>
    simp only [hp, Except.error.injEq] at h
    subst h
    exact parseArgs_stop args _ _ hp
  | ok r =>
    simp only [hp] at h
    by_cases hu : r.ugridFileName = ""
    · simp only [hu, if_true] at h
      rw [usage_of_ne _ (by decide)] at h
      simp only [Except.error.injEq] at h
      exact Or.inl ⟨_, by decide, h.symm⟩
    · by_cases ho : r.outFileName = ""
      · simp only [hu, ho, if_false, if_true] at h
        rw [usage_of_ne _ (by decide)] at h
        simp only [Except.error.injEq] at h
        exact Or.inl ⟨_, by decide, h.symm⟩
      · simp [hu, ho] at h

theorem importMain_missing (args : List String)
    (h : fileNameArgs args = [] ∨ outputArgs args = []) :
    ∃ stop, importMain args = .error stop := by
  cases hm : importMain args with
  | error stop => exact ⟨stop, rfl⟩
  | ok names =>
    obtain ⟨_, _, hu, ho, _⟩ := importMain_ok args names hm
    rcases h with h | h
    · rw [h] at hu
      cases hu
    · rw [h] at ho
      cases ho

theorem importMain_help (rest : List String) :
    importMain ("-h" :: rest) = .error (.exit 0 "") := by
  unfold importMain parseArgs
  rfl

/-- C28, amended. Importer command line: the importer requires an input ugrid
file name and `-o` followed by an output file name, while the scalars file
name is optional. The loader is reached only with a non-empty ugrid file name
and a non-empty output name, both taken from the command line, and the
scalars name may be empty: a command line of one file name and `-o` with a
name reaches the loader with an empty scalars name. For every argument list
that contains no `-h` and does not end with `-o`, and that has no file name
or no `-o` followed by a name, parsing ends in a usage error with exit status
1 and an error message, before the loader is called. An argument list that
starts with `-h` ends with exit status 0. -/
theorem C28_importer_command_line :
    (∀ (args : List String) (names : FileNames), importMain args = .ok names →
      names.ugridFileName ≠ "" ∧ names.outFileName ≠ "" ∧
        names.ugridFileName ∈ fileNameArgs args ∧ names.outFileName ∈ outputArgs args ∧
        (names.scalarsFileName = "" ∨ names.scalarsFileName ∈ fileNameArgs args)) ∧
    (∀ ugrid out : String, ugrid ≠ "" → firstChar ugrid ≠ '-' → out ≠ "" →
      fileNameArgs [ugrid, "-o", out] = [ugrid] ∧
        importMain [ugrid, "-o", out] = .ok ⟨ugrid, "", out⟩) ∧
    (∀ args : List String, fileNameArgs args = [] ∨ outputArgs args = [] → "-h" ∉ args →
      args.getLast? ≠ some "-o" →
      ∃ msg, msg ≠ "" ∧ importMain args = .error (.exit 1 msg)) ∧
    (∀ rest : List String, importMain ("-h" :: rest) = .error (.exit 0 "")) := by
  refine ⟨importMain_ok, ?_, ?_, importMain_help⟩
  · intro ugrid out hu hd ho
    have h1 : ugrid ≠ "-h" := by
      intro e
      rw [e] at hd
      exact hd firstChar_dash_h
    have h2 : ugrid ≠ "-o" := by
      intro e
      rw [e] at hd
      exact hd firstChar_dash_o
    constructor
    · rw [fileNameArgs_cons_name ugrid _ h2 hd]
      simp [fileNameArgs]
    · unfold importMain parseArgs
      simp only [h1, h2, if_false, ne_eq, hd, not_false_eq_true, if_true]
      simp [parseArgs, hu, ho]
  · intro args h hh hl
    obtain ⟨stop, hs⟩ := importMain_missing args h
    rcases importMain_stop args stop hs with ⟨msg, hm, he⟩ | ⟨_, hmem⟩ | ⟨_, hlast⟩
    · exact ⟨msg, hm, by rw [hs, he]⟩
    · exact absurd hmem hh
    · exact absurd hlast hl

/-- Witness of the amended C28: the command line `-o out.umesh` has no file
name; it ends in a usage error with exit status 1. -/
theorem C28_importer_command_line_witness :
    fileNameArgs ["-o", "out.umesh"] = [] ∧
    ∃ msg, msg ≠ "" ∧ importMain ["-o", "out.umesh"] = .error (.exit 1 msg) :=
  ⟨by decide,
    C28_importer_command_line.2.2.1 ["-o", "out.umesh"] (Or.inl (by decide)) (by decide)
      (by decide)⟩

/-- Counterexample to C28 as stated: the command line
`in.ugrid64 -o out.umesh` has one file name only, so the scalars file name is
missing, yet parsing does not end in a usage error: the loader is called with
the ugrid name and an empty scalars name. And the command line `-h`, in which
all three are missing, ends with exit status 0. -/
theorem C28_counterexample :
    fileNameArgs ["in.ugrid64", "-o", "out.umesh"] = ["in.ugrid64"] ∧
    importMain ["in.ugrid64", "-o", "out.umesh"] = .ok ⟨"in.ugrid64", "", "out.umesh"⟩ ∧
    (¬ ∃ status msg,
      importMain ["in.ugrid64", "-o", "out.umesh"] = .error (.exit status msg)) ∧
    fileNameArgs ["-h"] = [] ∧ outputArgs ["-h"] = [] ∧
    importMain ["-h"] = .error (.exit 0 "") := by
  refine ⟨by decide, rfl, ?_, by decide, by decide, rfl⟩
  rintro ⟨status, msg, h⟩
  have h2 : importMain ["in.ugrid64", "-o", "out.umesh"]
      = .ok ⟨"in.ugrid64", "", "out.umesh"⟩ := rfl
  rw [h2] at h
  cases h

/-! ## Triangle groups and the kernel calls that emit them -/

/-- What one kernel call appends, whatever the buffer holds. -/
theorem process_emittedBy (out : List FatVertex) (c : Cell × ℚ) :
    process out c.1.corners c.2 = some (out ++ unpack (emittedBy c)) := by
  obtain ⟨tris, _, h⟩ := process_emits [] c.1 c.2
  have he : emittedBy c = tris := by
    simp only [emittedBy, h, Option.getD_some, List.nil_append, pack_unpack]
  rw [process_append, h, he]
  rfl

/-- After a sequence of kernel calls the buffer is what it held before,
followed by the triangles of the first call, then those of the second, and so
on: every aligned group of three corners is a triangle of the call at whose
place it stands. -/
theorem kernelCalls_groups : ∀ (calls : List (Cell × ℚ)) (buf : List FatVertex),
    kernelCalls calls buf = some (buf ++ unpack (calls.flatMap emittedBy))
  | [], buf => by simp [kernelCalls, unpack]
  | c :: cs, buf => by
    simp only [kernelCalls, process_emittedBy buf c, Option.some_bind,
      kernelCalls_groups cs (buf ++ unpack (emittedBy c)), List.flatMap_cons, unpack_append,
      List.append_assoc]

/-- After a sequence of block appends the shared buffer holds the triangles
of all kernel calls, block after block and call after call. -/
theorem blockAppends_groups : ∀ (blocks : List (List (Cell × ℚ))) (shared : List FatVertex),
    blockAppends blocks shared = some (shared ++ unpack (blocks.flatten.flatMap emittedBy))
  | [], shared => by simp [blockAppends, unpack]
  | blk :: blks, shared => by
    simp only [blockAppends, kernelCalls_groups blk [], List.nil_append, Option.some_bind,
      blockAppends_groups blks (shared ++ unpack (blk.flatMap emittedBy)), List.flatten_cons,
      List.flatMap_append, unpack_append, List.append_assoc]

/-- C13, amended. Pyramid duplication pattern in exact arithmetic: for a
pyramid whose four base corners have pairwise different positions and one
scalar `s`, whose apex has a scalar `s2` different from `s` and from the
iso-value, with the iso-value separating `s` from `s2`, the lifter and the
kernel append exactly two triangles, which up to vertex order are
`(p0,p1,p2)` and `(p0,p2,p3)`, `pᵢ` being the crossing point of the edge from
base corner `vᵢ` to the apex. Each `pᵢ` is the point of that edge at a
parameter `0 ≤ t < 1`, and `t = 0` exactly when `s` equals the iso-value, in
which case `pᵢ` is the base corner `vᵢ` itself. The table row names only the
cell edges 8 to 11, which join a base corner to a copy of the apex: no corner
is interpolated along a base edge. -/
theorem C13_pyramid_pattern (out : List FatVertex) (inp : UMesh) (pyr : Pyr)
    (v0 v1 v2 v3 v4 : vec4f) (s s2 isoValue : ℚ)
    (f0 : fetch inp pyr.i0 = some v0) (f1 : fetch inp pyr.i1 = some v1)
    (f2 : fetch inp pyr.i2 = some v2) (f3 : fetch inp pyr.i3 = some v3)
    (f4 : fetch inp pyr.i4 = some v4)
    (hs0 : v0.w = s) (hs1 : v1.w = s) (hs2 : v2.w = s) (hs3 : v3.w = s) (hs4 : v4.w = s2)
    (hne : s2 ≠ s) (hiso : s2 ≠ isoValue)
    (hsep : (s > isoValue ∧ s2 ≤ isoValue) ∨ (s2 > isoValue ∧ s ≤ isoValue))
    (d01 : v0.pos ≠ v1.pos) (d02 : v0.pos ≠ v2.pos) (d03 : v0.pos ≠ v3.pos)
    (d12 : v1.pos ≠ v2.pos) (d13 : v1.pos ≠ v3.pos) (d23 : v2.pos ≠ v3.pos) :
    ∃ t1 t2, processPyr out inp pyr isoValue = some (out ++ cornersOf t1 ++ cornersOf t2) ∧
      [t1.1, t1.2.1, t1.2.2].Perm [interpolate v0 v4 isoValue, interpolate v1 v4 isoValue,
        interpolate v2 v4 isoValue] ∧
      [t2.1, t2.2.1, t2.2.2].Perm [interpolate v0 v4 isoValue, interpolate v2 v4 isoValue,
        interpolate v3 v4 isoValue] ∧
      (∀ v ∈ [v0, v1, v2, v3], 0 ≤ tParam v v4 isoValue ∧ tParam v v4 isoValue < 1 ∧
        interpolate v v4 isoValue = lerpAt (tParam v v4 isoValue) v.pos v4.pos ∧
        (tParam v v4 isoValue = 0 ↔ s = isoValue) ∧
        (s = isoValue → interpolate v v4 isoValue = v.pos)) ∧
      (∃ code row, caseIndex [v0, v1, v2, v3, v4, v4, v4, v4] isoValue = some code ∧
        vtkMarchingCubesTriangleCases[code]? = some row ∧
        ∀ e ∈ row, e = -1 ∨ (8 ≤ e ∧ e ≤ 11)) ∧
      ([8, 9, 10, 11] : List Int).map (getInt? vtkMarchingCubes_edges)
        = [some [0, 4], some [1, 5], some [3, 7], some [2, 6]] := by
  obtain ⟨t1, t2, hrun, hp1, hp2, hcorners, hrow, hedges⟩ :=
    pyramid_pattern out inp pyr v0 v1 v2 v3 v4 s s2 isoValue f0 f1 f2 f3 f4 hs0 hs1 hs2 hs3 hs4
      hne hiso hsep d01 d02 d03 d12 d13 d23
  refine ⟨t1, t2, hrun, hp1, hp2, ?_, hrow, hedges⟩
  intro v hv
  obtain ⟨h0, h1, hl⟩ := hcorners v hv
  have hw : v.w = s := by
    simp only [List.mem_cons, List.mem_singleton, List.not_mem_nil, or_false] at hv
    rcases hv with rfl | rfl | rfl | rfl <;> assumption
  have hT : tParam v v4 isoValue = (isoValue - s) / (s2 - s) := by
    simp only [tParam, hw, hs4, if_neg hne]
  have hd : s2 - s ≠ 0 := sub_ne_zero.mpr hne
  have hz : tParam v v4 isoValue = 0 ↔ s = isoValue := by
    rw [hT, div_eq_zero_iff]
    constructor
    · rintro (h | h)
      · linarith
      · exact absurd h hd
    · intro h
      exact Or.inl (by linarith)
  refine ⟨h0, h1, hl, hz, ?_⟩
  intro h
  rw [hl, hz.mpr h]
  simp [lerpAt, vec4f.pos]

/-- Witness of the amended C13: the pyramid of `pyrMesh` (base scalar 0, apex
scalar 2) at iso-value 1. -/
theorem C13_pyramid_pattern_witness :
    ∃ t1 t2, processPyr [] pyrMesh ⟨0, 1, 2, 3, 4⟩ 1 = some ([] ++ cornersOf t1 ++ cornersOf t2) ∧
      [t1.1, t1.2.1, t1.2.2].Perm [interpolate ⟨0, 0, 0, 0⟩ ⟨1, 1, 2, 2⟩ 1,
        interpolate ⟨2, 0, 0, 0⟩ ⟨1, 1, 2, 2⟩ 1, interpolate ⟨2, 2, 0, 0⟩ ⟨1, 1, 2, 2⟩ 1] ∧
      [t2.1, t2.2.1, t2.2.2].Perm [interpolate ⟨0, 0, 0, 0⟩ ⟨1, 1, 2, 2⟩ 1,
        interpolate ⟨2, 2, 0, 0⟩ ⟨1, 1, 2, 2⟩ 1, interpolate ⟨0, 2, 0, 0⟩ ⟨1, 1, 2, 2⟩ 1] ∧
      (∀ v ∈ [(⟨0, 0, 0, 0⟩ : vec4f), ⟨2, 0, 0, 0⟩, ⟨2, 2, 0, 0⟩, ⟨0, 2, 0, 0⟩],
        0 ≤ tParam v ⟨1, 1, 2, 2⟩ 1 ∧ tParam v ⟨1, 1, 2, 2⟩ 1 < 1 ∧
        interpolate v ⟨1, 1, 2, 2⟩ 1
          = lerpAt (tParam v ⟨1, 1, 2, 2⟩ 1) v.pos (⟨1, 1, 2, 2⟩ : vec4f).pos ∧
        (tParam v ⟨1, 1, 2, 2⟩ 1 = 0 ↔ (0 : ℚ) = 1) ∧
        ((0 : ℚ) = 1 → interpolate v ⟨1, 1, 2, 2⟩ 1 = v.pos)) ∧
      (∃ code row, caseIndex [(⟨0, 0, 0, 0⟩ : vec4f), ⟨2, 0, 0, 0⟩, ⟨2, 2, 0, 0⟩, ⟨0, 2, 0, 0⟩,
          ⟨1, 1, 2, 2⟩, ⟨1, 1, 2, 2⟩, ⟨1, 1, 2, 2⟩, ⟨1, 1, 2, 2⟩] 1 = some code ∧
        vtkMarchingCubesTriangleCases[code]? = some row ∧
        ∀ e ∈ row, e = -1 ∨ (8 ≤ e ∧ e ≤ 11)) ∧
      ([8, 9, 10, 11] : List Int).map (getInt? vtkMarchingCubes_edges)
        = [some [0, 4], some [1, 5], some [3, 7], some [2, 6]] :=
  C13_pyramid_pattern [] pyrMesh ⟨0, 1, 2, 3, 4⟩ ⟨0, 0, 0, 0⟩ ⟨2, 0, 0, 0⟩ ⟨2, 2, 0, 0⟩
    ⟨0, 2, 0, 0⟩ ⟨1, 1, 2, 2⟩ 0 2 1 (by decide) (by decide) (by decide) (by decide) (by decide)
    rfl rfl rfl rfl rfl (by decide) (by decide) (Or.inr ⟨by decide, by decide⟩)
    (by decide) (by decide) (by decide) (by decide) (by decide) (by decide)

set_option maxRecDepth 100000 in
/-- Counterexample to C13 as stated. First, the pyramid of `pyrMesh` (base
scalar 0, apex scalar 2) at iso-value 0 meets the hypotheses of the claim
(`2 > 0` and `0 ≤ 0`): the six emitted corners are base corners, and the
corner `(0,0,0)` is the point at parameter 0 of the base edge from corner 0
to corner 1. Second, the flat pyramid of `flatPyrMesh` at iso-value 1 meets
them too, with the base scalar different from the iso-value: its emitted
corner `(2,1,0)` is the midpoint of the base edge from corner 1 to corner 2. -/
theorem C13_counterexample :
    processPyr [] pyrMesh ⟨0, 1, 2, 3, 4⟩ 0
      = some [⟨⟨2, 0, 0⟩, 0⟩, ⟨⟨0, 0, 0⟩, 0⟩, ⟨⟨2, 2, 0⟩, 0⟩,
          ⟨⟨2, 2, 0⟩, 0⟩, ⟨⟨0, 0, 0⟩, 0⟩, ⟨⟨0, 2, 0⟩, 0⟩] ∧
    (⟨0, 0, 0⟩ : vec3f) = lerpAt 0 ⟨0, 0, 0⟩ ⟨2, 0, 0⟩ ∧
    processPyr [] flatPyrMesh ⟨0, 1, 2, 3, 4⟩ 1
      = some [⟨⟨3, 0, 0⟩, 0⟩, ⟨⟨2, 0, 0⟩, 0⟩, ⟨⟨3, 1, 0⟩, 0⟩,
          ⟨⟨3, 1, 0⟩, 0⟩, ⟨⟨2, 0, 0⟩, 0⟩, ⟨⟨2, 1, 0⟩, 0⟩] ∧
    (⟨2, 1, 0⟩ : vec3f) = lerpAt (1 / 2) ⟨2, 0, 0⟩ ⟨2, 2, 0⟩ := by
  refine ⟨?_, ?_, ?_, ?_⟩ <;> decide!

theorem memcmp_four (a0 a1 a2 a3 b0 b1 b2 b3 : Nat) (ha1 : a1 < 256) (ha2 : a2 < 256)
    (ha3 : a3 < 256) (hb1 : b1 < 256) (hb2 : b2 < 256) (hb3 : b3 < 256) :
    memcmp [a0, a1, a2, a3] [b0, b1, b2, b3] < 0
      ↔ a0 * 16777216 + a1 * 65536 + a2 * 256 + a3
          < b0 * 16777216 + b1 * 65536 + b2 * 256 + b3 := by
  simp only [memcmp]
  split_ifs <;> omega

theorem memcmp_bytes32 (i j : Nat) (hi : i < 2 ^ 32) (hj : j < 2 ^ 32) :
    memcmp (bytes32 i) (bytes32 j) < 0 ↔ byteReversed i < byteReversed j := by
  have hi2 : i < 4294967296 := Nat.lt_of_lt_of_eq hi (by norm_num)
  have hj2 : j < 4294967296 := Nat.lt_of_lt_of_eq hj (by norm_num)
  exact memcmp_four _ _ _ _ _ _ _ _ (Nat.mod_lt _ (by decide)) (Nat.mod_lt _ (by decide))
    (by omega) (Nat.mod_lt _ (by decide)) (Nat.mod_lt _ (by decide)) (by omega)

theorem byteReversed_small (i j : Nat) (hi : i < 256) (hj : j < 256) :
    byteReversed i < byteReversed j ↔ i < j := by
  simp only [byteReversed]
  omega

/-- C17, amended. Sort order: the comparator is irreflexive, transitive and
asymmetric, and any two corners with different slots are comparable, so it is
a strict total order on corners with pairwise distinct slots; the position
bytes are compared first, so corners with different positions are ordered by
their positions alone; two corners with equal positions are ordered by the
bytes of their slots in memory order, lowest byte first, that is, for 32-bit
slots, by the slot read with its four bytes reversed. This is the numeric
order of the slots when both are below 256, and not in general: slot 256
comes before slot 1. -/
theorem C17_sort_order (bits : ℚ → ℕ) :
    (∀ a, FatVertexCompare bits a a = false) ∧
    (∀ a b c, FatVertexCompare bits a b = true → FatVertexCompare bits b c = true →
      FatVertexCompare bits a c = true) ∧
    (∀ a b, FatVertexCompare bits a b = true → FatVertexCompare bits b a = false) ∧
    (∀ a b : FatVertex, a.idx ≠ b.idx →
      FatVertexCompare bits a b = true ∨ FatVertexCompare bits b a = true) ∧
    (∀ a b : FatVertex, posBytes bits a.pos ≠ posBytes bits b.pos →
      FatVertexCompare bits a b
        = decide (memcmp (posBytes bits a.pos) (posBytes bits b.pos) < 0)) ∧
    (Function.Injective bits → ∀ a b : FatVertex, a.pos ≠ b.pos →
      FatVertexCompare bits a b
        = decide (memcmp (posBytes bits a.pos) (posBytes bits b.pos) < 0)) ∧
    (∀ a b : FatVertex, a.pos = b.pos →
      FatVertexCompare bits a b = decide (memcmp (bytes32 a.idx) (bytes32 b.idx) < 0)) ∧
    (∀ a b : FatVertex, a.pos = b.pos → a.idx < 2 ^ 32 → b.idx < 2 ^ 32 →
      FatVertexCompare bits a b = decide (byteReversed a.idx < byteReversed b.idx)) ∧
    (∀ a b : FatVertex, a.pos = b.pos → a.idx < 256 → b.idx < 256 →
      FatVertexCompare bits a b = decide (a.idx < b.idx)) ∧
    (∀ p : vec3f, FatVertexCompare bits ⟨p, 256⟩ ⟨p, 1⟩ = true) := by
  obtain ⟨h1, h2, h3, h4, h5, h6, h7⟩ := sort_order bits
  have h8 : ∀ a b : FatVertex, a.pos = b.pos → a.idx < 2 ^ 32 → b.idx < 2 ^ 32 →
      FatVertexCompare bits a b = decide (byteReversed a.idx < byteReversed b.idx) := by
    intro a b h ha hb
    rw [h7 a b h]
    exact decide_eq_decide.mpr (memcmp_bytes32 a.idx b.idx ha hb)
  refine ⟨h1, h2, h3, h4, h5, h6, h7, h8, ?_, ?_⟩
  · intro a b h ha hb
    rw [h8 a b h (by omega) (by omega)]
    exact decide_eq_decide.mpr (byteReversed_small a.idx b.idx ha hb)
  · intro p
    have h256 : (256 : Nat) < 2 ^ 32 := by norm_num
    have h1 : (1 : Nat) < 2 ^ 32 := by norm_num
    rw [h8 ⟨p, 256⟩ ⟨p, 1⟩ rfl h256 h1]
    exact decide_eq_true (show byteReversed 256 < byteReversed 1 by decide)

/-- Witness of the amended C17: with the bit patterns `ratBits`, two corners
at different positions are ordered by their positions. -/
theorem C17_sort_order_witness :
    FatVertexCompare ratBits ⟨⟨0, 0, 0⟩, 1⟩ ⟨⟨1, 0, 0⟩, 0⟩
      = decide (memcmp (posBytes ratBits ⟨0, 0, 0⟩) (posBytes ratBits ⟨1, 0, 0⟩) < 0) :=
  (C17_sort_order ratBits).2.2.2.2.2.1 ratBits_injective ⟨⟨0, 0, 0⟩, 1⟩ ⟨⟨1, 0, 0⟩, 0⟩
    (by decide)

/-- Counterexample to C17 as stated: two corners at the same position with
slots 256 and 1. The comparator puts slot 256 first, although 256 is not
below 1: the little-endian bytes of 256 are `0, 1, 0, 0`, those of 1 are
`1, 0, 0, 0`, and the first byte decides. -/
theorem C17_counterexample :
    FatVertexCompare ratBits ⟨⟨0, 0, 0⟩, 256⟩ ⟨⟨0, 0, 0⟩, 1⟩ = true ∧
    FatVertexCompare ratBits ⟨⟨0, 0, 0⟩, 1⟩ ⟨⟨0, 0, 0⟩, 256⟩ = false ∧
    bytes32 256 = [0, 1, 0, 0] ∧ bytes32 1 = [1, 0, 0, 0] ∧ ¬ (256 : Nat) < 1 := by
  refine ⟨?_, ?_, ?_, ?_, ?_⟩ <;> decide

/-! ## The merge beyond the range of `int` -/

/-- The merge throws when the narrowed buffer size divided by 3 is negative. -/
theorem buildIndexedMesh_length_error (bits : ℚ → ℕ) (raw : List FatVertex)
    (h : (toInt32 raw.length).tdiv 3 < 0) :
    buildIndexedMesh bits raw = .error .length_error := by
  unfold buildIndexedMesh
  simp only [h, if_true]

/-- The merge reads the buffer through its narrowed size `n` only: its result
is the scan of the first `n` records of the sorted buffer, in which only the
first `n` raw corners got a slot. -/
theorem buildIndexedMesh_narrowed (bits : ℚ → ℕ) (raw F : List FatVertex) (n : Nat)
    (hlen : toInt32 raw.length = (n : Int))
    (hpre : (sort (FatVertexCompare bits)
      (assignSlots 0 (raw.take n) ++ raw.drop n)).take n = F) :
    buildIndexedMesh bits raw
      = match scanLoop none (-1) (List.replicate (countUnique none F) ⟨0, 0, 0⟩)
          (List.replicate (3 * (n / 3)) 0) F with
        | none => .error .out_of_bounds
        | some (vertices, flat) =>
          .ok { UMesh.empty with vertices := vertices, triangles := groupTriangles flat } := by
  have hd : ((n : Int).tdiv 3) = ((n / 3 : Nat) : Int) := rfl
  have hneg : ¬ ((n / 3 : Nat) : Int) < 0 := by omega
  unfold buildIndexedMesh
  simp only [hlen, Int.toNat_ofNat, hpre, hd, hneg, if_false]
  try rfl

theorem bytes_injective (bits : ℚ → ℕ) (hbits : Function.Injective bits) (a b : FatVertex)
    (h : a.bytes bits = b.bytes bits) : a = b := by
  rw [bytes_eq, bytes_eq] at h
  have hp := List.append_inj_left h (by rw [posBytes_length, posBytes_length])
  have hi := List.append_inj_right h (by rw [posBytes_length, posBytes_length])
  cases a
  cases b
  simp only at hp hi
  rw [posBytes_injective bits hbits _ _ hp, bytes32_injective _ _ hi]

/-- A buffer that is a rearrangement of `F ++ R`, with `F` in non-descending
order and no record of `R` before a record of `F`, is sorted to `F` followed
by the sorted `R`. -/
theorem sort_of_perm (bits : ℚ → ℕ) (hbits : Function.Injective bits)
    (L F R : List FatVertex) (hperm : L.Perm (F ++ R))
    (hF : F.Pairwise (fun a b => memcmp (a.bytes bits) (b.bytes bits) ≤ 0))
    (hFR : ∀ f ∈ F, ∀ r ∈ R, memcmp (f.bytes bits) (r.bytes bits) ≤ 0) :
    sort (FatVertexCompare bits) L = F ++ sort (FatVertexCompare bits) R := by
  haveI : IsAntisymm FatVertex (fun a b => memcmp (a.bytes bits) (b.bytes bits) ≤ 0) :=
    ⟨fun a b hab hba => by
      rw [memcmp_swap] at hba
      exact bytes_injective bits hbits a b
        (memcmp_eq_zero _ _ (by rw [bytes_length, bytes_length]) (by omega))⟩
  have h1 := sort_compare_pairwise bits L
  have h2 : (F ++ sort (FatVertexCompare bits) R).Pairwise
      (fun a b => memcmp (a.bytes bits) (b.bytes bits) ≤ 0) := by
    rw [List.pairwise_append]
    refine ⟨hF, sort_compare_pairwise bits R, ?_⟩
    intro f hf r hr
    exact hFR f hf r ((sort_perm _ R).mem_iff.mp hr)
  have hp : (sort (FatVertexCompare bits) L).Perm (F ++ sort (FatVertexCompare bits) R) :=
    (sort_perm _ L).trans (hperm.trans ((sort_perm _ R).symm.append_left F))
  exact List.eq_of_perm_of_sorted hp h1 h2

/-- The first records of the sorted buffer, for a buffer made of listed
records `P` and `Q` around a block `M`: when `P ++ Q` is a rearrangement of
`F ++ R`, `F` is in non-descending order, and every record of `R` and of `M`
is one of the records `S`, none of which comes before a record of `F`. -/
theorem sort_take_mid (bits : ℚ → ℕ) (hbits : Function.Injective bits)
    (P M Q F R S : List FatVertex) (hperm : (P ++ Q).Perm (F ++ R))
    (hM : ∀ r ∈ M, r ∈ S) (hR : ∀ r ∈ R, r ∈ S)
    (hF : F.Pairwise (fun a b => memcmp (a.bytes bits) (b.bytes bits) ≤ 0))
    (hFS : ∀ f ∈ F, ∀ r ∈ S, memcmp (f.bytes bits) (r.bytes bits) ≤ 0) :
    (sort (FatVertexCompare bits) (P ++ (M ++ Q))).take F.length = F := by
  have hp : (P ++ (M ++ Q)).Perm (F ++ (R ++ M)) := by
    have e1 : (P ++ (M ++ Q)).Perm ((P ++ Q) ++ M) := by
      rw [List.append_assoc]
      exact List.Perm.append_left P List.perm_append_comm
    have e2 : ((P ++ Q) ++ M).Perm ((F ++ R) ++ M) := hperm.append_right M
    have e3 : (F ++ R) ++ M = F ++ (R ++ M) := List.append_assoc F R M
    rw [e3] at e2
    exact e1.trans e2
  rw [sort_of_perm bits hbits _ F (R ++ M) hp hF]
  · simp
  · intro f hf r hr
    rcases List.mem_append.mp hr with h | h
    · exact hFS f hf r (hR r h)
    · exact hFS f hf r (hM r h)

theorem mem_unpack_replicate (t : vec3f × vec3f × vec3f) :
    ∀ (m : Nat) (r : FatVertex), r ∈ unpack (List.replicate m t) → r ∈ cornersOf t
  | 0, r, h => by simp [unpack] at h
  | m + 1, r, h => by
    simp only [List.replicate_succ, unpack, List.mem_append] at h
    rcases h with h | h
    · exact h
    · exact mem_unpack_replicate t m r h

/-- A block loop in which every element appends one triangle `g e`. -/
theorem blockLoop_map {ε : Type} (elems : List ε)
    (proc : List FatVertex → ε → Option (List FatVertex)) (g : ε → vec3f × vec3f × vec3f)
    (hproc : ∀ lv, ∀ e ∈ elems, proc lv e = some (lv ++ cornersOf (g e))) :
    ∀ (n i : Nat) (lv : List FatVertex), i + n ≤ elems.length →
      blockLoop elems proc i n lv
        = some (lv ++ unpack (((elems.drop i).take n).map g))
  | 0, i, lv, _ => by simp [blockLoop, unpack]
  | n + 1, i, lv, h => by
    have hi : i < elems.length := by omega
    have he : elems[i]? = some elems[i] := List.getElem?_eq_getElem hi
    have hd : elems.drop i = elems[i] :: elems.drop (i + 1) := List.drop_eq_getElem_cons hi
    simp only [blockLoop, he, Option.bind_eq_bind, Option.some_bind,
      hproc lv elems[i] (List.getElem_mem hi)]
    rw [blockLoop_map elems proc g hproc n (i + 1) _ (by omega), hd]
    simp [unpack, List.append_assoc]

theorem fan_processTet (tets : List Tet) (lv : List FatVertex) :
    ∀ e ∈ [(⟨0, 6, 7, 8⟩ : Tet), ⟨1, 6, 7, 8⟩, ⟨2, 6, 7, 8⟩, ⟨3, 6, 7, 8⟩, ⟨4, 6, 7, 8⟩,
        ⟨5, 6, 7, 8⟩],
      processTet lv (fanMesh tets) e 1 = some (lv ++ cornersOf (fanTriangleOf e)) := by
  intro e he
  have hm : processTet [] (fanMesh tets) e 1 = processTet [] (fanMesh []) e 1 := rfl
  have hall : ∀ e ∈ [(⟨0, 6, 7, 8⟩ : Tet), ⟨1, 6, 7, 8⟩, ⟨2, 6, 7, 8⟩, ⟨3, 6, 7, 8⟩,
      ⟨4, 6, 7, 8⟩, ⟨5, 6, 7, 8⟩],
      processTet [] (fanMesh []) e 1 = some (cornersOf (fanTriangleOf e)) := by decide!
  rw [processTet_append, hm, hall e he]
  rfl

/-- The raw corners of a `fanMesh` whose tetrahedra all stand on the face of
vertices 6, 7, 8: one triangle for each, in order. -/
theorem fan_collect (tets : List Tet)
    (h : ∀ e ∈ tets, e ∈ [(⟨0, 6, 7, 8⟩ : Tet), ⟨1, 6, 7, 8⟩, ⟨2, 6, 7, 8⟩, ⟨3, 6, 7, 8⟩,
      ⟨4, 6, 7, 8⟩, ⟨5, 6, 7, 8⟩]) :
    collectFatVertices (fanMesh tets) 1 = some (unpack (tets.map fanTriangleOf)) := by
  have hb := blockLoop_map tets (fun lv e => processTet lv (fanMesh tets) e 1) fanTriangleOf
    (fun lv e he => fan_processTet tets lv e (h e he)) tets.length 0 [] (by omega)
  rw [collect_single_pass]
  have ht : (fanMesh tets).tets = tets := rfl
  have hp : (fanMesh tets).pyrs = [] := rfl
  have hw : (fanMesh tets).wedges = [] := rfl
  have hh : (fanMesh tets).hexes = [] := rfl
  simp only [doIsoSurfaceTets, doIsoSurfacePyrs, doIsoSurfaceWedges, doIsoSurfaceHexes, ht, hp,
    hw, hh, Nat.sub_zero, hb, List.length_nil, blockLoop, List.drop_zero, List.take_length,
    List.nil_append, List.append_nil, Option.bind_eq_bind, Option.some_bind, Option.pure_def]

theorem fan_inRange (tets : List Tet)
    (h : ∀ e ∈ tets, e ∈ [(⟨0, 6, 7, 8⟩ : Tet), ⟨1, 6, 7, 8⟩, ⟨2, 6, 7, 8⟩, ⟨3, 6, 7, 8⟩,
      ⟨4, 6, 7, 8⟩, ⟨5, 6, 7, 8⟩]) :
    InRange (fanMesh tets) fanScalars := by
  intro ix hix i hi
  have hix2 : ix ∈ tets.map Tet.indices := by
    have hm : elementIndices (fanMesh tets) = tets.map Tet.indices ++ [] ++ [] ++ [] := rfl
    rw [hm] at hix
    simpa using hix
  obtain ⟨e, he, rfl⟩ := List.mem_map.mp hix2
  have h3 := h e he
  simp only [List.mem_cons, List.mem_singleton, List.not_mem_nil, or_false] at h3
  have hl : (fanMesh tets).vertices.length = 9 := rfl
  have hl2 : fanScalars.length = 9 := rfl
  rw [hl, hl2]
  rcases h3 with rfl | rfl | rfl | rfl | rfl | rfl <;>
    (simp only [Tet.indices, List.mem_cons, List.mem_singleton, List.not_mem_nil,
      or_false] at hi
     omega)

theorem bulk_mem (n : Nat) : ∀ e ∈ List.replicate n (⟨5, 6, 7, 8⟩ : Tet),
    e ∈ [(⟨0, 6, 7, 8⟩ : Tet), ⟨1, 6, 7, 8⟩, ⟨2, 6, 7, 8⟩, ⟨3, 6, 7, 8⟩, ⟨4, 6, 7, 8⟩,
      ⟨5, 6, 7, 8⟩] := by
  intro e he
  rw [List.eq_of_mem_replicate he]
  decide

theorem wrap_mem : ∀ e ∈ List.replicate 1431655762 (⟨5, 6, 7, 8⟩ : Tet)
      ++ [⟨0, 6, 7, 8⟩, ⟨1, 6, 7, 8⟩, ⟨2, 6, 7, 8⟩, ⟨3, 6, 7, 8⟩, ⟨4, 6, 7, 8⟩],
    e ∈ [(⟨0, 6, 7, 8⟩ : Tet), ⟨1, 6, 7, 8⟩, ⟨2, 6, 7, 8⟩, ⟨3, 6, 7, 8⟩, ⟨4, 6, 7, 8⟩,
      ⟨5, 6, 7, 8⟩] := by
  intro e he
  rcases List.mem_append.mp he with h | h
  · exact bulk_mem _ e h
  · simp only [List.mem_cons, List.mem_singleton, List.not_mem_nil, or_false] at h
    rcases h with rfl | rfl | rfl | rfl | rfl <;> decide

theorem overflow_collect : collectFatVertices overflowMesh 1 = some overflowRaw := by
  have h := fan_collect (List.replicate 715827883 ⟨5, 6, 7, 8⟩) (bulk_mem _)
  rw [List.map_replicate] at h
  exact h

theorem overflowRaw_length : overflowRaw.length = 2147483649 := by
  unfold overflowRaw
  rw [unpack_length, List.length_replicate]

theorem uniform_collect : collectFatVertices uniformMesh 1 = some uniformRaw := by
  have h := fan_collect (List.replicate 1431655767 ⟨5, 6, 7, 8⟩) (bulk_mem _)
  rw [List.map_replicate] at h
  exact h

theorem uniformRaw_length : uniformRaw.length = 4294967301 := by
  unfold uniformRaw
  rw [unpack_length, List.length_replicate]

theorem wrap_collect : collectFatVertices wrapMesh 1 = some wrapRaw := by
  have h := fan_collect _ wrap_mem
  rw [List.map_append, List.map_replicate] at h
  exact h

theorem wrapRaw_length : wrapRaw.length = 4294967301 := by
  unfold wrapRaw
  rw [unpack_length, List.length_append, List.length_replicate]
  rfl

theorem wrapRawReordered_length : wrapRawReordered.length = 4294967301 := by
  unfold wrapRawReordered
  rw [unpack_length, List.length_cons, List.length_append, List.length_replicate]
  rfl

theorem toInt32_wrap : toInt32 4294967301 = 5 := by decide

theorem toInt32_overflow : (toInt32 2147483649).tdiv 3 < 0 := by decide

theorem wrapRaw_split :
    wrapRaw = unpack (List.replicate 2 (fanTriangle ⟨6, 0, 0⟩))
      ++ (unpack (List.replicate 1431655760 (fanTriangle ⟨6, 0, 0⟩))
        ++ unpack [fanTriangle ⟨0, 0, 0⟩, fanTriangle ⟨2, 0, 0⟩, fanTriangle ⟨3, 0, 0⟩,
          fanTriangle ⟨4, 0, 0⟩, fanTriangle ⟨5, 0, 0⟩]) := by
  have h : List.replicate 1431655762 (fanTriangle ⟨6, 0, 0⟩)
      = List.replicate 2 (fanTriangle ⟨6, 0, 0⟩)
        ++ List.replicate 1431655760 (fanTriangle ⟨6, 0, 0⟩) :=
    List.replicate_add 2 1431655760 _
  unfold wrapRaw
  rw [h, List.append_assoc, unpack_append, unpack_append]

theorem wrapRawReordered_split :
    wrapRawReordered
      = unpack (fanTriangle ⟨5, 0, 0⟩ :: List.replicate 1 (fanTriangle ⟨6, 0, 0⟩))
        ++ (unpack (List.replicate 1431655761 (fanTriangle ⟨6, 0, 0⟩))
          ++ unpack [fanTriangle ⟨0, 0, 0⟩, fanTriangle ⟨2, 0, 0⟩, fanTriangle ⟨3, 0, 0⟩,
            fanTriangle ⟨4, 0, 0⟩]) := by
  have h : List.replicate 1431655762 (fanTriangle ⟨6, 0, 0⟩)
      = List.replicate 1 (fanTriangle ⟨6, 0, 0⟩)
        ++ List.replicate 1431655761 (fanTriangle ⟨6, 0, 0⟩) :=
    List.replicate_add 1 1431655761 _
  have h2 : ∀ rest : List (vec3f × vec3f × vec3f),
      fanTriangle ⟨5, 0, 0⟩ :: (List.replicate 1 (fanTriangle ⟨6, 0, 0⟩)
        ++ List.replicate 1431655761 (fanTriangle ⟨6, 0, 0⟩) ++ rest)
      = (fanTriangle ⟨5, 0, 0⟩ :: List.replicate 1 (fanTriangle ⟨6, 0, 0⟩))
        ++ (List.replicate 1431655761 (fanTriangle ⟨6, 0, 0⟩) ++ rest) :=
    fun rest => congrArg (List.cons (fanTriangle ⟨5, 0, 0⟩)) (List.append_assoc _ _ _)
  unfold wrapRawReordered
  rw [h, h2, unpack_append, unpack_append]

theorem uniformRaw_split :
    uniformRaw = unpack (List.replicate 7 (fanTriangle ⟨6, 0, 0⟩))
      ++ (unpack (List.replicate 1431655760 (fanTriangle ⟨6, 0, 0⟩)) ++ []) := by
  have h : List.replicate 1431655767 (fanTriangle ⟨6, 0, 0⟩)
      = List.replicate 7 (fanTriangle ⟨6, 0, 0⟩)
        ++ List.replicate 1431655760 (fanTriangle ⟨6, 0, 0⟩) :=
    List.replicate_add 7 1431655760 _
  unfold uniformRaw
  rw [h, unpack_append, List.append_nil]

theorem bulk_corners (m : Nat) (S : List FatVertex)
    (hS : ∀ r ∈ cornersOf (fanTriangle ⟨6, 0, 0⟩), r ∈ S) :
    ∀ r ∈ unpack (List.replicate m (fanTriangle ⟨6, 0, 0⟩)), r ∈ S :=
  fun r hr => hS r (mem_unpack_replicate _ m r hr)

/-- The first five records of the sorted buffer of `wrapRaw`, in which the
first five corners got the slots 0 to 4: the corners at `x = 0, 2, 3, 4, 5`,
all with the slot 0 they were pushed with. -/
theorem wrap_sorted_head :
    (sort (FatVertexCompare ratBits) (assignSlots 0 (wrapRaw.take 5) ++ wrapRaw.drop 5)).take 5
      = [⟨⟨0, 0, 0⟩, 0⟩, ⟨⟨2, 0, 0⟩, 0⟩, ⟨⟨3, 0, 0⟩, 0⟩, ⟨⟨4, 0, 0⟩, 0⟩, ⟨⟨5, 0, 0⟩, 0⟩] := by
  have e5 : assignSlots 0 (wrapRaw.take 5) ++ wrapRaw.drop 5
      = [⟨⟨7, 0, 0⟩, 0⟩, ⟨⟨6, 0, 0⟩, 1⟩, ⟨⟨7, 2, 0⟩, 2⟩, ⟨⟨7, 0, 0⟩, 3⟩, ⟨⟨6, 0, 0⟩, 4⟩,
          ⟨⟨7, 2, 0⟩, 0⟩]
        ++ (unpack (List.replicate 1431655760 (fanTriangle ⟨6, 0, 0⟩))
          ++ unpack [fanTriangle ⟨0, 0, 0⟩, fanTriangle ⟨2, 0, 0⟩, fanTriangle ⟨3, 0, 0⟩,
            fanTriangle ⟨4, 0, 0⟩, fanTriangle ⟨5, 0, 0⟩]) := by
    rw [wrapRaw_split]
    rfl
  rw [e5]
  exact sort_take_mid ratBits ratBits_injective _ _ _
    [⟨⟨0, 0, 0⟩, 0⟩, ⟨⟨2, 0, 0⟩, 0⟩, ⟨⟨3, 0, 0⟩, 0⟩, ⟨⟨4, 0, 0⟩, 0⟩, ⟨⟨5, 0, 0⟩, 0⟩]
    [⟨⟨7, 0, 0⟩, 0⟩, ⟨⟨6, 0, 0⟩, 1⟩, ⟨⟨7, 2, 0⟩, 2⟩, ⟨⟨7, 0, 0⟩, 3⟩, ⟨⟨6, 0, 0⟩, 4⟩,
      ⟨⟨7, 2, 0⟩, 0⟩, ⟨⟨7, 0, 0⟩, 0⟩, ⟨⟨7, 2, 0⟩, 0⟩, ⟨⟨7, 0, 0⟩, 0⟩, ⟨⟨7, 2, 0⟩, 0⟩,
      ⟨⟨7, 0, 0⟩, 0⟩, ⟨⟨7, 2, 0⟩, 0⟩, ⟨⟨7, 0, 0⟩, 0⟩, ⟨⟨7, 2, 0⟩, 0⟩, ⟨⟨7, 0, 0⟩, 0⟩,
      ⟨⟨7, 2, 0⟩, 0⟩]
    [⟨⟨7, 0, 0⟩, 0⟩, ⟨⟨6, 0, 0⟩, 1⟩, ⟨⟨7, 2, 0⟩, 2⟩, ⟨⟨7, 0, 0⟩, 3⟩, ⟨⟨6, 0, 0⟩, 4⟩,
      ⟨⟨7, 2, 0⟩, 0⟩, ⟨⟨6, 0, 0⟩, 0⟩]
    (by decide!) (bulk_corners _ _ (by decide!)) (by decide!) (by decide!) (by decide!)

/-- The first five records of the sorted buffer of `wrapRawReordered`: the
corner at `x = 5` now is the second raw corner and has slot 1. -/
theorem wrapReordered_sorted_head :
    (sort (FatVertexCompare ratBits)
        (assignSlots 0 (wrapRawReordered.take 5) ++ wrapRawReordered.drop 5)).take 5
      = [⟨⟨0, 0, 0⟩, 0⟩, ⟨⟨2, 0, 0⟩, 0⟩, ⟨⟨3, 0, 0⟩, 0⟩, ⟨⟨4, 0, 0⟩, 0⟩, ⟨⟨5, 0, 0⟩, 1⟩] := by
  have e5 : assignSlots 0 (wrapRawReordered.take 5) ++ wrapRawReordered.drop 5
      = [⟨⟨7, 0, 0⟩, 0⟩, ⟨⟨5, 0, 0⟩, 1⟩, ⟨⟨7, 2, 0⟩, 2⟩, ⟨⟨7, 0, 0⟩, 3⟩, ⟨⟨6, 0, 0⟩, 4⟩,
          ⟨⟨7, 2, 0⟩, 0⟩]
        ++ (unpack (List.replicate 1431655761 (fanTriangle ⟨6, 0, 0⟩))
          ++ unpack [fanTriangle ⟨0, 0, 0⟩, fanTriangle ⟨2, 0, 0⟩, fanTriangle ⟨3, 0, 0⟩,
            fanTriangle ⟨4, 0, 0⟩]) := by
    rw [wrapRawReordered_split]
    rfl
  rw [e5]
  exact sort_take_mid ratBits ratBits_injective _ _ _
    [⟨⟨0, 0, 0⟩, 0⟩, ⟨⟨2, 0, 0⟩, 0⟩, ⟨⟨3, 0, 0⟩, 0⟩, ⟨⟨4, 0, 0⟩, 0⟩, ⟨⟨5, 0, 0⟩, 1⟩]
    [⟨⟨7, 0, 0⟩, 0⟩, ⟨⟨7, 2, 0⟩, 2⟩, ⟨⟨7, 0, 0⟩, 3⟩, ⟨⟨6, 0, 0⟩, 4⟩,
      ⟨⟨7, 2, 0⟩, 0⟩, ⟨⟨7, 0, 0⟩, 0⟩, ⟨⟨7, 2, 0⟩, 0⟩, ⟨⟨7, 0, 0⟩, 0⟩, ⟨⟨7, 2, 0⟩, 0⟩,
      ⟨⟨7, 0, 0⟩, 0⟩, ⟨⟨7, 2, 0⟩, 0⟩, ⟨⟨7, 0, 0⟩, 0⟩, ⟨⟨7, 2, 0⟩, 0⟩]
    [⟨⟨7, 0, 0⟩, 0⟩, ⟨⟨7, 2, 0⟩, 2⟩, ⟨⟨7, 0, 0⟩, 3⟩, ⟨⟨6, 0, 0⟩, 4⟩,
      ⟨⟨7, 2, 0⟩, 0⟩, ⟨⟨6, 0, 0⟩, 0⟩]
    (by decide!) (bulk_corners _ _ (by decide!)) (by decide!) (by decide!) (by decide!)

/-- The first five records of the sorted buffer of `uniformRaw`: five corners
at `x = 6`, all with the slot 0 they were pushed with. -/
theorem uniform_sorted_head :
    (sort (FatVertexCompare ratBits)
        (assignSlots 0 (uniformRaw.take 5) ++ uniformRaw.drop 5)).take 5
      = [⟨⟨6, 0, 0⟩, 0⟩, ⟨⟨6, 0, 0⟩, 0⟩, ⟨⟨6, 0, 0⟩, 0⟩, ⟨⟨6, 0, 0⟩, 0⟩, ⟨⟨6, 0, 0⟩, 0⟩] := by
  have e5 : assignSlots 0 (uniformRaw.take 5) ++ uniformRaw.drop 5
      = [⟨⟨7, 0, 0⟩, 0⟩, ⟨⟨6, 0, 0⟩, 1⟩, ⟨⟨7, 2, 0⟩, 2⟩, ⟨⟨7, 0, 0⟩, 3⟩, ⟨⟨6, 0, 0⟩, 4⟩,
          ⟨⟨7, 2, 0⟩, 0⟩, ⟨⟨7, 0, 0⟩, 0⟩, ⟨⟨6, 0, 0⟩, 0⟩, ⟨⟨7, 2, 0⟩, 0⟩, ⟨⟨7, 0, 0⟩, 0⟩,
          ⟨⟨6, 0, 0⟩, 0⟩, ⟨⟨7, 2, 0⟩, 0⟩, ⟨⟨7, 0, 0⟩, 0⟩, ⟨⟨6, 0, 0⟩, 0⟩, ⟨⟨7, 2, 0⟩, 0⟩,
          ⟨⟨7, 0, 0⟩, 0⟩, ⟨⟨6, 0, 0⟩, 0⟩, ⟨⟨7, 2, 0⟩, 0⟩, ⟨⟨7, 0, 0⟩, 0⟩, ⟨⟨6, 0, 0⟩, 0⟩,
          ⟨⟨7, 2, 0⟩, 0⟩]
        ++ (unpack (List.replicate 1431655760 (fanTriangle ⟨6, 0, 0⟩)) ++ []) := by
    rw [uniformRaw_split]
    rfl
  rw [e5]
  exact sort_take_mid ratBits ratBits_injective _ _ _
    [⟨⟨6, 0, 0⟩, 0⟩, ⟨⟨6, 0, 0⟩, 0⟩, ⟨⟨6, 0, 0⟩, 0⟩, ⟨⟨6, 0, 0⟩, 0⟩, ⟨⟨6, 0, 0⟩, 0⟩]
    [⟨⟨7, 0, 0⟩, 0⟩, ⟨⟨6, 0, 0⟩, 1⟩, ⟨⟨7, 2, 0⟩, 2⟩, ⟨⟨7, 0, 0⟩, 3⟩, ⟨⟨6, 0, 0⟩, 4⟩,
      ⟨⟨7, 2, 0⟩, 0⟩, ⟨⟨7, 0, 0⟩, 0⟩, ⟨⟨7, 2, 0⟩, 0⟩, ⟨⟨7, 0, 0⟩, 0⟩, ⟨⟨7, 2, 0⟩, 0⟩,
      ⟨⟨7, 0, 0⟩, 0⟩, ⟨⟨7, 2, 0⟩, 0⟩, ⟨⟨7, 0, 0⟩, 0⟩, ⟨⟨7, 2, 0⟩, 0⟩, ⟨⟨7, 0, 0⟩, 0⟩,
      ⟨⟨7, 2, 0⟩, 0⟩]
    [⟨⟨7, 0, 0⟩, 0⟩, ⟨⟨6, 0, 0⟩, 1⟩, ⟨⟨7, 2, 0⟩, 2⟩, ⟨⟨7, 0, 0⟩, 3⟩, ⟨⟨6, 0, 0⟩, 4⟩,
      ⟨⟨7, 2, 0⟩, 0⟩, ⟨⟨6, 0, 0⟩, 0⟩]
    (by decide!) (bulk_corners _ _ (by decide!)) (by decide!) (by decide!) (by decide!)

/-- The merge of `wrapRaw`: the size `2^32 + 5` is narrowed to 5, the scan
reads five records that all carry slot 0, and one triangle is made, of which
the first index alone is written; the other two are as `resize` left them. -/
theorem wrap_build :
    buildIndexedMesh ratBits wrapRaw
      = .ok { UMesh.empty with
          vertices := [⟨0, 0, 0⟩, ⟨2, 0, 0⟩, ⟨3, 0, 0⟩, ⟨4, 0, 0⟩, ⟨5, 0, 0⟩]
          triangles := [⟨4, 0, 0⟩] } := by
  rw [buildIndexedMesh_narrowed ratBits wrapRaw _ 5 (by rw [wrapRaw_length]; exact toInt32_wrap)
    wrap_sorted_head]
  with_unfolding_all rfl

/-- The merge of `wrapRawReordered`: the first two indices of its one
triangle are written, the third is as `resize` left it. -/
theorem wrapReordered_build :
    buildIndexedMesh ratBits wrapRawReordered
      = .ok { UMesh.empty with
          vertices := [⟨0, 0, 0⟩, ⟨2, 0, 0⟩, ⟨3, 0, 0⟩, ⟨4, 0, 0⟩, ⟨5, 0, 0⟩]
          triangles := [⟨3, 4, 0⟩] } := by
  rw [buildIndexedMesh_narrowed ratBits wrapRawReordered _ 5
    (by rw [wrapRawReordered_length]; exact toInt32_wrap) wrapReordered_sorted_head]
  with_unfolding_all rfl

/-- The merge of `uniformRaw`: one vertex and one triangle, of which the
first index alone is written. -/
theorem uniform_build :
    buildIndexedMesh ratBits uniformRaw
      = .ok { UMesh.empty with vertices := [⟨6, 0, 0⟩], triangles := [⟨0, 0, 0⟩] } := by
  rw [buildIndexedMesh_narrowed ratBits uniformRaw _ 5
    (by rw [uniformRaw_length]; exact toInt32_wrap) uniform_sorted_head]
  with_unfolding_all rfl

theorem wrap_extract :
    extractIsoSurface ratBits (some wrapMesh) 1
      = .ok { UMesh.empty with
          vertices := [⟨0, 0, 0⟩, ⟨2, 0, 0⟩, ⟨3, 0, 0⟩, ⟨4, 0, 0⟩, ⟨5, 0, 0⟩]
          triangles := [⟨4, 0, 0⟩] } := by
  have hs : wrapMesh.perVertex.isNone = false := rfl
  unfold extractIsoSurface
  simp only [hs, Bool.false_eq_true, if_false, wrap_collect]
  exact wrap_build

theorem uniform_extract :
    extractIsoSurface ratBits (some uniformMesh) 1
      = .ok { UMesh.empty with vertices := [⟨6, 0, 0⟩], triangles := [⟨0, 0, 0⟩] } := by
  have hs : uniformMesh.perVertex.isNone = false := rfl
  unfold extractIsoSurface
  simp only [hs, Bool.false_eq_true, if_false, uniform_collect]
  exact uniform_build

theorem overflow_extract :
    extractIsoSurface ratBits (some overflowMesh) 1 = .error .length_error := by
  have hs : overflowMesh.perVertex.isNone = false := rfl
  unfold extractIsoSurface
  simp only [hs, Bool.false_eq_true, if_false, overflow_collect]
  exact buildIndexedMesh_length_error ratBits overflowRaw
    (by rw [overflowRaw_length]; exact toInt32_overflow)

/-! ## Claims that do not hold beyond the range of `int` -/

/-- C1 does not hold for the buffer `overflowRaw`: it holds `2^31 + 1` raw
corners, a multiple of 3. Its size narrowed to `int` is `-2147483647`, the
three loops are skipped and `resize` throws: the merge returns no vertex
array and no triangle array, so no corner finds its position. -/
theorem C1_merge_throws :
    overflowRaw.length = 2 ^ 31 + 1 ∧ overflowRaw.length % 3 = 0 ∧
    toInt32 overflowRaw.length = -2147483647 ∧
    buildIndexedMesh ratBits overflowRaw = .error .length_error := by
  refine ⟨?_, ?_, ?_, ?_⟩
  · rw [overflowRaw_length]
    decide
  · rw [overflowRaw_length]
  · rw [overflowRaw_length]
    decide
  · exact buildIndexedMesh_length_error ratBits overflowRaw
      (by rw [overflowRaw_length]; exact toInt32_overflow)

/-- C2 does not hold for the buffer `wrapRaw`: it holds `2^32 + 5` raw corners
at eight positions. Its size is narrowed to 5, the merge scans five records
and returns five vertices: the position `(7,0,0)` of the raw corners is not in
the vertex array. -/
theorem C2_positions_lost :
    ∃ out, buildIndexedMesh ratBits wrapRaw = .ok out ∧
      out.vertices = [⟨0, 0, 0⟩, ⟨2, 0, 0⟩, ⟨3, 0, 0⟩, ⟨4, 0, 0⟩, ⟨5, 0, 0⟩] ∧
      (⟨7, 0, 0⟩ : vec3f) ∈ wrapRaw.map FatVertex.pos ∧
      (⟨7, 0, 0⟩ : vec3f) ∉ out.vertices := by
  refine ⟨_, wrap_build, rfl, ?_, by decide!⟩
  rw [wrapRaw_split]
  exact List.mem_map.mpr ⟨⟨⟨7, 0, 0⟩, 0⟩, List.mem_append_left _ (by decide!), rfl⟩

/-- C4 does not hold for the mesh `overflowMesh`: it has a scalar field and
715,827,883 tetrahedra whose indices are all within range; each emits one
triangle, the buffer holds `2^31 + 1` corners and the call ends with the
`std::length_error` of `resize`, not with a mesh. -/
theorem C4_in_range_mesh_throws :
    overflowMesh.perVertex = some fanScalars ∧ InRange overflowMesh fanScalars ∧
    overflowMesh.tets.length = 715827883 ∧
    extractIsoSurface ratBits (some overflowMesh) 1 = .error .length_error :=
  ⟨rfl, fan_inRange _ (bulk_mem _), List.length_replicate _ _, overflow_extract⟩

/-- C5 does not hold for `wrapRaw`: `wrapRawReordered` holds the triangles of
`wrapRaw` in another order. Both merges succeed with one triangle; the first
corner of it, the one index that both merges write, is the vertex `(5,0,0)`
for the one buffer and the vertex `(4,0,0)` for the other. -/
theorem C5_order_dependence :
    ∃ tris tris2 m1 m2 t1 t2, wrapRaw = unpack tris ∧ wrapRawReordered = unpack tris2 ∧
      tris2.Perm tris ∧
      buildIndexedMesh ratBits wrapRaw = .ok m1 ∧
      buildIndexedMesh ratBits wrapRawReordered = .ok m2 ∧
      m1.triangles = [t1] ∧ m2.triangles = [t2] ∧
      getInt? m1.vertices t1.x = some ⟨5, 0, 0⟩ ∧
      getInt? m2.vertices t2.x = some ⟨4, 0, 0⟩ := by
  refine ⟨_, _, _, _, _, _, rfl, rfl, ?_, wrap_build, wrapReordered_build, rfl, rfl,
    by decide!, by decide!⟩
  have h := (List.perm_append_singleton (fanTriangle ⟨5, 0, 0⟩)
    (List.replicate 1431655762 (fanTriangle ⟨6, 0, 0⟩)
      ++ [fanTriangle ⟨0, 0, 0⟩, fanTriangle ⟨2, 0, 0⟩, fanTriangle ⟨3, 0, 0⟩,
        fanTriangle ⟨4, 0, 0⟩])).symm
  rw [List.append_assoc] at h
  exact h

/-- C6 does not hold for the mesh `wrapMesh`: its raw corners at iso-value 1
are `3 * 1431655767` in number, and the returned mesh has one triangle. -/
theorem C6_triangle_count :
    ∃ raw out, collectFatVertices wrapMesh 1 = some raw ∧ raw.length = 3 * 1431655767 ∧
      extractIsoSurface ratBits (some wrapMesh) 1 = .ok out ∧ out.triangles.length = 1 :=
  ⟨_, _, wrap_collect, wrapRaw_length, wrap_extract, rfl⟩

/-- C23 does not hold for the mesh `uniformMesh`: the mesh returned for it at
iso-value 1 has one vertex and one triangle, so the triangle has no two
different indices within the vertex array. -/
theorem C23_single_vertex :
    ∃ out, extractIsoSurface ratBits (some uniformMesh) 1 = .ok out ∧
      out.vertices.length = 1 ∧ out.triangles.length = 1 ∧
      ∀ t ∈ out.triangles, ¬ (t.x ≠ t.y ∧ (0 ≤ t.x ∧ t.x < out.vertices.length) ∧
        (0 ≤ t.y ∧ t.y < out.vertices.length)) := by
  refine ⟨_, uniform_extract, rfl, rfl, ?_⟩
  intro t _
  have hl : ({ UMesh.empty with vertices := [⟨6, 0, 0⟩], triangles := [⟨0, 0, 0⟩] } :
    UMesh).vertices.length = 1 := rfl
  rw [hl]
  omega

/-- C26 does not hold for the mesh `wrapMesh`: the mesh returned for it at
iso-value 1 has five vertices and one triangle, so some vertex index below 5
is referenced by no corner. -/
theorem C26_orphan_vertex :
    ∃ out, extractIsoSurface ratBits (some wrapMesh) 1 = .ok out ∧
      out.vertices.length = 5 ∧ out.triangles.length = 1 ∧
      ∃ i : Int, 0 ≤ i ∧ i < 5 ∧ ∀ t ∈ out.triangles, t.x ≠ i ∧ t.y ≠ i ∧ t.z ≠ i := by
  refine ⟨_, wrap_extract, rfl, rfl, 1, by decide, by decide, ?_⟩
  intro t ht
  rw [List.mem_singleton.mp ht]
  decide

end umesh
